import Mathlib

/-!
# SkeinCoin mining RPC layer (`src/rpcmining.cpp`)

A shallow embedding of the mining-work distribution code and the properties
of it that the specification states.

Conventions of the embedding.

* C++ `int` / `unsigned int` loop counters and sizes are natural numbers; the
  sizes involved are lengths of in-memory vectors, far below `2^31`.
* A `uint256` digest is an element of an arbitrary type `D` where only the
  black-box `Hash` acts on it, and a natural number below `2^256` where its
  bytes are read from a buffer.
* An unchecked C++ access (`vTree[k]`, `*p`) is modelled as a checked access
  that fails with a fault, so a theorem that shows a result also shows that no
  such fault occurs.
-/

namespace SkeinCoin

/-! ## Errors -/

/-- Ways in which a call can end without a value: the `runtime_error` thrown
for a bad argument count, the `JSONRPCError` codes used in the file, and the
faults of the machine model (a read outside a vector, a dereference of a
`NULL` or dangling pointer, a loop that outlives its iteration bound). -/
inductive Err where
  /-- The usage text: `throw runtime_error("...")`. -/
  | usage
  /-- Thrown as `RPC_CLIENT_NOT_CONNECTED`, "Skeincoin is not connected!". -/
  | RPC_CLIENT_NOT_CONNECTED
  /-- Thrown as `RPC_CLIENT_IN_INITIAL_DOWNLOAD`, "Skeincoin is downloading blocks...". -/
  | RPC_CLIENT_IN_INITIAL_DOWNLOAD
  /-- Thrown as `RPC_OUT_OF_MEMORY`, "Out of memory". -/
  | RPC_OUT_OF_MEMORY
  /-- Thrown as `RPC_INVALID_PARAMETER`, "Invalid parameter". -/
  | RPC_INVALID_PARAMETER
  /-- Thrown as `RPC_INVALID_PARAMETER`, "<aux> must be the empty string or 'submit' ...". -/
  | RPC_INVALID_PARAMETER_aux
  /-- Thrown as `RPC_INVALID_PARAMETER`, "Invalid mode". -/
  | RPC_INVALID_PARAMETER_mode
  /-- Thrown as `RPC_MISC_ERROR`, "invalid aux pow script". -/
  | RPC_MISC_ERROR
  /-- Thrown as `RPC_DESERIALIZATION_ERROR`, "Block decode failed". -/
  | RPC_DESERIALIZATION_ERROR
  /-- A read past the end of a vector. -/
  | outOfBounds
  /-- A dereference of a `NULL` or deleted pointer. -/
  | badPointer
  /-- A loop did not finish within its iteration bound. -/
  | outOfFuel
  deriving DecidableEq, Repr

deriving instance DecidableEq for Except

/-! ## `buildmerkletree` (lines 508-542) -/

section Merkle

variable {D : Type}

/-- The inner loop of `buildmerkletree`:
`for (int i = 0; i < nSize; i += 2) { int i2 = std::min(i+1, nSize-1);
 vTree.push_back(Hash(vTree[j+i], vTree[j+i2])); }`,
entered at loop counter `i`. -/
def buildmerkletree_inner (Hash : D → D → D) (j nSize : Nat) :
    Nat → Nat → List D → Except Err (List D)
  | 0, i, vTree => if i < nSize then .error .outOfFuel else .ok vTree
  | fuel + 1, i, vTree =>
    if i < nSize then
      let i2 := min (i + 1) (nSize - 1)
      match vTree[j + i]?, vTree[j + i2]? with
      | some a, some b => buildmerkletree_inner Hash j nSize fuel (i + 2) (vTree ++ [Hash a b])
      | _, _ => .error .outOfBounds
    else .ok vTree

/-- The outer loop of `buildmerkletree`:
`for (int nSize = params.size(); nSize > 1; nSize = (nSize + 1) / 2) { ...; j += nSize; }`. -/
def buildmerkletree_outer (Hash : D → D → D) :
    Nat → Nat → Nat → List D → Except Err (List D)
  | 0, nSize, _, vTree => if 1 < nSize then .error .outOfFuel else .ok vTree
  | fuel + 1, nSize, j, vTree =>
    if 1 < nSize then
      match buildmerkletree_inner Hash j nSize nSize 0 vTree with
      | .ok vTree2 => buildmerkletree_outer Hash fuel ((nSize + 1) / 2) (j + nSize) vTree2
      | .error e => .error e
    else .ok vTree

/-- The RPC `buildmerkletree`, on the digests parsed from its arguments
(`nHash.SetHex(obj.get_str())` for each argument): the argument-count check,
then the two nested loops over `vTree`, then the whole of `vTree` as result. -/
def buildmerkletree (Hash : D → D → D) (params : List D) : Except Err (List D) :=
  if params.length < 1 then .error .usage
  else buildmerkletree_outer Hash params.length params.length 0 params

/-- The pairing rule in the words of the specification: consecutive pairs
left to right, the last element paired with itself when the count is odd. -/
def pairLevel (Hash : D → D → D) : List D → List D
  | [] => []
  | [a] => [Hash a a]
  | a :: b :: rest => Hash a b :: pairLevel Hash rest

/-- Level `m` of the tree over `leaves` in the words of the specification:
level `0` is the leaves, each further level pairs the one below. -/
def merkleLevel (Hash : D → D → D) (leaves : List D) (m : Nat) : List D :=
  (pairLevel Hash)^[m] leaves

/-- The level-order concatenation `L0 ++ L1 ++ ... ++ Lk`. -/
def levelOrderUpTo (Hash : D → D → D) (leaves : List D) (k : Nat) : List D :=
  ((List.range (k + 1)).map (merkleLevel Hash leaves)).flatten

/-- Level-order concatenation by recursion on the levels: a level longer than
one is followed by the level order of its pairing. -/
def levelOrder (Hash : D → D → D) : Nat → List D → List D
  | 0, L => L
  | fuel + 1, L => if 1 < L.length then L ++ levelOrder Hash fuel (pairLevel Hash L) else L

/-- Modelled from the spec: `branchFor` (the block class's `GetMerkleBranch`)
is not part of `rpcmining.cpp`. The walk over the node array is the one the
specification describes: at each level of size `s > 1` that starts at offset
`j`, with current position `p`, the sibling is the node at
`j + min (p xor 1) (s - 1)`; then `p := p / 2`. -/
def branchFor_loop (vTree : List D) : Nat → Nat → Nat → Nat → Except Err (List D)
  | 0, s, _, _ => if 1 < s then .error .outOfFuel else .ok []
  | fuel + 1, s, j, p =>
    if 1 < s then
      match vTree[j + min (p ^^^ 1) (s - 1)]? with
      | some sib =>
        match branchFor_loop vTree fuel ((s + 1) / 2) (j + s) (p / 2) with
        | .ok rest => .ok (sib :: rest)
        | .error e => .error e
      | none => .error .outOfBounds
    else .ok []

/-- Modelled from the spec: the branch of leaf `i` read off the node array of
a tree with `n` leaves. -/
def branchFor (vTree : List D) (n i : Nat) : Except Err (List D) :=
  branchFor_loop vTree n n 0 i

/-- Modelled from the spec: the fold from a leaf upward, combining as
`Hash sibling current` when the position is odd and `Hash current sibling`
when it is even. -/
def recomputeRoot (Hash : D → D → D) : D → List D → Nat → D
  | cur, [], _ => cur
  | cur, sib :: rest, p =>
    recomputeRoot Hash (if p % 2 = 1 then Hash sib cur else Hash cur sib) rest (p / 2)

end Merkle

/-! ## The work buffer of `getwork` (lines 174-207) -/

/-- The number a byte sequence stores on the little-endian host: the first
byte is the least significant. -/
def ofBytesLE : List Nat → Nat
  | [] => 0
  | b :: rest => b + 256 * ofBytesLE rest

/-- The `n` bytes that store `v` on the little-endian host. -/
def toBytesLE : Nat → Nat → List Nat
  | 0, _ => []
  | n + 1, v => v % 256 :: toBytesLE n (v / 256)

/-- Modelled from the spec: `ByteReverse` is declared outside
`rpcmining.cpp`; it reverses the byte order of a 32-bit word. -/
def ByteReverse (value : Nat) : Nat :=
  ofBytesLE (toBytesLE 4 value).reverse

/-- The read `((unsigned int*)pdata)[i]` of the `i`-th 4-byte word of a buffer. -/
def readWord (buf : List Nat) (i : Nat) : Nat :=
  ofBytesLE ((buf.drop (4 * i)).take 4)

/-- The write `((unsigned int*)pdata)[i] = v` of the `i`-th 4-byte word. -/
def writeWord (buf : List Nat) (i : Nat) (v : Nat) : List Nat :=
  buf.take (4 * i) ++ toBytesLE 4 v ++ buf.drop (4 * i + 4)

/-- The byte-reverse loop
`for (int i = 0; i < n; i++) ((unsigned int*)pdata)[i] = ByteReverse(((unsigned int*)pdata)[i]);`
over the first `n` words of a buffer. -/
def byteReverseLoop (n : Nat) (buf : List Nat) : List Nat :=
  (List.range n).foldl (fun b i => writeWord b i (ByteReverse (readWord b i))) buf

/-- The reversal in the words of the specification: the byte order inside each
of the consecutive 4-byte words of a buffer is reversed. -/
def swapWords : List Nat → List Nat
  | a :: b :: c :: d :: rest => d :: c :: b :: a :: swapWords rest
  | l => l

/-- The header fields of a block, as the first members of the in-memory block
object: `int nVersion; uint256 hashPrevBlock; uint256 hashMerkleRoot;
unsigned int nTime; unsigned int nBits; unsigned int nNonce;`. -/
structure CBlockHeader where
  nVersion : Int
  hashPrevBlock : Nat
  hashMerkleRoot : Nat
  nTime : Nat
  nBits : Nat
  nNonce : Nat
  deriving DecidableEq, Repr

/-- The fields of a header are in the range of their C++ types. -/
def CBlockHeader.Valid (h : CBlockHeader) : Prop :=
  -(2 ^ 31 : Int) ≤ h.nVersion ∧ h.nVersion < 2 ^ 31 ∧
  h.hashPrevBlock < 2 ^ 256 ∧ h.hashMerkleRoot < 2 ^ 256 ∧
  h.nTime < 2 ^ 32 ∧ h.nBits < 2 ^ 32 ∧ h.nNonce < 2 ^ 32

instance (h : CBlockHeader) : Decidable h.Valid := by
  unfold CBlockHeader.Valid
  infer_instance

/-- The `int` stored in a 32-bit word (two's complement). -/
def toInt32 (w : Nat) : Int :=
  if w < 2 ^ 31 then (w : Int) else (w : Int) - 2 ^ 32

/-- The 80 bytes of a header in the in-memory layout: version, previous-block
hash, merkle root, time, bits, nonce. -/
def headerBytes (h : CBlockHeader) : List Nat :=
  toBytesLE 4 (h.nVersion % 2 ^ 32).toNat ++ toBytesLE 32 h.hashPrevBlock
    ++ toBytesLE 32 h.hashMerkleRoot ++ toBytesLE 4 h.nTime ++ toBytesLE 4 h.nBits
    ++ toBytesLE 4 h.nNonce

/-- The header fields read through `CBlock* pdata = (CBlock*)&vchData[0]`:
each field at its offset in the in-memory layout. -/
def headerView (buf : List Nat) : CBlockHeader where
  nVersion := toInt32 (ofBytesLE (buf.take 4))
  hashPrevBlock := ofBytesLE ((buf.drop 4).take 32)
  hashMerkleRoot := ofBytesLE ((buf.drop 36).take 32)
  nTime := ofBytesLE ((buf.drop 68).take 4)
  nBits := ofBytesLE ((buf.drop 72).take 4)
  nNonce := ofBytesLE ((buf.drop 76).take 4)

/-- Modelled from the spec: the padding that `FormatHashBuffers` puts after
the 80 header bytes to fill the 128-byte buffer (the hash function's padding
of an 80-byte message: a `0x80` byte, zeros, the bit length 640). -/
def hashPadding : List Nat :=
  0x80 :: List.replicate 45 0 ++ [0x02, 0x80]

/-- Modelled from the spec: `FormatHashBuffers` is defined outside
`rpcmining.cpp`. Its `pdata` output is the header in the in-memory layout,
padded to 128 bytes, with the byte order inside each 4-byte word reversed (the
wire format is word-swapped relative to the in-memory layout). -/
def FormatHashBuffers_pdata (h : CBlockHeader) : List Nat :=
  byteReverseLoop (128 / 4) (headerBytes h ++ hashPadding)

/-- The decode step of `getwork` and `getworkaux` (lines 192-199, 318-325):
the length check on the parsed bytes, then the byte-reverse loop over the
`128/4` words, then the buffer seen as a block object. -/
def decodeWork (vchData : List Nat) : Except Err CBlockHeader :=
  if vchData.length ≠ 128 then .error .RPC_INVALID_PARAMETER
  else .ok (headerView (byteReverseLoop (128 / 4) vchData))

/-- A header with every field in range, used to run the codec. -/
def sampleHeader : CBlockHeader :=
  ⟨2, 5, 7, 1400000000, 0x1d00ffff, 42⟩

/-! ## Blocks, scripts and the collaborators of the mining calls -/

/-- Modelled from the spec: the script class is declared outside
`rpcmining.cpp`. One parsed operation of a script: its op-code and the data it
pushes. -/
structure ScriptOp where
  opcode : Nat
  data : List Nat
  deriving DecidableEq, Repr

/-- Modelled from the spec: a script, as the sequence of its operations. -/
abbrev CScript := List ScriptOp

/-- The op-code `OP_2`. -/
def OP_2 : Nat := 0x52

/-- The op-code `OP_INVALIDOPCODE`, left in `opcode` by a `GetOp` that finds
no further operation. -/
def OP_INVALIDOPCODE : Nat := 0xff

/-- Modelled from the spec: `script.GetOp(pc, opcode, vch)` reads the
operation at `pc` and advances `pc`; at the end of the script it leaves the
invalid op-code and no data. The result is the new `pc` (the rest of the
script), the op-code and the data. -/
def GetOp : CScript → CScript × Nat × List Nat
  | [] => ([], OP_INVALIDOPCODE, [])
  | op :: rest => (rest, op.opcode, op.data)

/-- A transaction, as far as the mining calls look into it: the script of its
first input (`vin[0].scriptSig`) and the rest of its content. -/
structure CTransaction where
  scriptSig : CScript
  rest : Nat
  deriving DecidableEq, Repr

/-- The auxiliary proof of work assembled by `getworkaux` (lines 358-369). -/
structure CAuxPow where
  /-- The transaction the proof is built on: `CAuxPow pow(pblock->vtx[0])`. -/
  tx : CTransaction
  /-- Set by `pow.SetMerkleBranch(pblock)`. -/
  vMerkleBranch : List Nat
  vChainMerkleBranch : List Nat
  nChainIndex : Int
  /-- The header of `pow.parentBlock = *pblock` (the proof is serialized with
  `SER_BLOCKHEADERONLY`). -/
  parentBlock : CBlockHeader
  deriving DecidableEq, Repr

/-- A candidate block: the header fields, the transactions (`vtx[0]`, the
coinbase, is always present) and the auxiliary proof attached by `SetAuxPow`. -/
structure CBlock extends CBlockHeader where
  coinbase : CTransaction
  vtxTail : List CTransaction
  auxpow : Option CAuxPow
  deriving DecidableEq, Repr

/-- The transaction list `vtx` of a block. -/
def CBlock.vtx (b : CBlock) : List CTransaction :=
  b.coinbase :: b.vtxTail

/-- The assignment `pblock->vtx[0].vin[0].scriptSig = script`. -/
def CBlock.setScriptSig (b : CBlock) (script : CScript) : CBlock :=
  { b with coinbase := { b.coinbase with scriptSig := script } }

/-- What `CreateNewBlock` returns: the block and the per-transaction fees and
signature-operation counts. -/
structure CBlockTemplate where
  block : CBlock
  vTxFees : List Int
  vTxSigOps : List Int
  deriving DecidableEq, Repr

/-- The pure functions that the mining calls use and that are defined outside
`rpcmining.cpp`; the model is parametric in them. -/
structure Ext where
  /-- The root that `CBlock::BuildMerkleTree` computes from `vtx`. -/
  BuildMerkleTree : List CTransaction → Nat
  /-- The branch that `SetMerkleBranch` computes for a position of `vtx`. -/
  GetMerkleBranch : List CTransaction → Nat → List Nat
  /-- The value of `pindex->GetMedianTimePast()` for a block index. -/
  GetMedianTimePast : Nat → Int
  /-- The value of `pindex->nHeight` for a block index. -/
  nHeight : Nat → Int
  /-- The coinbase input script that `IncrementExtraNonce` writes for the
  block index built on and the new extra nonce. -/
  extraNonceScript : Nat → Nat → CScript
  /-- The extra nonce and previous time that `IncrementExtraNonceWithAux`
  leaves, from the old values and the current time. -/
  nextExtraNonceWithAux : Nat → Int → Int → Nat × Int
  /-- The script `MakeCoinbaseWithAux(nBits, nExtraNonce, vchAux)`. -/
  MakeCoinbaseWithAux : Nat → Nat → List Nat → CScript
  /-- The effect of `RemoveMergedMiningHeader(vchAux)` on `vchAux`, or the
  error it throws. -/
  RemoveMergedMiningHeader : List Nat → Except Err (List Nat)
  /-- The target `CBigNum().SetCompact(nBits).getuint256()`. -/
  SetCompact : Nat → Nat
  /-- The value of `pblock->GetHash()`. -/
  GetHash : CBlockHeader → Nat
  /-- The value of `pblock->GetChainID()`. -/
  GetChainID : CBlock → Int
  /-- The version that `SetAuxPow` with a proof leaves in the header. -/
  auxpowVersion : Int → Int
  /-- The proof that `new CAuxPow()` constructs. -/
  newCAuxPow : CAuxPow
  /-- The operation that `script << n` appends for an `unsigned int`. -/
  pushUInt : Nat → ScriptOp
  /-- The operation that `script << CBigNum(n)` appends. -/
  pushBigNum : Int → ScriptOp

/-- What a call observes of the node outside the mining contexts: the global
variables it reads and the answers the collaborators give if it calls them. -/
structure Env where
  /-- The value of `vNodes.empty()`. -/
  vNodesEmpty : Bool
  /-- The value of `IsInitialBlockDownload()`. -/
  IsInitialBlockDownload : Bool
  /-- The block index `pindexBest`; a call that passes the initial-download
  check has a best block, so the pointer is not `NULL`. -/
  pindexBest : Nat
  nTransactionsUpdated : Nat
  /-- The value of `GetTime()`. -/
  GetTime : Int
  /-- The value of `GetAdjustedTime()`. -/
  GetAdjustedTime : Int
  /-- What `CreateNewBlock` returns if the call invokes it; `none` is `NULL`. -/
  CreateNewBlock : Option CBlockTemplate
  /-- The verdict of `CheckWork` on a block if the call invokes it. -/
  CheckWork : CBlock → Bool

/-- A call to a collaborator made while serving a request. The record of a
`CreateNewBlock` call carries the keys that the context's `mapNewBlock` held
at the moment of the call. -/
inductive Call where
  | CreateNewBlock (cachedRoots : List Nat)
  | CheckWork (pblock : CBlock)
  deriving DecidableEq, Repr

/-- The values the mining calls return. The `midstate` and `hash1` members of
a work result are outputs of the hash primitive and are left out. -/
inductive Value where
  | null
  | bool (b : Bool)
  /-- The result `{data, target}` of a work poll. -/
  | work (data : List Nat) (target : Nat)
  /-- The result `{aux, hash}` of `getworkaux`. -/
  | auxHash (aux : List Nat) (hash : Nat)
  /-- The result `{auxpow}` of `getworkaux`. -/
  | auxpow (pow : CAuxPow)
  /-- The result `{target, hash, chainid}` of `getauxblock`. -/
  | auxblock (target : Nat) (hash : Nat) (chainid : Int)
  /-- The result of `getblocktemplate`: the template served, `mintime` and
  `height`. -/
  | blocktemplate (t : CBlockTemplate) (mintime : Int) (height : Int)
  deriving DecidableEq, Repr

/-- The outcome of a call on a context: the context afterwards, the value
returned or the error thrown, and the collaborator calls made, in order. -/
structure Step (σ : Type) where
  state : σ
  result : Except Err Value
  calls : List Call

/-- The `data` member of the work result a call returned, if it returned one. -/
def Step.data {σ : Type} (s : Step σ) : List Nat :=
  match s.result with
  | .ok (.work d _) => d
  | _ => []

/-- The chain index of the auxiliary proof a call returned, if it returned one. -/
def Step.auxpowChainIndex {σ : Type} (s : Step σ) : Option Int :=
  match s.result with
  | .ok (.auxpow pow) => some pow.nChainIndex
  | _ => none

/-- The `aux` member of the `{aux, hash}` result a call returned, if it
returned one. -/
def Step.aux {σ : Type} (s : Step σ) : Option (List Nat) :=
  match s.result with
  | .ok (.auxHash aux _) => some aux
  | _ => none

/-- The call returned a value. -/
def Step.succeeded {σ : Type} (s : Step σ) : Bool :=
  match s.result with
  | .ok _ => true
  | .error _ => false

/-- Membership test `mapNewBlock.count(key)` and read `mapNewBlock[key]` of an
existing key. -/
def mapFind {β : Type} (m : List (Nat × β)) (key : Nat) : Option β :=
  m.lookup key

/-- The assignment `mapNewBlock[key] = value`: the entry for the key is
created or replaced. -/
def mapSet {β : Type} (m : List (Nat × β)) (key : Nat) (value : β) : List (Nat × β) :=
  (key, value) :: m.filter (fun e => e.1 ≠ key)

/-- The value stored in an `unsigned int` by an assignment from `int64`. -/
def toUInt32 (v : Int) : Nat :=
  (v % 2 ^ 32).toNat

/-- Modelled from the spec: `UpdateTime` is defined outside `rpcmining.cpp`.
The time field is set to at least one second past the median time of the
previous blocks and no earlier than the adjusted clock. -/
def UpdateTime (ext : Ext) (env : Env) (block : CBlock) (pindexPrev : Nat) : CBlock :=
  { block with nTime := toUInt32 (max (ext.GetMedianTimePast pindexPrev + 1) env.GetAdjustedTime) }

/-- Modelled from the spec: `IncrementExtraNonce` is defined outside
`rpcmining.cpp`. The extra nonce is incremented and folded into the coinbase
input script, and the transaction root is recomputed from the transactions. -/
def IncrementExtraNonce (ext : Ext) (pblock : CBlock) (pindexPrev : Nat) (nExtraNonce : Nat) :
    CBlock × Nat :=
  let n := (nExtraNonce + 1) % 2 ^ 32
  let b := pblock.setScriptSig (ext.extraNonceScript pindexPrev n)
  ({ b with hashMerkleRoot := ext.BuildMerkleTree b.vtx }, n)

/-- Modelled from the spec: `IncrementExtraNonceWithAux` is defined outside
`rpcmining.cpp`. The extra nonce is advanced, the coinbase input script is
rewritten to carry the auxiliary commitment, and the transaction root is
recomputed from the transactions. -/
def IncrementExtraNonceWithAux (ext : Ext) (env : Env) (pblock : CBlock) (pindexPrev : Nat)
    (nExtraNonce : Nat) (nPrevTime : Int) (vchAux : List Nat) : CBlock × Nat × Int :=
  let now := max (ext.GetMedianTimePast pindexPrev + 1) env.GetAdjustedTime
  let next := ext.nextExtraNonceWithAux nExtraNonce nPrevTime now
  let b := pblock.setScriptSig (ext.MakeCoinbaseWithAux pblock.nBits next.1 vchAux)
  ({ b with hashMerkleRoot := ext.BuildMerkleTree b.vtx }, next.1, next.2)

/-! ## `getwork` (lines 103-213) -/

/-- The static variables of `getwork`. A `CBlock*` into a template owned by
`vNewBlockTemplate` is the position of the template in that vector; the block
it points to is read and written there. Static storage starts zeroed. -/
structure GetworkState where
  /-- The map from the root issued to the block pointer and the coinbase
  input script saved with it. -/
  mapNewBlock : List (Nat × (Nat × CScript))
  vNewBlockTemplate : List CBlockTemplate
  nTransactionsUpdatedLast : Nat
  /-- The recorded tip; `none` is `NULL`. -/
  pindexPrev : Option Nat
  nStart : Int
  /-- The current template; `none` is `NULL`. -/
  pblocktemplate : Option Nat
  nExtraNonce : Nat
  deriving DecidableEq, Repr

/-- The statics of `getwork` before the first call. -/
def GetworkState.init : GetworkState :=
  ⟨[], [], 0, none, 0, none, 0⟩

/-- The end of a call by `throw`. -/
def throwErr {σ : Type} (st : σ) (e : Err) (calls : List Call) : Step σ :=
  ⟨st, .error e, calls⟩

/-- The per-poll update of the current block in `getwork` (lines 163-169):
`UpdateTime(*pblock, pindexPrev); pblock->nNonce = 0;
 IncrementExtraNonce(pblock, pindexPrev, nExtraNonce);`. The result is the
block and the new extra nonce. -/
def getwork_update (ext : Ext) (env : Env) (block : CBlock) (prev : Nat) (nExtraNonce : Nat) :
    CBlock × Nat :=
  let b1 := UpdateTime ext env block prev
  let b2 := { b1 with nNonce := 0 }
  IncrementExtraNonce ext b2 prev nExtraNonce

/-- The rest of a `getwork` poll after the update of the template (lines
161-187): time, nonce and extra nonce are updated in the current block, the
block is saved under its root with its coinbase input script, and the work
buffer is formatted. -/
def getwork_serve (ext : Ext) (env : Env) (st : GetworkState) (calls : List Call) :
    Step GetworkState :=
  match st.pblocktemplate with
  | none => throwErr st .badPointer calls
  | some p =>
    match st.vNewBlockTemplate[p]? with
    | none => throwErr st .badPointer calls
    | some t =>
      match st.pindexPrev with
      | none => throwErr st .badPointer calls
      | some prev =>
        let r := getwork_update ext env t.block prev st.nExtraNonce
        let pblock := r.1
        let st2 := { st with
          vNewBlockTemplate := st.vNewBlockTemplate.set p { t with block := pblock }
          nExtraNonce := r.2
          mapNewBlock := mapSet st.mapNewBlock pblock.hashMerkleRoot (p, pblock.coinbase.scriptSig) }
        ⟨st2, .ok (.work (FormatHashBuffers_pdata pblock.toCBlockHeader)
            (ext.SetCompact pblock.nBits)), calls⟩

/-- The poll branch of `getwork` (lines 127-187). -/
def getwork_poll (ext : Ext) (env : Env) (st : GetworkState) : Step GetworkState :=
  if st.pindexPrev ≠ some env.pindexBest ∨
      (env.nTransactionsUpdated ≠ st.nTransactionsUpdatedLast ∧ env.GetTime - st.nStart > 60) then
    -- Deallocate old blocks since they're obsolete now
    let st1 := if st.pindexPrev ≠ some env.pindexBest then
        { st with mapNewBlock := [], vNewBlockTemplate := [] }
      else st
    -- Clear pindexPrev so future getworks make a new block, despite any failures from here on
    let st2 := { st1 with
      pindexPrev := none
      nTransactionsUpdatedLast := env.nTransactionsUpdated
      nStart := env.GetTime }
    let calls := [Call.CreateNewBlock (st2.mapNewBlock.map Prod.fst)]
    match env.CreateNewBlock with
    | none => throwErr { st2 with pblocktemplate := none } .RPC_OUT_OF_MEMORY calls
    | some t =>
      -- Need to update only after we know CreateNewBlock succeeded
      let st3 := { st2 with
        vNewBlockTemplate := st2.vNewBlockTemplate ++ [t]
        pblocktemplate := some st2.vNewBlockTemplate.length
        pindexPrev := some env.pindexBest }
      getwork_serve ext env st3 calls
  else getwork_serve ext env st []

/-- The reconstruction of the saved block in a `getwork` submission (lines
206-209): the submitted time and nonce are written, the saved coinbase input
script is put back, and the merkle root is recomputed. -/
def getwork_restore (ext : Ext) (block : CBlock) (pdata : CBlockHeader) (script : CScript) :
    CBlock :=
  let b1 := { block with nTime := pdata.nTime, nNonce := pdata.nNonce }
  let b2 := b1.setScriptSig script
  { b2 with hashMerkleRoot := ext.BuildMerkleTree b2.vtx }

/-- The submission branch of `getwork` (lines 191-211). -/
def getwork_submit (ext : Ext) (env : Env) (st : GetworkState) (vchData : List Nat) :
    Step GetworkState :=
  match decodeWork vchData with
  | .error e => throwErr st e []
  | .ok pdata =>
    -- Get saved block
    match mapFind st.mapNewBlock pdata.hashMerkleRoot with
    | none => ⟨st, .ok (.bool false), []⟩
    | some (p, script) =>
      match st.vNewBlockTemplate[p]? with
      | none => throwErr st .badPointer []
      | some t =>
        let pblock := getwork_restore ext t.block pdata script
        let st2 := { st with
          vNewBlockTemplate := st.vNewBlockTemplate.set p { t with block := pblock } }
        ⟨st2, .ok (.bool (env.CheckWork pblock)), [Call.CheckWork pblock]⟩

/-- The RPC `getwork`. The arguments are given as the byte strings that
`ParseHex(params[i].get_str())` yields. -/
def getwork (ext : Ext) (env : Env) (st : GetworkState) (params : List (List Nat)) :
    Step GetworkState :=
  if params.length > 1 then throwErr st .usage []
  else if env.vNodesEmpty then throwErr st .RPC_CLIENT_NOT_CONNECTED []
  else if env.IsInitialBlockDownload then throwErr st .RPC_CLIENT_IN_INITIAL_DOWNLOAD []
  else
    match params with
    | [] => getwork_poll ext env st
    | vchData :: _ => getwork_submit ext env st vchData

/-! ## `getworkaux` (lines 216-391) -/

/-- The statics of `getworkaux`; pointers are positions in
`vNewBlockTemplate` as for `getwork`. -/
structure GetworkauxState where
  /-- The map from the root issued to the block pointer and the extra nonce
  saved with it. -/
  mapNewBlock : List (Nat × (Nat × Nat))
  vNewBlockTemplate : List CBlockTemplate
  vchAuxPrev : List Nat
  nTransactionsUpdatedLast : Nat
  pindexPrev : Option Nat
  nStart : Int
  pblocktemplate : Option Nat
  nExtraNonce : Nat
  nPrevTime : Int
  deriving DecidableEq, Repr

/-- The statics of `getworkaux` before the first call. -/
def GetworkauxState.init : GetworkauxState :=
  ⟨[], [], [], 0, none, 0, none, 0, 0⟩

/-- The first argument of `getworkaux`: the empty string, the string
`submit`, or another string, given with the bytes `ParseHex` reads from it. -/
inductive AuxArg where
  | empty
  | submit
  | other (vchAux : List Nat)
  deriving DecidableEq, Repr

/-- The bytes `ParseHex(params[0].get_str())`: parsing stops at the first
character that is not a hex digit. -/
def AuxArg.ParseHex : AuxArg → List Nat
  | .empty => []
  | .submit => []
  | .other vchAux => vchAux

/-- The argument list of `getworkaux`: the first argument, then (when
`params.size() >= 2`) the parsed work data, then (when `params.size() > 2`)
the chain index `params[2].get_int()` and the branch hashes `params[3..]`. -/
structure GetworkauxParams where
  first : AuxArg
  more : Option (List Nat × Option (Int × List Nat))
  deriving DecidableEq, Repr

/-- The per-poll update of the current block in `getworkaux` (lines
285-292): the time is set, the nonce is reset, and
`IncrementExtraNonceWithAux` rewrites the coinbase. The result is the block,
the new extra nonce and the new previous time. -/
def getworkaux_update (ext : Ext) (env : Env) (block : CBlock) (prev : Nat) (nExtraNonce : Nat)
    (nPrevTime : Int) (vchAux : List Nat) : CBlock × Nat × Int :=
  let b1 := { block with
    nTime := toUInt32 (max (ext.GetMedianTimePast prev + 1) env.GetAdjustedTime) }
  let b2 := { b1 with nNonce := 0 }
  IncrementExtraNonceWithAux ext env b2 prev nExtraNonce nPrevTime vchAux

/-- The rest of a `getworkaux` poll after the update of the template (lines
283-310). -/
def getworkaux_serve (ext : Ext) (env : Env) (st : GetworkauxState) (vchAux : List Nat)
    (calls : List Call) : Step GetworkauxState :=
  match st.pblocktemplate with
  | none => throwErr st .badPointer calls
  | some p =>
    match st.vNewBlockTemplate[p]? with
    | none => throwErr st .badPointer calls
    | some t =>
      match st.pindexPrev with
      | none => throwErr st .badPointer calls
      | some prev =>
        let r := getworkaux_update ext env t.block prev st.nExtraNonce st.nPrevTime vchAux
        let pblock := r.1
        let st2 := { st with
          vNewBlockTemplate := st.vNewBlockTemplate.set p { t with block := pblock }
          nExtraNonce := r.2.1
          nPrevTime := r.2.2
          mapNewBlock := mapSet st.mapNewBlock pblock.hashMerkleRoot (p, r.2.1) }
        ⟨st2, .ok (.work (FormatHashBuffers_pdata pblock.toCBlockHeader)
            (ext.SetCompact pblock.nBits)), calls⟩

/-- The poll branch of `getworkaux` (lines 252-310). -/
def getworkaux_poll (ext : Ext) (env : Env) (st : GetworkauxState) (vchAux : List Nat) :
    Step GetworkauxState :=
  if st.pindexPrev ≠ some env.pindexBest ∨ vchAux ≠ st.vchAuxPrev ∨
      (env.nTransactionsUpdated ≠ st.nTransactionsUpdatedLast ∧ env.GetTime - st.nStart > 60) then
    -- Deallocate old blocks since they're obsolete now
    let st1 := if st.pindexPrev ≠ some env.pindexBest then
        { st with mapNewBlock := [], vNewBlockTemplate := [] }
      else st
    let st2 := { st1 with
      nTransactionsUpdatedLast := env.nTransactionsUpdated
      pindexPrev := some env.pindexBest
      vchAuxPrev := vchAux
      nStart := env.GetTime }
    let calls := [Call.CreateNewBlock (st2.mapNewBlock.map Prod.fst)]
    match env.CreateNewBlock with
    | none => throwErr { st2 with pblocktemplate := none } .RPC_OUT_OF_MEMORY calls
    | some t =>
      let st3 := { st2 with
        vNewBlockTemplate := st2.vNewBlockTemplate ++ [t]
        pblocktemplate := some st2.vNewBlockTemplate.length }
      getworkaux_serve ext env st3 vchAux calls
  else getworkaux_serve ext env st vchAux []

/-- The first writes of a `getworkaux` submission into the saved block (lines
333-334): the submitted time and nonce. -/
def getworkaux_overlay (block : CBlock) (pdata : CBlockHeader) : CBlock :=
  { block with nTime := pdata.nTime, nNonce := pdata.nNonce }

/-- The rewrite of the coinbase in a `getworkaux` submission (lines 350-351):
the script is made again from the bits, the saved extra nonce and the
auxiliary data, and the merkle root is recomputed. -/
def getworkaux_restore (ext : Ext) (block : CBlock) (nExtraNonce : Nat) (vchAux : List Nat) :
    CBlock :=
  let b2 := block.setScriptSig (ext.MakeCoinbaseWithAux block.nBits nExtraNonce vchAux)
  { b2 with hashMerkleRoot := ext.BuildMerkleTree b2.vtx }

/-- The submission branch of `getworkaux` (lines 314-389). -/
def getworkaux_submit (ext : Ext) (env : Env) (st : GetworkauxState) (first : AuxArg)
    (vchData : List Nat) (chain : Option (Int × List Nat)) : Step GetworkauxState :=
  if first ≠ .submit ∧ first ≠ .empty then throwErr st .RPC_INVALID_PARAMETER_aux []
  else
    match decodeWork vchData with
    | .error e => throwErr st e []
    | .ok pdata =>
      -- Get saved block
      match mapFind st.mapNewBlock pdata.hashMerkleRoot with
      | none => ⟨st, .ok (.bool false), []⟩
      | some (p, nExtraNonce) =>
        match st.vNewBlockTemplate[p]? with
        | none => throwErr st .badPointer []
        | some t =>
          let b1 := getworkaux_overlay t.block pdata
          let st1 := { st with
            vNewBlockTemplate := st.vNewBlockTemplate.set p { t with block := b1 } }
          -- Get the aux merkle root from the coinbase
          let script := b1.coinbase.scriptSig
          let g1 := GetOp script
          let g2 := GetOp g1.1
          let g3 := GetOp g2.1
          if g3.2.1 ≠ OP_2 then throwErr st1 .RPC_MISC_ERROR []
          else
            let g4 := GetOp g3.1
            match ext.RemoveMergedMiningHeader g4.2.2 with
            | .error e => throwErr st1 e []
            | .ok vchAux =>
              let pblock := getworkaux_restore ext b1 nExtraNonce vchAux
              let st2 := { st with
                vNewBlockTemplate := st.vNewBlockTemplate.set p { t with block := pblock } }
              match chain with
              | some (nChainIndex, branch) =>
                -- Requested aux proof of work
                let pow : CAuxPow :=
                  { tx := pblock.coinbase
                    vMerkleBranch := ext.GetMerkleBranch pblock.vtx 0
                    vChainMerkleBranch := branch
                    nChainIndex := nChainIndex
                    parentBlock := pblock.toCBlockHeader }
                ⟨st2, .ok (.auxpow pow), []⟩
              | none =>
                if first = .submit then
                  ⟨st2, .ok (.bool (env.CheckWork pblock)), [Call.CheckWork pblock]⟩
                else
                  ⟨st2, .ok (.auxHash vchAux (ext.GetHash pblock.toCBlockHeader)), []⟩

/-- The RPC `getworkaux`. -/
def getworkaux (ext : Ext) (env : Env) (st : GetworkauxState) (params : GetworkauxParams) :
    Step GetworkauxState :=
  if env.vNodesEmpty then throwErr st .RPC_CLIENT_NOT_CONNECTED []
  else if env.IsInitialBlockDownload then throwErr st .RPC_CLIENT_IN_INITIAL_DOWNLOAD []
  else
    match params.more with
    | none => getworkaux_poll ext env st params.first.ParseHex
    | some (vchData, chain) => getworkaux_submit ext env st params.first vchData chain

/-! ## `getauxblock` (lines 393-506) -/

/-- The statics of `getauxblock`; pointers are positions in
`vNewBlockTemplate` as for `getwork`. -/
structure GetauxblockState where
  /-- The map from the block hash issued to the block pointer. -/
  mapNewBlock : List (Nat × Nat)
  vNewBlockTemplate : List CBlockTemplate
  nTransactionsUpdatedLast : Nat
  pindexPrev : Option Nat
  nStart : Int
  pblocktemplate : Option Nat
  /-- The static `CBlock* pblock`. -/
  pblock : Option Nat
  deriving DecidableEq, Repr

/-- The statics of `getauxblock` before the first call. -/
def GetauxblockState.init : GetauxblockState :=
  ⟨[], [], 0, none, 0, none, none⟩

/-- The end of a `getauxblock` poll (lines 464-474): the result is read
through the static `pblock`. -/
def getauxblock_serve (ext : Ext) (st : GetauxblockState) (calls : List Call) :
    Step GetauxblockState :=
  match st.pblock with
  | none => throwErr st .badPointer calls
  | some p =>
    match st.vNewBlockTemplate[p]? with
    | none => throwErr st .badPointer calls
    | some t =>
      ⟨st, .ok (.auxblock (ext.SetCompact t.block.nBits) (ext.GetHash t.block.toCBlockHeader)
          (ext.GetChainID t.block)), calls⟩

/-- The preparation of a new block in `getauxblock` (lines 449-458): time,
nonce, the coinbase input script `nBits, 1, OP_2`, the merkle root, and the
empty proof that sets the version. -/
def getauxblock_prepare (ext : Ext) (env : Env) (block : CBlock) : CBlock :=
  -- Update nTime
  let b1 := { block with
    nTime := toUInt32 (max (ext.GetMedianTimePast env.pindexBest + 1) env.GetAdjustedTime) }
  let b2 := { b1 with nNonce := 0 }
  -- Push OP_2 just in case we want versioning later
  let b3 := b2.setScriptSig [ext.pushUInt b2.nBits, ext.pushBigNum 1, ⟨OP_2, []⟩]
  let b4 := { b3 with hashMerkleRoot := ext.BuildMerkleTree b3.vtx }
  -- Sets the version
  { b4 with auxpow := some ext.newCAuxPow, nVersion := ext.auxpowVersion b4.nVersion }

/-- The poll branch of `getauxblock` (lines 415-474). -/
def getauxblock_poll (ext : Ext) (env : Env) (st : GetauxblockState) : Step GetauxblockState :=
  if st.pindexPrev ≠ some env.pindexBest ∨
      (env.nTransactionsUpdated ≠ st.nTransactionsUpdatedLast ∧ env.GetTime - st.nStart > 60) then
    -- Deallocate old blocks since they're obsolete now
    let st1 := if st.pindexPrev ≠ some env.pindexBest then
        { st with mapNewBlock := [], vNewBlockTemplate := [] }
      else st
    let st2 := { st1 with
      nTransactionsUpdatedLast := env.nTransactionsUpdated
      pindexPrev := some env.pindexBest
      nStart := env.GetTime }
    let calls := [Call.CreateNewBlock (st2.mapNewBlock.map Prod.fst)]
    match env.CreateNewBlock with
    | none => throwErr { st2 with pblocktemplate := none } .RPC_OUT_OF_MEMORY calls
    | some t =>
      let p := st2.vNewBlockTemplate.length
      let b5 := getauxblock_prepare ext env t.block
      let st3 := { st2 with
        vNewBlockTemplate := st2.vNewBlockTemplate ++ [{ t with block := b5 }]
        pblocktemplate := some p
        pblock := some p
        mapNewBlock := mapSet st2.mapNewBlock (ext.GetHash b5.toCBlockHeader) p }
      getauxblock_serve ext st3 calls
  else getauxblock_serve ext st []

/-- The write `pblock->SetAuxPow(pow)` of a `getauxblock` submission. -/
def getauxblock_attach (ext : Ext) (block : CBlock) (pow : CAuxPow) : CBlock :=
  { block with auxpow := some pow, nVersion := ext.auxpowVersion block.nVersion }

/-- The submission branch of `getauxblock` (lines 478-505), on the hash
`params[0]` and the proof deserialized from `params[1]`. -/
def getauxblock_submit (ext : Ext) (env : Env) (st : GetauxblockState) (hash : Nat)
    (pow : CAuxPow) : Step GetauxblockState :=
  match mapFind st.mapNewBlock hash with
  | none => ⟨st, .ok (.bool false), []⟩
  | some p =>
    match st.vNewBlockTemplate[p]? with
    | none => throwErr st .badPointer []
    | some t =>
      let pblock := getauxblock_attach ext t.block pow
      let st2 := { st with
        vNewBlockTemplate := st.vNewBlockTemplate.set p { t with block := pblock } }
      ⟨st2, .ok (.bool (env.CheckWork pblock)), [Call.CheckWork pblock]⟩

/-- The RPC `getauxblock`: without arguments a poll, with the two arguments
`<hash> <auxpow>` a submission. -/
def getauxblock (ext : Ext) (env : Env) (st : GetauxblockState) (params : Option (Nat × CAuxPow)) :
    Step GetauxblockState :=
  if env.vNodesEmpty then throwErr st .RPC_CLIENT_NOT_CONNECTED []
  else if env.IsInitialBlockDownload then throwErr st .RPC_CLIENT_IN_INITIAL_DOWNLOAD []
  else
    match params with
    | none => getauxblock_poll ext env st
    | some (hash, pow) => getauxblock_submit ext env st hash pow

/-! ## `getblocktemplate` (lines 544-689) -/

/-- The statics of `getblocktemplate`; the single template is owned through
`pblocktemplate`. -/
structure GetblocktemplateState where
  nTransactionsUpdatedLast : Nat
  pindexPrev : Option Nat
  nStart : Int
  pblocktemplate : Option CBlockTemplate
  deriving DecidableEq, Repr

/-- The statics of `getblocktemplate` before the first call. -/
def GetblocktemplateState.init : GetblocktemplateState :=
  ⟨0, none, 0, none⟩

/-- The `mode` member of the optional argument object of `getblocktemplate`:
no argument, a `null` member, a string (which is or is not `template`), or a
value of another type. -/
inductive ModeArg where
  | absent
  | null
  | str (isTemplate : Bool)
  | other
  deriving DecidableEq, Repr

/-- The mode check of `getblocktemplate` (lines 566-582): the call goes on
only in mode `template`. -/
def ModeArg.isTemplate : ModeArg → Bool
  | .absent => true
  | .null => true
  | .str b => b
  | .other => false

/-- The per-call update of the block in `getblocktemplate` (lines 622-623):
`UpdateTime(*pblock, pindexPrev); pblock->nNonce = 0;`. -/
def getblocktemplate_update (ext : Ext) (env : Env) (block : CBlock) (prev : Nat) : CBlock :=
  let b1 := UpdateTime ext env block prev
  { b1 with nNonce := 0 }

/-- The rest of `getblocktemplate` after the update of the template (lines
619-688): the time and nonce of the block are updated and the template is
returned. -/
def getblocktemplate_serve (ext : Ext) (env : Env) (st : GetblocktemplateState)
    (calls : List Call) : Step GetblocktemplateState :=
  match st.pblocktemplate with
  | none => throwErr st .badPointer calls
  | some t =>
    match st.pindexPrev with
    | none => throwErr st .badPointer calls
    | some prev =>
      let pblock := getblocktemplate_update ext env t.block prev
      let t2 := { t with block := pblock }
      ⟨{ st with pblocktemplate := some t2 },
        .ok (.blocktemplate t2 (ext.GetMedianTimePast prev + 1) (ext.nHeight prev + 1)), calls⟩

/-- The RPC `getblocktemplate`. -/
def getblocktemplate (ext : Ext) (env : Env) (st : GetblocktemplateState) (mode : ModeArg) :
    Step GetblocktemplateState :=
  if ¬ mode.isTemplate then throwErr st .RPC_INVALID_PARAMETER_mode []
  else if env.vNodesEmpty then throwErr st .RPC_CLIENT_NOT_CONNECTED []
  else if env.IsInitialBlockDownload then throwErr st .RPC_CLIENT_IN_INITIAL_DOWNLOAD []
  else if st.pindexPrev ≠ some env.pindexBest ∨
      (env.nTransactionsUpdated ≠ st.nTransactionsUpdatedLast ∧ env.GetTime - st.nStart > 5) then
    -- Clear pindexPrev so future calls make a new block, despite any failures from here on
    let st2 := { st with
      pindexPrev := none
      nTransactionsUpdatedLast := env.nTransactionsUpdated
      nStart := env.GetTime }
    let calls := [Call.CreateNewBlock []]
    match env.CreateNewBlock with
    | none => throwErr { st2 with pblocktemplate := none } .RPC_OUT_OF_MEMORY calls
    | some t =>
      -- Need to update only after we know CreateNewBlock succeeded
      getblocktemplate_serve ext env
        { st2 with pblocktemplate := some t, pindexPrev := some env.pindexBest } calls
  else getblocktemplate_serve ext env st []

/-! ## `submitblock` (lines 691-716) and the readiness checks -/

/-- The values `submitblock` returns: `Value::null` for an accepted block, the
string `rejected` otherwise. -/
inductive SubmitValue where
  | null
  | rejected
  deriving DecidableEq, Repr

/-- The outcome of `submitblock`: the value returned or the error thrown, and
the blocks handed to the consensus collaborator `ProcessBlock`, in order. -/
structure SubmitStep where
  result : Except Err SubmitValue
  processed : List CBlock
  deriving DecidableEq

/-- The RPC `submitblock` on a node in the state the first argument describes:
`nParams` is `params.size()`, `decoded` is the block that `ssBlock >> pblock`
reads from the bytes of `params[0]` (`none` when it throws), and
`ProcessBlock` gives the verdict of the collaborator. The function has no
statics and does not read the connection state. -/
def submitblock (_ : Env) (ProcessBlock : CBlock → Bool) (nParams : Nat)
    (decoded : Option CBlock) : SubmitStep :=
  if nParams < 1 ∨ nParams > 2 then ⟨.error .usage, []⟩
  else
    match decoded with
    | none => ⟨.error .RPC_DESERIALIZATION_ERROR, []⟩
    | some pblock =>
      let fAccepted := ProcessBlock pblock
      if ¬ fAccepted then ⟨.ok .rejected, [pblock]⟩
      else ⟨.ok .null, [pblock]⟩

/-- The error of the readiness checks (lines 115-119 and their copies): not
connected when there is no peer, otherwise initial download. -/
def notReadyError (env : Env) : Err :=
  if env.vNodesEmpty then .RPC_CLIENT_NOT_CONNECTED else .RPC_CLIENT_IN_INITIAL_DOWNLOAD

/-! ## A small instance of the collaborators, to run the calls -/

/-- A flat encoding of a transaction list as a 256-bit number, injective
enough to tell apart the coinbase input scripts used in the runs below. -/
def sampleRoot (vtx : List CTransaction) : Nat :=
  (vtx.foldl (fun acc tx =>
    tx.scriptSig.foldl (fun a op => op.data.foldl (fun x y => 256 * x + y + 1) (100 * a + op.opcode + 1))
      (1000 * acc + tx.rest + 1)) 0) % 2 ^ 256

/-- An instance of the outside functions: the root is the flat encoding, the
scripts are those the specification describes (the difficulty bits, a marker
value, the tag op-code `OP_2`, the commitment bytes after the four
merged-mining marker bytes). -/
def sampleExt : Ext where
  BuildMerkleTree := sampleRoot
  GetMerkleBranch := fun _ _ => []
  GetMedianTimePast := fun _ => 1000
  nHeight := fun p => p
  extraNonceScript := fun p n => [⟨1, [p]⟩, ⟨1, [n]⟩]
  nextExtraNonceWithAux := fun n t _ => (n + 1, t)
  MakeCoinbaseWithAux := fun nBits n vchAux =>
    [⟨4, [nBits]⟩, ⟨1, [n]⟩, ⟨OP_2, []⟩, ⟨44, [0xfa, 0xbe, 0x6d, 0x6d] ++ vchAux⟩]
  RemoveMergedMiningHeader := fun v =>
    if v.take 4 = [0xfa, 0xbe, 0x6d, 0x6d] then .ok (v.drop 4) else .error .usage
  SetCompact := fun n => n
  GetHash := fun h => h.hashMerkleRoot + h.nNonce
  GetChainID := fun _ => 1
  auxpowVersion := fun v => v
  newCAuxPow := ⟨⟨[], 0⟩, [], [], 0, ⟨0, 0, 0, 0, 0, 0⟩⟩
  pushUInt := fun n => ⟨4, [n]⟩
  pushBigNum := fun n => ⟨1, [n.toNat]⟩

/-- A template as `CreateNewBlock` could return it: a coinbase and one more
transaction. -/
def sampleTemplate : CBlockTemplate :=
  ⟨⟨⟨2, 5, 0, 0, 7, 0⟩, ⟨[], 50⟩, [⟨[], 9⟩], none⟩, [0, 1], [1, 1]⟩

/-- Auxiliary data as the usage text of `getworkaux` describes it: a 32-byte
root, the tree size 1, and a nonce. -/
def sampleAux : List Nat :=
  List.replicate 32 0 ++ [1, 0, 0, 0] ++ [0, 0, 0, 0]

/-- A `getworkaux` context built by hand: one cache entry, under root 77,
for a block whose coinbase input script is empty. -/
def sampleBareState : GetworkauxState :=
  ⟨[(77, (0, 1))], [sampleTemplate], [], 3, some 7, 2000, some 0, 1, 0⟩

/-- A node without peers that is still in initial download. -/
def sampleOfflineEnv : Env :=
  ⟨true, true, 7, 3, 2000, 2000, some sampleTemplate, fun _ => true⟩

/-- A connected, synchronized node with best block `tip`, pool counter
`nTx`, clock `now`, whose `CreateNewBlock` returns `tmpl` and whose
`CheckWork` rejects. -/
def sampleEnv (tip nTx : Nat) (now : Int) (tmpl : Option CBlockTemplate) : Env :=
  ⟨false, false, tip, nTx, now, now, tmpl, fun _ => false⟩

/-! ## Sequences of calls and relations between states -/

/-- The context after a sequence of `getwork` calls, each with what it
observes of the node and its arguments. -/
def getwork_run (ext : Ext) (st : GetworkState) (calls : List (Env × List (List Nat))) :
    GetworkState :=
  calls.foldl (fun s c => (getwork ext c.1 s c.2).state) st

/-- The context after a sequence of `getworkaux` calls. -/
def getworkaux_run (ext : Ext) (st : GetworkauxState) (calls : List (Env × GetworkauxParams)) :
    GetworkauxState :=
  calls.foldl (fun s c => (getworkaux ext c.1 s c.2).state) st

/-- The context after a sequence of `getauxblock` calls. -/
def getauxblock_run (ext : Ext) (st : GetauxblockState)
    (calls : List (Env × Option (Nat × CAuxPow))) : GetauxblockState :=
  calls.foldl (fun s c => (getauxblock ext c.1 s c.2).state) st

/-- The template `t2` is the candidate `t` up to what a poll or a submission
rewrites: the transactions other than the coinbase, the coinbase apart from
its input script, the version, previous-block hash and bits, the attached
proof, the fees and the signature-operation counts are those of `t`; only the
time, the nonce, the coinbase input script and the merkle root may differ. -/
def sameCandidate (t t2 : CBlockTemplate) : Prop :=
  t2.block.vtxTail = t.block.vtxTail ∧ t2.block.coinbase.rest = t.block.coinbase.rest ∧
  t2.block.nVersion = t.block.nVersion ∧ t2.block.hashPrevBlock = t.block.hashPrevBlock ∧
  t2.block.nBits = t.block.nBits ∧ t2.block.auxpow = t.block.auxpow ∧
  t2.vTxFees = t.vTxFees ∧ t2.vTxSigOps = t.vTxSigOps

/-- The template `t2` is the template `t` up to the two fields that a
`getauxblock` submission writes (`SetAuxPow`): the attached proof and the
version. The transactions, the coinbase with its input script, the
previous-block hash, the merkle root, the time, the bits, the nonce, the fees
and the signature-operation counts are those of `t`. -/
def sameTransactions (t t2 : CBlockTemplate) : Prop :=
  t2.block.vtxTail = t.block.vtxTail ∧ t2.block.coinbase = t.block.coinbase ∧
  t2.block.hashPrevBlock = t.block.hashPrevBlock ∧
  t2.block.hashMerkleRoot = t.block.hashMerkleRoot ∧
  t2.block.nTime = t.block.nTime ∧
  t2.block.nBits = t.block.nBits ∧
  t2.block.nNonce = t.block.nNonce ∧
  t2.vTxFees = t.vTxFees ∧ t2.vTxSigOps = t.vTxSigOps

/-- The `getwork` context `s2` has the cache, the poll statics and the
template pointers of `s`, and each template of `s` is in `s2` the same
candidate: what a call other than a poll leaves in place. -/
def GetworkState.sameStatics (s s2 : GetworkState) : Prop :=
  s2.mapNewBlock = s.mapNewBlock ∧ s2.pblocktemplate = s.pblocktemplate ∧
  s2.pindexPrev = s.pindexPrev ∧ s2.nTransactionsUpdatedLast = s.nTransactionsUpdatedLast ∧
  s2.nStart = s.nStart ∧ s2.nExtraNonce = s.nExtraNonce ∧
  ∀ (q : Nat) (t : CBlockTemplate), s.vNewBlockTemplate[q]? = some t →
    ∃ t2, s2.vNewBlockTemplate[q]? = some t2 ∧ sameCandidate t t2

/-- The `getworkaux` context `s2` has the cache, the poll statics and the
template pointers of `s`, and each template of `s` is in `s2` the same
candidate. -/
def GetworkauxState.sameStatics (s s2 : GetworkauxState) : Prop :=
  s2.mapNewBlock = s.mapNewBlock ∧ s2.pblocktemplate = s.pblocktemplate ∧
  s2.pindexPrev = s.pindexPrev ∧ s2.nTransactionsUpdatedLast = s.nTransactionsUpdatedLast ∧
  s2.nStart = s.nStart ∧ s2.vchAuxPrev = s.vchAuxPrev ∧
  ∀ (q : Nat) (t : CBlockTemplate), s.vNewBlockTemplate[q]? = some t →
    ∃ t2, s2.vNewBlockTemplate[q]? = some t2 ∧ sameCandidate t t2

/-- The `getauxblock` context `s2` has the cache, the poll statics and the
block pointers of `s`, and each template of `s` is in `s2` the same up to the
attached proof and the version. -/
def GetauxblockState.sameStatics (s s2 : GetauxblockState) : Prop :=
  s2.mapNewBlock = s.mapNewBlock ∧ s2.pblocktemplate = s.pblocktemplate ∧
  s2.pblock = s.pblock ∧
  s2.pindexPrev = s.pindexPrev ∧ s2.nTransactionsUpdatedLast = s.nTransactionsUpdatedLast ∧
  s2.nStart = s.nStart ∧
  ∀ (q : Nat) (t : CBlockTemplate), s.vNewBlockTemplate[q]? = some t →
    ∃ t2, s2.vNewBlockTemplate[q]? = some t2 ∧ sameTransactions t t2

/-- Every entry of the `getwork` cache refers to a live template, and its
key is the merkle root of that block's transactions once the coinbase input
script saved in the entry is put back. -/
def GetworkState.cacheRestores (ext : Ext) (s : GetworkState) : Prop :=
  ∀ (root p : Nat) (script : CScript), (root, (p, script)) ∈ s.mapNewBlock →
    ∃ t, s.vNewBlockTemplate[p]? = some t ∧
      ext.BuildMerkleTree (t.block.setScriptSig script).vtx = root

/-- The op-code left in `opcode` by the three calls `script.GetOp(pc, opcode)`
of `getworkaux` (lines 339-342): that of the third operation of the script. -/
def thirdOpcode (script : CScript) : Nat :=
  (GetOp (GetOp (GetOp script).1).1).2.1

/-- The data left in `vchAux` by the fourth call `script.GetOp(pc, opcode,
vchAux)` of `getworkaux` (line 346): that of the fourth operation. -/
def fourthData (script : CScript) : List Nat :=
  (GetOp (GetOp (GetOp (GetOp script).1).1).1).2.2

/-- The forest size declared in the auxiliary data: the data is "the merkle
root of the auxiliary chain block hashes, concatenated with the aux chain
merkle tree size and a nonce" (the usage text of `getworkaux`), so the size
is the 4-byte number after the 32-byte root. -/
def declaredForestSize (vchAux : List Nat) : Nat :=
  ofBytesLE ((vchAux.drop 32).take 4)

/-! # Theorems -/

/-! ## The Merkle tree array -/

section MerkleProofs

variable {D : Type}

theorem list_pair_induction {P : List D → Prop} (h0 : P []) (h1 : ∀ a, P [a])
    (h2 : ∀ a b rest, P rest → P (a :: b :: rest)) : ∀ l, P l
  | [] => h0
  | [a] => h1 a
  | a :: b :: rest => h2 a b rest (list_pair_induction h0 h1 h2 rest)

theorem getElem?_pre_done (pre done : List D) (a : D) (rest : List D) :
    (pre ++ done ++ a :: rest)[pre.length + done.length]? = some a := by
  have h : pre.length + done.length = (pre ++ done).length := by simp
  rw [h, List.getElem?_append_right (le_refl _)]
  simp

theorem buildmerkletree_inner_done (Hash : D → D → D) (j nSize fuel i : Nat) (vTree : List D)
    (h : ¬ i < nSize) : buildmerkletree_inner Hash j nSize fuel i vTree = .ok vTree := by
  cases fuel <;> simp [buildmerkletree_inner, h]

theorem pairLevel_length (Hash : D → D → D) (L : List D) :
    (pairLevel Hash L).length = (L.length + 1) / 2 := by
  induction L using list_pair_induction with
  | h0 => simp [pairLevel]
  | h1 a => simp [pairLevel]
  | h2 a b rest ih => simp [pairLevel, ih]; omega

/-- The inner loop appends the pairing of the part of the level not yet read. -/
theorem buildmerkletree_inner_eq (Hash : D → D → D) (pre : List D) (todo : List D) :
    ∀ (done acc : List D) (fuel : Nat), todo.length ≤ fuel →
      buildmerkletree_inner Hash pre.length (done.length + todo.length) fuel done.length
          (pre ++ done ++ todo ++ acc)
        = .ok (pre ++ done ++ todo ++ acc ++ pairLevel Hash todo) := by
  induction todo using list_pair_induction with
  | h0 =>
    intro done acc fuel _
    rw [buildmerkletree_inner_done _ _ _ _ _ _ (by simp)]
    simp [pairLevel]
  | h1 a =>
    intro done acc fuel hf
    obtain ⟨f, rfl⟩ : ∃ f, fuel = f + 1 := ⟨fuel - 1, by simp at hf; omega⟩
    have e1 : (pre ++ done ++ [a] ++ acc)[pre.length + done.length]? = some a := by
      have := getElem?_pre_done pre done a acc
      simpa using this
    simp only [buildmerkletree_inner, List.length_singleton]
    have e2 : min (done.length + 1) (done.length + 1 - 1) = done.length := by omega
    rw [if_pos (by omega), e2, e1]
    simp only []
    rw [buildmerkletree_inner_done _ _ _ _ _ _ (by omega)]
    simp [pairLevel]
  | h2 a b rest ih =>
    intro done acc fuel hf
    obtain ⟨f, rfl⟩ : ∃ f, fuel = f + 1 := ⟨fuel - 1, by simp at hf; omega⟩
    have e1 : (pre ++ done ++ a :: b :: rest ++ acc)[pre.length + done.length]? = some a := by
      have := getElem?_pre_done pre done a (b :: rest ++ acc)
      simpa using this
    have e3 : (pre ++ done ++ a :: b :: rest ++ acc)[pre.length + (done.length + 1)]? = some b := by
      have := getElem?_pre_done pre (done ++ [a]) b (rest ++ acc)
      simpa [Nat.add_assoc] using this
    simp only [buildmerkletree_inner, List.length_cons]
    have e2 : min (done.length + 1) (done.length + (rest.length + 1 + 1) - 1)
        = done.length + 1 := by omega
    rw [if_pos (by omega), e2, e1, e3]
    simp only []
    have hi := ih (done ++ [a, b]) (acc ++ [Hash a b]) f (by simp at hf; omega)
    have l1 : (done ++ [a, b]).length + rest.length = done.length + (rest.length + 1 + 1) := by
      simp; omega
    have l2 : (done ++ [a, b]).length = done.length + 2 := by simp
    rw [l1, l2] at hi
    have r1 : pre ++ (done ++ [a, b]) ++ rest ++ (acc ++ [Hash a b])
        = pre ++ done ++ a :: b :: rest ++ acc ++ [Hash a b] := by simp
    rw [r1] at hi
    rw [hi]
    simp [pairLevel]

/-- The outer loop turns `pre ++ L` into `pre` followed by the level order of `L`. -/
theorem buildmerkletree_outer_eq (Hash : D → D → D) :
    ∀ (fuel : Nat) (L pre : List D), L.length ≤ fuel →
      buildmerkletree_outer Hash fuel L.length pre.length (pre ++ L)
        = .ok (pre ++ levelOrder Hash fuel L) := by
  intro fuel
  induction fuel with
  | zero =>
    intro L pre hL
    simp [buildmerkletree_outer, levelOrder]
    omega
  | succ f ih =>
    intro L pre hL
    by_cases h1 : 1 < L.length
    · have hin := buildmerkletree_inner_eq Hash pre L [] [] L.length (le_refl _)
      simp only [List.length_nil, Nat.zero_add, List.append_nil] at hin
      simp only [buildmerkletree_outer, levelOrder, if_pos h1, hin]
      have hlen : (pairLevel Hash L).length ≤ f := by
        rw [pairLevel_length]; omega
      have hrec := ih (pairLevel Hash L) (pre ++ L) hlen
      rw [pairLevel_length, List.length_append] at hrec
      rw [hrec]
      simp
    · simp [buildmerkletree_outer, levelOrder, h1]

theorem levelOrderUpTo_succ (Hash : D → D → D) (L : List D) (k : Nat) :
    levelOrderUpTo Hash L (k + 1) = L ++ levelOrderUpTo Hash (pairLevel Hash L) k := by
  unfold levelOrderUpTo
  rw [List.range_succ_eq_map]
  simp only [List.map_cons, List.flatten_cons, List.map_map]
  congr 1

/-- The recursive level order is the concatenation of the levels up to the
first level of length one. -/
theorem levelOrder_levels (Hash : D → D → D) :
    ∀ (fuel : Nat) (L : List D), 1 ≤ L.length → L.length ≤ fuel →
      ∃ k, (merkleLevel Hash L k).length = 1 ∧
        (∀ m, m < k → 1 < (merkleLevel Hash L m).length) ∧
        levelOrder Hash fuel L = levelOrderUpTo Hash L k := by
  intro fuel
  induction fuel with
  | zero => intro L h1 h2; omega
  | succ f ih =>
    intro L h1 h2
    by_cases h : 1 < L.length
    · have hlen := pairLevel_length Hash L
      obtain ⟨k, hk1, hk2, hk3⟩ := ih (pairLevel Hash L) (by omega) (by omega)
      refine ⟨k + 1, ?_, ?_, ?_⟩
      · simpa [merkleLevel] using hk1
      · intro m hm
        cases m with
        | zero => simpa [merkleLevel] using h
        | succ m =>
          have := hk2 m (by omega)
          simpa [merkleLevel] using this
      · simp only [levelOrder, if_pos h, hk3, levelOrderUpTo_succ]
    · refine ⟨0, ?_, ?_, ?_⟩
      · simp [merkleLevel]; omega
      · intro m hm; omega
      · rw [show levelOrderUpTo Hash L 0 = (List.map (merkleLevel Hash L) [0]).flatten from rfl]
        simp [levelOrder, h, merkleLevel]

theorem levelOrderUpTo_getLast? (Hash : D → D → D) (L : List D) (k : Nat)
    (h : merkleLevel Hash L k ≠ []) :
    (levelOrderUpTo Hash L k).getLast? = (merkleLevel Hash L k).getLast? := by
  unfold levelOrderUpTo
  rw [List.range_succ, List.map_append, List.flatten_append]
  simp only [List.map_cons, List.map_nil, List.flatten_cons, List.flatten_nil, List.append_nil]
  rw [List.getLast?_append_of_ne_nil _ h]

/-- C1. For every non-empty sequence of leaf digests `buildmerkletree` returns
the level-order concatenation `L0 ++ L1 ++ ... ++ Lk`: `L0` is the leaves,
each next level pairs the one below left to right with the last element paired
with itself when the count is odd, `Lk` is the first level of length one, and
its single element, the root, is the last entry of the output. A single leaf
gives `[leaf]`, and `[A, B, C]` gives
`[A, B, C, Hash A B, Hash C C, Hash (Hash A B) (Hash C C)]`. -/
theorem buildmerkletree_level_order (Hash : D → D → D) :
    (∀ leaves : List D, leaves ≠ [] →
      ∃ k root,
        merkleLevel Hash leaves 0 = leaves ∧
        (∀ m, merkleLevel Hash leaves (m + 1) = pairLevel Hash (merkleLevel Hash leaves m)) ∧
        (∀ m, m < k → 1 < (merkleLevel Hash leaves m).length) ∧
        merkleLevel Hash leaves k = [root] ∧
        buildmerkletree Hash leaves = .ok (levelOrderUpTo Hash leaves k) ∧
        (levelOrderUpTo Hash leaves k).getLast? = some root) ∧
    (∀ leaf : D, buildmerkletree Hash [leaf] = .ok [leaf]) ∧
    (∀ A B C : D, buildmerkletree Hash [A, B, C]
      = .ok [A, B, C, Hash A B, Hash C C, Hash (Hash A B) (Hash C C)]) := by
  refine ⟨?_, ?_, ?_⟩
  · intro leaves hne
    have hpos : 1 ≤ leaves.length := by
      cases leaves with
      | nil => exact absurd rfl hne
      | cons a t => simp
    obtain ⟨k, hk1, hk2, hk3⟩ := levelOrder_levels Hash leaves.length leaves hpos (le_refl _)
    obtain ⟨root, hroot⟩ := List.length_eq_one.mp hk1
    refine ⟨k, root, rfl, ?_, hk2, hroot, ?_, ?_⟩
    · intro m
      simp only [merkleLevel, Function.iterate_succ_apply']
    · have hout := buildmerkletree_outer_eq Hash leaves.length leaves [] (le_refl _)
      simp only [List.length_nil, List.nil_append] at hout
      simp only [buildmerkletree, if_neg (show ¬ leaves.length < 1 by omega), hout, hk3]
    · rw [levelOrderUpTo_getLast? Hash leaves k (by simp [hroot]), hroot]
      rfl
  · intro leaf
    rfl
  · intro A B C
    simp [buildmerkletree, buildmerkletree_outer, buildmerkletree_inner]

theorem buildmerkletree_level_order_witness :
    ∃ k root,
      merkleLevel (fun a b : Nat => 10 * a + b) [1, 2, 3] 0 = [1, 2, 3] ∧
      (∀ m, merkleLevel (fun a b : Nat => 10 * a + b) [1, 2, 3] (m + 1)
        = pairLevel (fun a b : Nat => 10 * a + b)
            (merkleLevel (fun a b : Nat => 10 * a + b) [1, 2, 3] m)) ∧
      (∀ m, m < k → 1 < (merkleLevel (fun a b : Nat => 10 * a + b) [1, 2, 3] m).length) ∧
      merkleLevel (fun a b : Nat => 10 * a + b) [1, 2, 3] k = [root] ∧
      buildmerkletree (fun a b : Nat => 10 * a + b) [1, 2, 3]
        = .ok (levelOrderUpTo (fun a b : Nat => 10 * a + b) [1, 2, 3] k) ∧
      (levelOrderUpTo (fun a b : Nat => 10 * a + b) [1, 2, 3] k).getLast? = some root :=
  (buildmerkletree_level_order (fun a b : Nat => 10 * a + b)).1 [1, 2, 3] (by decide)

theorem xor_one_eq (p : Nat) : p ^^^ 1 = 2 * (p / 2) + (p + 1) % 2 := by
  have h1 : (p ^^^ 1) / 2 = p / 2 := by
    rw [Nat.xor_div_two]; simp
  have h2 : (p ^^^ 1) % 2 = (p + 1) % 2 := Nat.xor_mod_two_eq
  omega

/-- The node above position `p` of a level is the combination of the node at
`p` with its sibling, in the order the position's parity gives. -/
theorem pairLevel_getElem? (Hash : D → D → D) (L : List D) :
    ∀ p, p < L.length → ∃ cur sib,
      L[p]? = some cur ∧ L[min (p ^^^ 1) (L.length - 1)]? = some sib ∧
      (pairLevel Hash L)[p / 2]? = some (if p % 2 = 1 then Hash sib cur else Hash cur sib) := by
  induction L using list_pair_induction with
  | h0 => intro p hp; simp at hp
  | h1 a =>
    intro p hp
    have hp0 : p = 0 := by simpa using hp
    subst hp0
    exact ⟨a, a, by simp [pairLevel]⟩
  | h2 a b rest ih =>
    intro p hp
    match p, hp with
    | 0, _ => exact ⟨a, b, by simp [pairLevel]⟩
    | 1, _ => exact ⟨b, a, by simp [pairLevel]⟩
    | q + 2, hq =>
      have hq2 : q < rest.length := by simpa using hq
      obtain ⟨cur, sib, h1, h2, h3⟩ := ih q hq2
      refine ⟨cur, sib, by simpa using h1, ?_, ?_⟩
      · have e : min ((q + 2) ^^^ 1) ((a :: b :: rest).length - 1)
            = min (q ^^^ 1) (rest.length - 1) + 2 := by
          rw [xor_one_eq, xor_one_eq]
          simp only [List.length_cons]
          omega
        rw [e]
        simpa using h2
      · have e1 : (q + 2) / 2 = q / 2 + 1 := by omega
        have e2 : (q + 2) % 2 = q % 2 := by omega
        rw [e1, e2]
        simpa [pairLevel] using h3

theorem getElem?_pre_mid (pre L rest : List D) (q : Nat) (hq : q < L.length) :
    (pre ++ L ++ rest)[pre.length + q]? = L[q]? := by
  rw [List.append_assoc, List.getElem?_append_right (by omega)]
  simp only [Nat.add_sub_cancel_left]
  rw [List.getElem?_append_left hq]

theorem levelOrder_ne_nil (Hash : D → D → D) (fuel : Nat) (L : List D) (h : L ≠ []) :
    levelOrder Hash fuel L ≠ [] := by
  cases fuel with
  | zero => simpa [levelOrder] using h
  | succ f =>
    by_cases h1 : 1 < L.length
    · simp [levelOrder, h1, h]
    · simp [levelOrder, h1, h]

/-- The branch read off the array `pre ++ levelOrder L` from position `p` of
the level `L` folds to the last entry of the array. -/
theorem branchFor_loop_recompute (Hash : D → D → D) :
    ∀ (fuel : Nat) (L pre : List D) (p : Nat), p < L.length → L.length ≤ fuel →
      ∃ cur branch,
        L[p]? = some cur ∧
        branchFor_loop (pre ++ levelOrder Hash fuel L) fuel L.length pre.length p = .ok branch ∧
        (pre ++ levelOrder Hash fuel L).getLast? = some (recomputeRoot Hash cur branch p) ∧
        (L.length = 1 → branch = []) := by
  intro fuel
  induction fuel with
  | zero => intro L pre p hp hL; omega
  | succ f ih =>
    intro L pre p hp hL
    by_cases h1 : 1 < L.length
    · obtain ⟨cur, sib, hc, hs, hpar⟩ := pairLevel_getElem? Hash L p hp
      have hlen := pairLevel_length Hash L
      obtain ⟨cur2, br, hc2, hbr, hlast, _⟩ :=
        ih (pairLevel Hash L) (pre ++ L) (p / 2) (by omega) (by omega)
      rw [hpar] at hc2
      cases hc2
      have hT : pre ++ levelOrder Hash (f + 1) L
          = pre ++ L ++ levelOrder Hash f (pairLevel Hash L) := by
        simp [levelOrder, h1]
      have hsib : (pre ++ L ++ levelOrder Hash f (pairLevel Hash L))[pre.length
          + min (p ^^^ 1) (L.length - 1)]? = some sib := by
        rw [getElem?_pre_mid _ _ _ _ (by omega)]
        exact hs
      rw [hlen, List.length_append] at hbr
      refine ⟨cur, sib :: br, hc, ?_, ?_, ?_⟩
      · rw [hT]
        simp only [branchFor_loop, if_pos h1, hsib, hbr]
      · rw [hT, hlast]
        simp [recomputeRoot]
      · intro h; omega
    · have hone : L.length = 1 := by omega
      obtain ⟨a, ha⟩ := List.length_eq_one.mp hone
      subst ha
      have hp0 : p = 0 := by simpa using hp
      subst hp0
      refine ⟨a, [], by simp, ?_, ?_, fun _ => rfl⟩
      · simp [branchFor_loop]
      · simp [levelOrder, recomputeRoot]

/-- C2. For every non-empty leaf sequence and every leaf index `i` below its
length, the branch for `i` read off the node array built by `buildmerkletree`
recomputes the root: folding from leaf `i` upward gives the last element of
the array. For a single leaf the branch is empty and the result is the leaf. -/
theorem branchFor_recomputes_root (Hash : D → D → D) (leaves : List D) (i : Nat)
    (hi : i < leaves.length) :
    ∃ vTree leaf branch,
      buildmerkletree Hash leaves = .ok vTree ∧
      leaves[i]? = some leaf ∧
      branchFor vTree leaves.length i = .ok branch ∧
      vTree.getLast? = some (recomputeRoot Hash leaf branch i) ∧
      (leaves.length = 1 → branch = [] ∧ recomputeRoot Hash leaf branch i = leaf) := by
  have hout := buildmerkletree_outer_eq Hash leaves.length leaves [] (le_refl _)
  simp only [List.length_nil, List.nil_append] at hout
  obtain ⟨cur, branch, hc, hbr, hlast, hone⟩ :=
    branchFor_loop_recompute Hash leaves.length leaves [] i hi (le_refl _)
  simp only [List.length_nil, List.nil_append] at hbr hlast
  refine ⟨levelOrder Hash leaves.length leaves, cur, branch, ?_, hc, hbr, hlast, ?_⟩
  · simp only [buildmerkletree, if_neg (show ¬ leaves.length < 1 by omega), hout]
  · intro h
    have hb := hone h
    subst hb
    exact ⟨rfl, rfl⟩

theorem branchFor_recomputes_root_witness :
    ∃ vTree leaf branch,
      buildmerkletree (fun a b : Nat => 10 * a + b) [1, 2, 3] = .ok vTree ∧
      [1, 2, 3][2]? = some leaf ∧
      branchFor vTree [1, 2, 3].length 2 = .ok branch ∧
      vTree.getLast? = some (recomputeRoot (fun a b : Nat => 10 * a + b) leaf branch 2) ∧
      ([1, 2, 3].length = 1 →
        branch = [] ∧ recomputeRoot (fun a b : Nat => 10 * a + b) leaf branch 2 = leaf) :=
  branchFor_recomputes_root (fun a b : Nat => 10 * a + b) [1, 2, 3] 2 (by decide)

end MerkleProofs

/-! ## The work buffer -/

theorem swapWords_length : ∀ l : List Nat, (swapWords l).length = l.length
  | [] => rfl
  | [_] => rfl
  | [_, _] => rfl
  | [_, _, _] => rfl
  | a :: b :: c :: d :: rest => by simp [swapWords, swapWords_length rest]

theorem swapWords_swapWords : ∀ l : List Nat, swapWords (swapWords l) = l
  | [] => rfl
  | [_] => rfl
  | [_, _] => rfl
  | [_, _, _] => rfl
  | a :: b :: c :: d :: rest => by simp [swapWords, swapWords_swapWords rest]

theorem swapWords_bytes : ∀ l : List Nat, (∀ x ∈ l, x < 256) → ∀ x ∈ swapWords l, x < 256
  | [], h => h
  | [_], h => h
  | [_, _], h => h
  | [_, _, _], h => h
  | a :: b :: c :: d :: rest, h => by
    have ih := swapWords_bytes rest (fun x hx => h x (by simp [hx]))
    intro x hx
    simp only [swapWords, List.mem_cons] at hx
    rcases hx with rfl | rfl | rfl | rfl | hx
    · exact h _ (by simp)
    · exact h _ (by simp)
    · exact h _ (by simp)
    · exact h _ (by simp)
    · exact ih x hx

theorem swapWords_append (k : Nat) : ∀ (P Q : List Nat), P.length = 4 * k →
    swapWords (P ++ Q) = swapWords P ++ swapWords Q := by
  induction k with
  | zero =>
    intro P Q hP
    have : P = [] := List.length_eq_zero.mp (by omega)
    subst this
    simp [swapWords]
  | succ k ih =>
    intro P Q hP
    match P, hP with
    | a :: b :: c :: d :: rest, hP =>
      have hr : rest.length = 4 * k := by simp at hP; omega
      simp [swapWords, ih rest Q hr]

theorem toBytesLE_length : ∀ (n v : Nat), (toBytesLE n v).length = n
  | 0, _ => rfl
  | n + 1, v => by simp [toBytesLE, toBytesLE_length n]

theorem toBytesLE_bytes : ∀ (n v : Nat), ∀ x ∈ toBytesLE n v, x < 256
  | 0, _ => by simp [toBytesLE]
  | n + 1, v => by
    intro x hx
    simp only [toBytesLE, List.mem_cons] at hx
    rcases hx with rfl | hx
    · exact Nat.mod_lt _ (by decide)
    · exact toBytesLE_bytes n _ x hx

theorem ofBytesLE_toBytesLE : ∀ (n v : Nat), ofBytesLE (toBytesLE n v) = v % 256 ^ n
  | 0, v => by simp [toBytesLE, ofBytesLE, Nat.mod_one]
  | n + 1, v => by
    simp only [toBytesLE, ofBytesLE, ofBytesLE_toBytesLE n]
    rw [pow_succ, Nat.mul_comm (256 ^ n) 256, Nat.mod_mul]

theorem toBytesLE_ofBytesLE : ∀ l : List Nat, (∀ x ∈ l, x < 256) →
    toBytesLE l.length (ofBytesLE l) = l
  | [], _ => rfl
  | b :: rest, h => by
    have hb : b < 256 := h b (by simp)
    have ih := toBytesLE_ofBytesLE rest (fun x hx => h x (by simp [hx]))
    have e1 : (b + 256 * ofBytesLE rest) % 256 = b := by omega
    have e2 : (b + 256 * ofBytesLE rest) / 256 = ofBytesLE rest := by omega
    simp only [List.length_cons, toBytesLE, ofBytesLE, e1, e2, ih]

/-- On bytes, the word operation reverses the four bytes of the word. -/
theorem toBytesLE_ByteReverse (a b c d : Nat) (ha : a < 256) (hb : b < 256) (hc : c < 256)
    (hd : d < 256) : toBytesLE 4 (ByteReverse (ofBytesLE [a, b, c, d])) = [d, c, b, a] := by
  have h1 := toBytesLE_ofBytesLE [a, b, c, d] (by
    intro x hx
    simp only [List.mem_cons, List.mem_singleton, List.not_mem_nil, or_false] at hx
    rcases hx with rfl | rfl | rfl | rfl <;> assumption)
  have h2 := toBytesLE_ofBytesLE [d, c, b, a] (by
    intro x hx
    simp only [List.mem_cons, List.mem_singleton, List.not_mem_nil, or_false] at hx
    rcases hx with rfl | rfl | rfl | rfl <;> assumption)
  simp only [List.length_cons, List.length_nil] at h1 h2
  unfold ByteReverse
  rw [h1]
  exact h2

theorem take_append_of_length (A B : List Nat) (n : Nat) (h : A.length = n) :
    (A ++ B).take n = A := by
  subst h; simp

theorem drop_append_of_length (A B : List Nat) (n : Nat) (h : A.length = n) :
    (A ++ B).drop n = B := by
  subst h; simp

/-- After `k` rounds the loop has reversed the first `k` words and left the
rest of the buffer as it was. -/
theorem byteReverseLoop_eq (buf : List Nat) (hb : ∀ x ∈ buf, x < 256) :
    ∀ k, 4 * k ≤ buf.length →
      byteReverseLoop k buf = swapWords (buf.take (4 * k)) ++ buf.drop (4 * k) := by
  intro k
  induction k with
  | zero => intro _; simp [byteReverseLoop, swapWords]
  | succ k ih =>
    intro hk
    have ihk := ih (by omega)
    unfold byteReverseLoop at ihk ⊢
    rw [List.range_succ, List.foldl_append, ihk]
    simp only [List.foldl_cons, List.foldl_nil]
    have hA : (swapWords (List.take (4 * k) buf)).length = 4 * k := by
      rw [swapWords_length, List.length_take]; omega
    obtain ⟨a, b, c, d, rest, hdrop⟩ : ∃ a b c d rest, buf.drop (4 * k) = a :: b :: c :: d :: rest := by
      have hl : (buf.drop (4 * k)).length ≥ 4 := by rw [List.length_drop]; omega
      match hq : buf.drop (4 * k), hl with
      | a :: b :: c :: d :: rest, _ => exact ⟨a, b, c, d, rest, rfl⟩
    have hmem : ∀ x ∈ buf.drop (4 * k), x < 256 := fun x hx => hb x (List.mem_of_mem_drop hx)
    rw [hdrop] at hmem
    have hsplit : buf = buf.take (4 * k) ++ a :: b :: c :: d :: rest := by
      rw [← hdrop, List.take_append_drop]
    have htake : buf.take (4 * (k + 1)) = buf.take (4 * k) ++ [a, b, c, d] := by
      have hlt : (buf.take (4 * k)).length = 4 * k := by rw [List.length_take]; omega
      conv_lhs => rw [hsplit]
      rw [show 4 * (k + 1) = (buf.take (4 * k)).length + 4 by omega, List.take_append]
      simp
    have hdrop2 : buf.drop (4 * (k + 1)) = rest := by
      rw [show 4 * (k + 1) = 4 * k + 4 by omega, ← List.drop_drop, hdrop]
      simp
    rw [htake, hdrop2, hdrop, swapWords_append k _ _ (by rw [List.length_take]; omega)]
    have hread : readWord (swapWords (List.take (4 * k) buf) ++ a :: b :: c :: d :: rest) k
        = ofBytesLE [a, b, c, d] := by
      unfold readWord
      rw [drop_append_of_length _ _ _ hA]
      simp
    unfold writeWord
    rw [hread, toBytesLE_ByteReverse a b c d (hmem a (by simp)) (hmem b (by simp))
      (hmem c (by simp)) (hmem d (by simp))]
    have ht : List.take (4 * k) (swapWords (List.take (4 * k) buf) ++ a :: b :: c :: d :: rest)
        = swapWords (List.take (4 * k) buf) := by
      exact take_append_of_length _ _ _ hA
    have hd : List.drop (4 * k + 4) (swapWords (List.take (4 * k) buf) ++ a :: b :: c :: d :: rest)
        = rest := by
      rw [← List.drop_drop, drop_append_of_length _ _ _ hA]
      simp
    rw [ht, hd]
    simp [swapWords]

theorem byteReverseLoop_128 (buf : List Nat) (hlen : buf.length = 128)
    (hb : ∀ x ∈ buf, x < 256) : byteReverseLoop (128 / 4) buf = swapWords buf := by
  have h := byteReverseLoop_eq buf hb 32 (by omega)
  have e : 4 * 32 = buf.length := by omega
  rw [e, List.take_length, List.drop_length, List.append_nil] at h
  exact h

theorem byteReverseLoop_involutive (buf : List Nat) (hlen : buf.length = 128)
    (hb : ∀ x ∈ buf, x < 256) :
    byteReverseLoop (128 / 4) (byteReverseLoop (128 / 4) buf) = buf := by
  rw [byteReverseLoop_128 buf hlen hb,
    byteReverseLoop_128 _ (by rw [swapWords_length, hlen]) (swapWords_bytes buf hb),
    swapWords_swapWords]

theorem headerView_append (a b c d e f pad : List Nat) (ha : a.length = 4)
    (hb : b.length = 32) (hc : c.length = 32) (hd : d.length = 4) (he : e.length = 4)
    (hf : f.length = 4) :
    headerView (a ++ b ++ c ++ d ++ e ++ f ++ pad)
      = ⟨toInt32 (ofBytesLE a), ofBytesLE b, ofBytesLE c, ofBytesLE d, ofBytesLE e,
          ofBytesLE f⟩ := by
  have t0 : (a ++ b ++ c ++ d ++ e ++ f ++ pad).take 4 = a := by
    have := take_append_of_length a (b ++ c ++ d ++ e ++ f ++ pad) 4 ha
    simpa using this
  have d1 : (a ++ b ++ c ++ d ++ e ++ f ++ pad).drop 4 = b ++ (c ++ d ++ e ++ f ++ pad) := by
    have := drop_append_of_length a (b ++ (c ++ d ++ e ++ f ++ pad)) 4 ha
    simpa using this
  have d2 : (a ++ b ++ c ++ d ++ e ++ f ++ pad).drop 36 = c ++ (d ++ e ++ f ++ pad) := by
    have := drop_append_of_length (a ++ b) (c ++ (d ++ e ++ f ++ pad)) 36 (by simp [ha, hb])
    simpa using this
  have d3 : (a ++ b ++ c ++ d ++ e ++ f ++ pad).drop 68 = d ++ (e ++ f ++ pad) := by
    have := drop_append_of_length (a ++ b ++ c) (d ++ (e ++ f ++ pad)) 68 (by simp [ha, hb, hc])
    simpa using this
  have d4 : (a ++ b ++ c ++ d ++ e ++ f ++ pad).drop 72 = e ++ (f ++ pad) := by
    have := drop_append_of_length (a ++ b ++ c ++ d) (e ++ (f ++ pad)) 72
      (by simp [ha, hb, hc, hd])
    simpa using this
  have d5 : (a ++ b ++ c ++ d ++ e ++ f ++ pad).drop 76 = f ++ pad := by
    have := drop_append_of_length (a ++ b ++ c ++ d ++ e) (f ++ pad) 76
      (by simp [ha, hb, hc, hd, he])
    simpa using this
  unfold headerView
  rw [t0, d1, d2, d3, d4, d5, take_append_of_length b _ 32 hb, take_append_of_length c _ 32 hc,
    take_append_of_length d _ 4 hd, take_append_of_length e _ 4 he,
    take_append_of_length f _ 4 hf]

theorem toInt32_toNat (v : Int) (h1 : -(2 ^ 31 : Int) ≤ v) (h2 : v < 2 ^ 31) :
    toInt32 ((v % 2 ^ 32).toNat % 256 ^ 4) = v := by
  have e : (256 : Nat) ^ 4 = 4294967296 := by norm_num
  rw [e]
  unfold toInt32
  split <;> omega

theorem headerView_headerBytes (h : CBlockHeader) (hv : h.Valid) (pad : List Nat) :
    headerView (headerBytes h ++ pad) = h := by
  obtain ⟨v1, v2, v3, v4, v5, v6, v7⟩ := hv
  unfold headerBytes
  rw [headerView_append _ _ _ _ _ _ _ (toBytesLE_length _ _) (toBytesLE_length _ _)
    (toBytesLE_length _ _) (toBytesLE_length _ _) (toBytesLE_length _ _) (toBytesLE_length _ _)]
  simp only [ofBytesLE_toBytesLE]
  have e4 : (256 : Nat) ^ 4 = 2 ^ 32 := by norm_num
  have e32 : (256 : Nat) ^ 32 = 2 ^ 256 := by norm_num
  rw [toInt32_toNat _ v1 v2, e32, e4, Nat.mod_eq_of_lt v3, Nat.mod_eq_of_lt v4,
    Nat.mod_eq_of_lt v5, Nat.mod_eq_of_lt v6, Nat.mod_eq_of_lt v7]

theorem headerBytes_length (h : CBlockHeader) : (headerBytes h).length = 80 := by
  simp [headerBytes, toBytesLE_length]

theorem headerBytes_bytes (h : CBlockHeader) : ∀ x ∈ headerBytes h ++ hashPadding, x < 256 := by
  intro x hx
  simp only [headerBytes, List.mem_append] at hx
  rcases hx with ((((((hx | hx) | hx) | hx) | hx) | hx) | hx)
  · exact toBytesLE_bytes _ _ x hx
  · exact toBytesLE_bytes _ _ x hx
  · exact toBytesLE_bytes _ _ x hx
  · exact toBytesLE_bytes _ _ x hx
  · exact toBytesLE_bytes _ _ x hx
  · exact toBytesLE_bytes _ _ x hx
  · simp only [hashPadding, List.cons_append, List.mem_cons, List.mem_append,
      List.mem_replicate, List.mem_singleton, List.not_mem_nil, or_false] at hx
    omega

theorem FormatHashBuffers_pdata_length (h : CBlockHeader) :
    (FormatHashBuffers_pdata h).length = 128 := by
  have hlen : (headerBytes h ++ hashPadding).length = 128 := by
    rw [List.length_append, headerBytes_length]; rfl
  unfold FormatHashBuffers_pdata
  rw [byteReverseLoop_128 _ hlen (headerBytes_bytes h), swapWords_length, hlen]

theorem decodeWork_pdata (h : CBlockHeader) (hv : h.Valid) :
    decodeWork (FormatHashBuffers_pdata h) = .ok h := by
  have hlen : (headerBytes h ++ hashPadding).length = 128 := by
    rw [List.length_append, headerBytes_length]; rfl
  unfold decodeWork
  rw [if_neg (by rw [FormatHashBuffers_pdata_length]; simp)]
  unfold FormatHashBuffers_pdata
  rw [byteReverseLoop_involutive _ hlen (headerBytes_bytes h), headerView_headerBytes h hv]

/-- C3. Decoding the 128-byte data buffer that encode produces for a header
reproduces the header's field values (so the merkle root, time and nonce read
are those of the header); the decode step's word-wise byte reversal undoes the
one encode applied to the serialized header, and on any 128-byte buffer the
reversal is its own inverse. -/
theorem decodeWork_FormatHashBuffers (h : CBlockHeader) (hv : h.Valid) :
    (FormatHashBuffers_pdata h).length = 128 ∧
    decodeWork (FormatHashBuffers_pdata h) = .ok h ∧
    byteReverseLoop (128 / 4) (FormatHashBuffers_pdata h) = headerBytes h ++ hashPadding ∧
    (∀ buf : List Nat, buf.length = 128 → (∀ x ∈ buf, x < 256) →
      byteReverseLoop (128 / 4) buf = swapWords buf ∧
      byteReverseLoop (128 / 4) (byteReverseLoop (128 / 4) buf) = buf) := by
  have hlen : (headerBytes h ++ hashPadding).length = 128 := by
    rw [List.length_append, headerBytes_length]; rfl
  refine ⟨FormatHashBuffers_pdata_length h, decodeWork_pdata h hv, ?_, ?_⟩
  · exact byteReverseLoop_involutive _ hlen (headerBytes_bytes h)
  · intro buf hb1 hb2
    exact ⟨byteReverseLoop_128 buf hb1 hb2, byteReverseLoop_involutive buf hb1 hb2⟩

theorem decodeWork_FormatHashBuffers_witness :
    sampleHeader.Valid ∧ decodeWork (FormatHashBuffers_pdata sampleHeader) = .ok sampleHeader :=
  ⟨by decide, (decodeWork_FormatHashBuffers sampleHeader (by decide)).2.1⟩

/-! ## Submissions: the length check and the lookup miss -/

theorem decodeWork_error (vchData : List Nat) (h : vchData.length ≠ 128) :
    decodeWork vchData = .error .RPC_INVALID_PARAMETER := by
  simp [decodeWork, h]

theorem decodeWork_ok (vchData : List Nat) (h : vchData.length = 128) :
    decodeWork vchData = .ok (headerView (byteReverseLoop (128 / 4) vchData)) := by
  simp [decodeWork, h]

theorem getwork_eq_submit (ext : Ext) (env : Env) (st : GetworkState) (vchData : List Nat)
    (hn : env.vNodesEmpty = false) (hi : env.IsInitialBlockDownload = false) :
    getwork ext env st [vchData] = getwork_submit ext env st vchData := by
  simp [getwork, hn, hi]

theorem getwork_eq_poll (ext : Ext) (env : Env) (st : GetworkState)
    (hn : env.vNodesEmpty = false) (hi : env.IsInitialBlockDownload = false) :
    getwork ext env st [] = getwork_poll ext env st := by
  simp [getwork, hn, hi]

theorem getwork_submit_result (ext : Ext) (env : Env) (st : GetworkState) (vchData : List Nat)
    (pdata : CBlockHeader) (hd : decodeWork vchData = .ok pdata) :
    (getwork_submit ext env st vchData).result ≠ .error .RPC_INVALID_PARAMETER := by
  unfold getwork_submit
  rw [hd]
  simp only []
  cases h1 : mapFind st.mapNewBlock pdata.hashMerkleRoot with
  | none => simp
  | some e =>
    obtain ⟨p, script⟩ := e
    simp only []
    cases h2 : st.vNewBlockTemplate[p]? with
    | none => simp [throwErr]
    | some t => simp

/-- C4. A submitted byte string whose length is not 128 makes the decode step
fail with the invalid-parameter error; the whole call `getwork(data)` and
`getworkaux("" | "submit", data, ...)` then ends with that error whatever the
cache holds, with the context unchanged and no collaborator called. A byte
string of exactly 128 bytes passes the length check. -/
theorem decode_length_check (ext : Ext) (env : Env) (st : GetworkState)
    (stAux : GetworkauxState) (first : AuxArg) (chain : Option (Int × List Nat))
    (vchData : List Nat) (hn : env.vNodesEmpty = false)
    (hi : env.IsInitialBlockDownload = false) (hf : first = .empty ∨ first = .submit) :
    (vchData.length ≠ 128 →
      decodeWork vchData = .error .RPC_INVALID_PARAMETER ∧
      getwork ext env st [vchData] = ⟨st, .error .RPC_INVALID_PARAMETER, []⟩ ∧
      getworkaux ext env stAux ⟨first, some (vchData, chain)⟩
        = ⟨stAux, .error .RPC_INVALID_PARAMETER, []⟩) ∧
    (vchData.length = 128 →
      (∃ pdata, decodeWork vchData = .ok pdata) ∧
      (getwork ext env st [vchData]).result ≠ .error .RPC_INVALID_PARAMETER) := by
  constructor
  · intro hlen
    have hd := decodeWork_error vchData hlen
    refine ⟨hd, ?_, ?_⟩
    · simp [getwork, hn, hi, getwork_submit, hd, throwErr]
    · rcases hf with rfl | rfl <;>
        simp [getworkaux, hn, hi, getworkaux_submit, hd, throwErr]
  · intro hlen
    have hd := decodeWork_ok vchData hlen
    refine ⟨⟨_, hd⟩, ?_⟩
    rw [getwork_eq_submit ext env st vchData hn hi]
    exact getwork_submit_result ext env st vchData _ hd

theorem decode_length_check_witness :
    decodeWork [1, 2, 3] = .error .RPC_INVALID_PARAMETER ∧
    getwork sampleExt (sampleEnv 7 3 2000 none) GetworkState.init [[1, 2, 3]]
      = ⟨GetworkState.init, .error .RPC_INVALID_PARAMETER, []⟩ ∧
    getworkaux sampleExt (sampleEnv 7 3 2000 none) GetworkauxState.init
        ⟨.submit, some ([1, 2, 3], none)⟩
      = ⟨GetworkauxState.init, .error .RPC_INVALID_PARAMETER, []⟩ :=
  (decode_length_check sampleExt (sampleEnv 7 3 2000 none) GetworkState.init
    GetworkauxState.init .submit none [1, 2, 3] rfl rfl (Or.inr rfl)).1 (by decide)

/-- C10. A 128-byte submission whose decoded transaction root is not a key of
the context's cache makes `getwork(data)`, and `getworkaux` with data, return
the value `false`: no error is raised, no collaborator (so not `CheckWork`) is
called, and the context, with its cache and every cached block, is unchanged. -/
theorem submit_unknown_root (ext : Ext) (env : Env) (st : GetworkState)
    (stAux : GetworkauxState) (first : AuxArg) (chain : Option (Int × List Nat))
    (vchData : List Nat) (pdata : CBlockHeader) (hn : env.vNodesEmpty = false)
    (hi : env.IsInitialBlockDownload = false) (hf : first = .empty ∨ first = .submit)
    (hd : decodeWork vchData = .ok pdata) :
    vchData.length = 128 ∧
    (mapFind st.mapNewBlock pdata.hashMerkleRoot = none →
      getwork ext env st [vchData] = ⟨st, .ok (.bool false), []⟩) ∧
    (mapFind stAux.mapNewBlock pdata.hashMerkleRoot = none →
      getworkaux ext env stAux ⟨first, some (vchData, chain)⟩
        = ⟨stAux, .ok (.bool false), []⟩) := by
  refine ⟨?_, ?_, ?_⟩
  · by_contra hne
    rw [decodeWork_error vchData hne] at hd
    cases hd
  · intro hm
    simp [getwork, hn, hi, getwork_submit, hd, hm]
  · intro hm
    rcases hf with rfl | rfl <;>
      simp [getworkaux, hn, hi, getworkaux_submit, hd, hm]

theorem submit_unknown_root_witness :
    getwork sampleExt (sampleEnv 7 3 2000 none) GetworkState.init
        [FormatHashBuffers_pdata sampleHeader]
      = ⟨GetworkState.init, .ok (.bool false), []⟩ ∧
    getworkaux sampleExt (sampleEnv 7 3 2000 none) GetworkauxState.init
        ⟨.submit, some (FormatHashBuffers_pdata sampleHeader, none)⟩
      = ⟨GetworkauxState.init, .ok (.bool false), []⟩ :=
  ⟨(submit_unknown_root sampleExt (sampleEnv 7 3 2000 none) GetworkState.init
      GetworkauxState.init .submit none (FormatHashBuffers_pdata sampleHeader) sampleHeader
      rfl rfl (Or.inr rfl) (decodeWork_pdata sampleHeader (by decide))).2.1 rfl,
   (submit_unknown_root sampleExt (sampleEnv 7 3 2000 none) GetworkState.init
      GetworkauxState.init .submit none (FormatHashBuffers_pdata sampleHeader) sampleHeader
      rfl rfl (Or.inr rfl) (decodeWork_pdata sampleHeader (by decide))).2.2 rfl⟩

/-! ## The `getwork` context -/

theorem sameCandidate_refl (t : CBlockTemplate) : sameCandidate t t :=
  ⟨rfl, rfl, rfl, rfl, rfl, rfl, rfl, rfl⟩

theorem sameCandidate_trans {t t2 t3 : CBlockTemplate} (h : sameCandidate t t2)
    (h2 : sameCandidate t2 t3) : sameCandidate t t3 := by
  obtain ⟨a1, a2, a3, a4, a5, a6, a7, a8⟩ := h
  obtain ⟨b1, b2, b3, b4, b5, b6, b7, b8⟩ := h2
  exact ⟨b1.trans a1, b2.trans a2, b3.trans a3, b4.trans a4, b5.trans a5, b6.trans a6,
    b7.trans a7, b8.trans a8⟩

theorem getElem?_set_some {α : Type} (l : List α) (p : Nat) (x y : α) (h : l[p]? = some y) :
    (l.set p x)[p]? = some x := by
  have hp : p < l.length := by
    by_contra hc
    rw [List.getElem?_eq_none (by omega)] at h
    cases h
  exact List.getElem?_set_self hp

/-- A `getwork` poll that does not rebuild goes straight to serving. -/
theorem getwork_poll_reuse (ext : Ext) (env : Env) (st : GetworkState)
    (h1 : st.pindexPrev = some env.pindexBest)
    (h2 : env.nTransactionsUpdated = st.nTransactionsUpdatedLast) :
    getwork_poll ext env st = getwork_serve ext env st [] := by
  simp [getwork_poll, h1, h2]

/-- Serving from a live template, as one equation: the block `pblock`
written back has the root of its own transactions and is the same candidate. -/
theorem getwork_serve_eq (ext : Ext) (env : Env) (st : GetworkState) (calls : List Call)
    (p : Nat) (t : CBlockTemplate) (prev : Nat) (h1 : st.pblocktemplate = some p)
    (h2 : st.vNewBlockTemplate[p]? = some t) (h3 : st.pindexPrev = some prev) :
    ∃ (pblock : CBlock) (n : Nat),
      getwork_serve ext env st calls
        = ⟨{ st with
              vNewBlockTemplate := st.vNewBlockTemplate.set p { t with block := pblock }
              nExtraNonce := n
              mapNewBlock :=
                mapSet st.mapNewBlock pblock.hashMerkleRoot (p, pblock.coinbase.scriptSig) },
            .ok (.work (FormatHashBuffers_pdata pblock.toCBlockHeader)
              (ext.SetCompact pblock.nBits)), calls⟩ ∧
      pblock.hashMerkleRoot = ext.BuildMerkleTree pblock.vtx ∧
      sameCandidate t { t with block := pblock } := by
  refine ⟨(getwork_update ext env t.block prev st.nExtraNonce).1,
    (getwork_update ext env t.block prev st.nExtraNonce).2, ?_, ?_, ?_⟩
  · simp only [getwork_serve, h1, h2, h3]
  · rfl
  · exact ⟨rfl, rfl, rfl, rfl, rfl, rfl, rfl, rfl⟩

/-- Serving from a live template: the result is a work buffer, the calls are
those made before, the template pointer and the recorded tip stay, and the
template served is the same candidate. -/
theorem getwork_serve_live (ext : Ext) (env : Env) (st : GetworkState) (calls : List Call)
    (p : Nat) (t : CBlockTemplate) (prev : Nat) (h1 : st.pblocktemplate = some p)
    (h2 : st.vNewBlockTemplate[p]? = some t) (h3 : st.pindexPrev = some prev) :
    ∃ t2 data target,
      (getwork_serve ext env st calls).calls = calls ∧
      (getwork_serve ext env st calls).result = .ok (.work data target) ∧
      (getwork_serve ext env st calls).state.pblocktemplate = some p ∧
      (getwork_serve ext env st calls).state.pindexPrev = some prev ∧
      (getwork_serve ext env st calls).state.nTransactionsUpdatedLast
        = st.nTransactionsUpdatedLast ∧
      (getwork_serve ext env st calls).state.nStart = st.nStart ∧
      (getwork_serve ext env st calls).state.vNewBlockTemplate[p]? = some t2 ∧
      sameCandidate t t2 := by
  obtain ⟨pblock, n, heq, _, hsame⟩ := getwork_serve_eq ext env st calls p t prev h1 h2 h3
  rw [heq]
  exact ⟨_, _, _, rfl, rfl, h1, h3, rfl, rfl, getElem?_set_some _ _ _ _ h2, hsame⟩

/-- A served result comes from a live template. -/
theorem getwork_serve_ok (ext : Ext) (env : Env) (st : GetworkState) (calls : List Call)
    (v : Value) (h : (getwork_serve ext env st calls).result = .ok v) :
    ∃ p t prev, st.pblocktemplate = some p ∧ st.vNewBlockTemplate[p]? = some t ∧
      st.pindexPrev = some prev := by
  unfold getwork_serve at h
  cases h1 : st.pblocktemplate with
  | none => rw [h1] at h; simp [throwErr] at h
  | some p =>
    cases h2 : st.vNewBlockTemplate[p]? with
    | none => rw [h1] at h; simp only [] at h; rw [h2] at h; simp [throwErr] at h
    | some t =>
      cases h3 : st.pindexPrev with
      | none =>
        rw [h1] at h; simp only [] at h; rw [h2] at h; simp only [] at h; rw [h3] at h
        simp [throwErr] at h
      | some prev => exact ⟨p, t, prev, rfl, h2, rfl⟩

/-- Serving from a live template returns the work of the block written back:
the data formats its header, the target is that of its bits, and the entry
added to the cache is under its root, with its coinbase input script. -/
theorem getwork_serve_work (ext : Ext) (env : Env) (st : GetworkState) (calls : List Call)
    (p : Nat) (t : CBlockTemplate) (prev : Nat) (h1 : st.pblocktemplate = some p)
    (h2 : st.vNewBlockTemplate[p]? = some t) (h3 : st.pindexPrev = some prev) :
    ∃ t2,
      (getwork_serve ext env st calls).calls = calls ∧
      (getwork_serve ext env st calls).result
        = .ok (.work (FormatHashBuffers_pdata t2.block.toCBlockHeader)
            (ext.SetCompact t2.block.nBits)) ∧
      (getwork_serve ext env st calls).state.pblocktemplate = some p ∧
      (getwork_serve ext env st calls).state.pindexPrev = some prev ∧
      (getwork_serve ext env st calls).state.vNewBlockTemplate[p]? = some t2 ∧
      (getwork_serve ext env st calls).state.mapNewBlock
        = mapSet st.mapNewBlock t2.block.hashMerkleRoot (p, t2.block.coinbase.scriptSig) ∧
      sameCandidate t t2 := by
  obtain ⟨pblock, n, heq, _, hsame⟩ := getwork_serve_eq ext env st calls p t prev h1 h2 h3
  rw [heq]
  exact ⟨{ t with block := pblock }, rfl, rfl, h1, h3, getElem?_set_some _ _ _ _ h2, rfl, hsame⟩

/-- A successful `getwork` poll returns the work of the current block. -/
theorem getwork_poll_ok_work (ext : Ext) (env : Env) (st : GetworkState) (v : Value)
    (h : (getwork_poll ext env st).result = .ok v) :
    ∃ p t prev, (getwork_poll ext env st).state.pblocktemplate = some p ∧
      (getwork_poll ext env st).state.vNewBlockTemplate[p]? = some t ∧
      (getwork_poll ext env st).state.pindexPrev = some prev ∧
      (getwork_poll ext env st).result
        = .ok (.work (FormatHashBuffers_pdata t.block.toCBlockHeader)
            (ext.SetCompact t.block.nBits)) := by
  unfold getwork_poll at h ⊢
  split at h
  · rename_i hc
    rw [if_pos hc]
    cases hnew : env.CreateNewBlock with
    | none => rw [hnew] at h; simp [throwErr] at h
    | some t =>
      rw [hnew] at h
      simp only [] at h ⊢
      obtain ⟨p, t1, prev, a1, a2, a3⟩ := getwork_serve_ok _ _ _ _ _ h
      obtain ⟨t2, _, b2, b3, b4, b5, _, _⟩ :=
        getwork_serve_work ext env _ [Call.CreateNewBlock _] p t1 prev a1 a2 a3
      exact ⟨p, t2, prev, b3, b5, b4, b2⟩
  · rename_i hc
    rw [if_neg hc]
    obtain ⟨p, t1, prev, a1, a2, a3⟩ := getwork_serve_ok _ _ _ _ _ h
    obtain ⟨t2, _, b2, b3, b4, b5, _, _⟩ :=
      getwork_serve_work ext env st [] p t1 prev a1 a2 a3
    exact ⟨p, t2, prev, b3, b5, b4, b2⟩

/-- A successful `getwork` poll leaves the best tip it saw as the recorded
tip. -/
theorem getwork_poll_ok_tip (ext : Ext) (env : Env) (st : GetworkState) (v : Value)
    (h : (getwork_poll ext env st).result = .ok v) :
    (getwork_poll ext env st).state.pindexPrev = some env.pindexBest := by
  unfold getwork_poll at h ⊢
  split at h
  · rename_i hc
    rw [if_pos hc]
    cases hnew : env.CreateNewBlock with
    | none => rw [hnew] at h; simp [throwErr] at h
    | some t =>
      rw [hnew] at h
      simp only [] at h ⊢
      obtain ⟨p, t1, prev, a1, a2, a3⟩ := getwork_serve_ok _ _ _ _ _ h
      obtain ⟨t2, _, _, _, b4, _⟩ :=
        getwork_serve_work ext env _ [Call.CreateNewBlock _] p t1 prev a1 a2 a3
      rw [b4]
      exact a3.symm
  · rename_i hc
    rw [if_neg hc]
    obtain ⟨p, t1, prev, a1, a2, a3⟩ := getwork_serve_ok _ _ _ _ _ h
    obtain ⟨t2, _, _, _, b4, _⟩ := getwork_serve_work ext env st [] p t1 prev a1 a2 a3
    rw [b4, ← a3]
    by_contra hne
    exact hc (Or.inl hne)

theorem getworkState_sameStatics_refl (s : GetworkState) : s.sameStatics s :=
  ⟨rfl, rfl, rfl, rfl, rfl, rfl, fun _ t h => ⟨t, h, sameCandidate_refl t⟩⟩

theorem getworkState_sameStatics_trans {s s2 s3 : GetworkState} (h : s.sameStatics s2)
    (h2 : s2.sameStatics s3) : s.sameStatics s3 := by
  obtain ⟨a1, a2, a3, a4, a5, a6, a7⟩ := h
  obtain ⟨b1, b2, b3, b4, b5, b6, b7⟩ := h2
  refine ⟨b1.trans a1, b2.trans a2, b3.trans a3, b4.trans a4, b5.trans a5, b6.trans a6, ?_⟩
  intro q t hq
  obtain ⟨t2, ht2, hs2⟩ := a7 q t hq
  obtain ⟨t3, ht3, hs3⟩ := b7 q t2 ht2
  exact ⟨t3, ht3, sameCandidate_trans hs2 hs3⟩

/-- Writing the same candidate back at one position keeps every template the
same candidate. -/
theorem sameCandidate_set (l : List CBlockTemplate) (p : Nat) (t x : CBlockTemplate)
    (hp : l[p]? = some t) (hx : sameCandidate t x) (q : Nat) (u : CBlockTemplate)
    (hq : l[q]? = some u) : ∃ u2, (l.set p x)[q]? = some u2 ∧ sameCandidate u u2 := by
  by_cases hpq : p = q
  · subst hpq
    rw [hp] at hq
    cases hq
    exact ⟨x, getElem?_set_some _ _ _ _ hp, hx⟩
  · rw [List.getElem?_set_ne hpq]
    exact ⟨u, hq, sameCandidate_refl u⟩

/-- A `getwork` submission leaves the cache, the poll statics and the
candidates in place. -/
theorem getwork_submit_sameStatics (ext : Ext) (env : Env) (st : GetworkState)
    (vchData : List Nat) : st.sameStatics (getwork_submit ext env st vchData).state := by
  unfold getwork_submit
  cases hd : decodeWork vchData with
  | error e => exact getworkState_sameStatics_refl st
  | ok pdata =>
    simp only []
    cases h1 : mapFind st.mapNewBlock pdata.hashMerkleRoot with
    | none => exact getworkState_sameStatics_refl st
    | some e =>
      obtain ⟨p, script⟩ := e
      simp only []
      cases h2 : st.vNewBlockTemplate[p]? with
      | none => exact getworkState_sameStatics_refl st
      | some t =>
        refine ⟨rfl, rfl, rfl, rfl, rfl, rfl, ?_⟩
        intro q u hq
        exact sameCandidate_set _ p t
          { t with block := getwork_restore ext t.block pdata script } h2
          ⟨rfl, rfl, rfl, rfl, rfl, rfl, rfl, rfl⟩ q u hq

/-- A `getwork` call that is not a poll leaves the cache, the poll statics
and the candidates in place. -/
theorem getwork_sameStatics (ext : Ext) (env : Env) (st : GetworkState)
    (params : List (List Nat)) (h : params ≠ []) :
    st.sameStatics (getwork ext env st params).state := by
  unfold getwork
  split
  · exact getworkState_sameStatics_refl st
  · split
    · exact getworkState_sameStatics_refl st
    · split
      · exact getworkState_sameStatics_refl st
      · cases params with
        | nil => exact absurd rfl h
        | cons d rest => exact getwork_submit_sameStatics ext env st d

theorem getwork_run_sameStatics (ext : Ext) (calls : List (Env × List (List Nat))) :
    ∀ st : GetworkState, (∀ c ∈ calls, c.2 ≠ []) →
      st.sameStatics (getwork_run ext st calls) := by
  induction calls with
  | nil => intro st _; exact getworkState_sameStatics_refl st
  | cons c rest ih =>
    intro st h
    have h1 := getwork_sameStatics ext c.1 st c.2 (h c (by simp))
    have h2 := ih (getwork ext c.1 st c.2).state (fun c2 hc2 => h c2 (by simp [hc2]))
    exact getworkState_sameStatics_trans h1 h2

theorem getwork_ok_ready (ext : Ext) (env : Env) (st : GetworkState)
    (params : List (List Nat)) (v : Value) (h : (getwork ext env st params).result = .ok v) :
    env.vNodesEmpty = false ∧ env.IsInitialBlockDownload = false := by
  unfold getwork at h
  split at h
  · simp [throwErr] at h
  · split at h
    · simp [throwErr] at h
    · split at h
      · simp [throwErr] at h
      · rename_i h1 h2
        exact ⟨by simpa using h1, by simpa using h2⟩

/-- The reuse property of the `getwork` context: after a successful poll,
which returned the work of the current block `t1`, and any calls that are not
polls, a poll that finds the recorded tip and pool counter unchanged calls no
collaborator and returns the work of the block `t2` it leaves in the same
place, which is the same candidate. -/
theorem getwork_reuse (ext : Ext) (env0 : Env) (st0 : GetworkState) (v : Value)
    (subs : List (Env × List (List Nat))) (env : Env)
    (hpoll : (getwork ext env0 st0 []).result = .ok v)
    (hsubs : ∀ c ∈ subs, c.2 ≠ [])
    (hn : env.vNodesEmpty = false) (hi : env.IsInitialBlockDownload = false)
    (htip : (getwork_run ext (getwork ext env0 st0 []).state subs).pindexPrev
      = some env.pindexBest)
    (hctr : env.nTransactionsUpdated
      = (getwork_run ext (getwork ext env0 st0 []).state subs).nTransactionsUpdatedLast) :
    ∃ p t1 t2,
      (getwork ext env0 st0 []).state.pblocktemplate = some p ∧
      (getwork ext env0 st0 []).state.vNewBlockTemplate[p]? = some t1 ∧
      (getwork ext env0 st0 []).result
        = .ok (.work (FormatHashBuffers_pdata t1.block.toCBlockHeader)
            (ext.SetCompact t1.block.nBits)) ∧
      (getwork ext env0 st0 []).state.pindexPrev = some env0.pindexBest ∧
      (getwork ext env (getwork_run ext (getwork ext env0 st0 []).state subs) []).calls = [] ∧
      (getwork ext env (getwork_run ext (getwork ext env0 st0 []).state subs) []).result
        = .ok (.work (FormatHashBuffers_pdata t2.block.toCBlockHeader)
            (ext.SetCompact t2.block.nBits)) ∧
      (getwork ext env (getwork_run ext (getwork ext env0 st0 []).state subs)
        []).state.pblocktemplate = some p ∧
      (getwork ext env (getwork_run ext (getwork ext env0 st0 []).state subs)
        []).state.vNewBlockTemplate[p]? = some t2 ∧
      sameCandidate t1 t2 := by
  obtain ⟨hn0, hi0⟩ := getwork_ok_ready _ _ _ _ _ hpoll
  rw [getwork_eq_poll ext env0 st0 hn0 hi0] at hpoll htip hctr ⊢
  obtain ⟨p, t1, prev, a1, a2, a3, a4⟩ := getwork_poll_ok_work ext env0 st0 v hpoll
  have a5 := getwork_poll_ok_tip ext env0 st0 v hpoll
  have hrun := getwork_run_sameStatics ext subs (getwork_poll ext env0 st0).state hsubs
  obtain ⟨_, b2, b3, _, _, _, b7⟩ := hrun
  obtain ⟨t1b, c1, c2⟩ := b7 p t1 a2
  rw [getwork_eq_poll ext env _ hn hi, getwork_poll_reuse ext env _ htip hctr]
  obtain ⟨t2, d1, d2, d3, _, d5, _, d7⟩ :=
    getwork_serve_work ext env _ [] p t1b prev (b2.trans a1) c1 (b3.trans a3)
  exact ⟨p, t1, t2, a1, a2, a4, a5, d1, d2, d3, d5, sameCandidate_trans c2 d7⟩

/-! ## The `getworkaux` context -/

theorem getworkaux_eq_poll (ext : Ext) (env : Env) (st : GetworkauxState) (first : AuxArg)
    (hn : env.vNodesEmpty = false) (hi : env.IsInitialBlockDownload = false) :
    getworkaux ext env st ⟨first, none⟩ = getworkaux_poll ext env st first.ParseHex := by
  simp [getworkaux, hn, hi]

theorem getworkaux_eq_submit (ext : Ext) (env : Env) (st : GetworkauxState) (first : AuxArg)
    (vchData : List Nat) (chain : Option (Int × List Nat))
    (hn : env.vNodesEmpty = false) (hi : env.IsInitialBlockDownload = false) :
    getworkaux ext env st ⟨first, some (vchData, chain)⟩
      = getworkaux_submit ext env st first vchData chain := by
  simp [getworkaux, hn, hi]

/-- A `getworkaux` poll that does not rebuild goes straight to serving. -/
theorem getworkaux_poll_reuse (ext : Ext) (env : Env) (st : GetworkauxState)
    (vchAux : List Nat) (h1 : st.pindexPrev = some env.pindexBest)
    (h2 : env.nTransactionsUpdated = st.nTransactionsUpdatedLast)
    (h3 : vchAux = st.vchAuxPrev) :
    getworkaux_poll ext env st vchAux = getworkaux_serve ext env st vchAux [] := by
  simp [getworkaux_poll, h1, h2, h3]

theorem getworkaux_serve_eq (ext : Ext) (env : Env) (st : GetworkauxState) (vchAux : List Nat)
    (calls : List Call) (p : Nat) (t : CBlockTemplate) (prev : Nat)
    (h1 : st.pblocktemplate = some p) (h2 : st.vNewBlockTemplate[p]? = some t)
    (h3 : st.pindexPrev = some prev) :
    ∃ (pblock : CBlock) (n : Nat) (nPrev : Int),
      getworkaux_serve ext env st vchAux calls
        = ⟨{ st with
              vNewBlockTemplate := st.vNewBlockTemplate.set p { t with block := pblock }
              nExtraNonce := n
              nPrevTime := nPrev
              mapNewBlock := mapSet st.mapNewBlock pblock.hashMerkleRoot (p, n) },
            .ok (.work (FormatHashBuffers_pdata pblock.toCBlockHeader)
              (ext.SetCompact pblock.nBits)), calls⟩ ∧
      pblock.hashMerkleRoot = ext.BuildMerkleTree pblock.vtx ∧
      sameCandidate t { t with block := pblock } := by
  refine ⟨(getworkaux_update ext env t.block prev st.nExtraNonce st.nPrevTime vchAux).1,
    (getworkaux_update ext env t.block prev st.nExtraNonce st.nPrevTime vchAux).2.1,
    (getworkaux_update ext env t.block prev st.nExtraNonce st.nPrevTime vchAux).2.2, ?_, ?_, ?_⟩
  · simp only [getworkaux_serve, h1, h2, h3]
  · rfl
  · exact ⟨rfl, rfl, rfl, rfl, rfl, rfl, rfl, rfl⟩

theorem getworkaux_serve_live (ext : Ext) (env : Env) (st : GetworkauxState)
    (vchAux : List Nat) (calls : List Call)
    (p : Nat) (t : CBlockTemplate) (prev : Nat) (h1 : st.pblocktemplate = some p)
    (h2 : st.vNewBlockTemplate[p]? = some t) (h3 : st.pindexPrev = some prev) :
    ∃ t2 data target,
      (getworkaux_serve ext env st vchAux calls).calls = calls ∧
      (getworkaux_serve ext env st vchAux calls).result = .ok (.work data target) ∧
      (getworkaux_serve ext env st vchAux calls).state.pblocktemplate = some p ∧
      (getworkaux_serve ext env st vchAux calls).state.pindexPrev = some prev ∧
      (getworkaux_serve ext env st vchAux calls).state.vNewBlockTemplate[p]? = some t2 ∧
      sameCandidate t t2 := by
  obtain ⟨pblock, n, nPrev, heq, _, hsame⟩ :=
    getworkaux_serve_eq ext env st vchAux calls p t prev h1 h2 h3
  rw [heq]
  exact ⟨_, _, _, rfl, rfl, h1, h3, getElem?_set_some _ _ _ _ h2, hsame⟩

theorem getworkaux_serve_ok (ext : Ext) (env : Env) (st : GetworkauxState) (vchAux : List Nat)
    (calls : List Call) (v : Value)
    (h : (getworkaux_serve ext env st vchAux calls).result = .ok v) :
    ∃ p t prev, st.pblocktemplate = some p ∧ st.vNewBlockTemplate[p]? = some t ∧
      st.pindexPrev = some prev := by
  unfold getworkaux_serve at h
  cases h1 : st.pblocktemplate with
  | none => rw [h1] at h; simp [throwErr] at h
  | some p =>
    cases h2 : st.vNewBlockTemplate[p]? with
    | none => rw [h1] at h; simp only [] at h; rw [h2] at h; simp [throwErr] at h
    | some t =>
      cases h3 : st.pindexPrev with
      | none =>
        rw [h1] at h; simp only [] at h; rw [h2] at h; simp only [] at h; rw [h3] at h
        simp [throwErr] at h
      | some prev => exact ⟨p, t, prev, rfl, h2, rfl⟩

/-- Serving from a live template returns the work of the block written back,
and leaves the recorded auxiliary data as it is. -/
theorem getworkaux_serve_work (ext : Ext) (env : Env) (st : GetworkauxState)
    (vchAux : List Nat) (calls : List Call)
    (p : Nat) (t : CBlockTemplate) (prev : Nat) (h1 : st.pblocktemplate = some p)
    (h2 : st.vNewBlockTemplate[p]? = some t) (h3 : st.pindexPrev = some prev) :
    ∃ t2 n,
      (getworkaux_serve ext env st vchAux calls).calls = calls ∧
      (getworkaux_serve ext env st vchAux calls).result
        = .ok (.work (FormatHashBuffers_pdata t2.block.toCBlockHeader)
            (ext.SetCompact t2.block.nBits)) ∧
      (getworkaux_serve ext env st vchAux calls).state.pblocktemplate = some p ∧
      (getworkaux_serve ext env st vchAux calls).state.pindexPrev = some prev ∧
      (getworkaux_serve ext env st vchAux calls).state.vNewBlockTemplate[p]? = some t2 ∧
      (getworkaux_serve ext env st vchAux calls).state.mapNewBlock
        = mapSet st.mapNewBlock t2.block.hashMerkleRoot (p, n) ∧
      (getworkaux_serve ext env st vchAux calls).state.vchAuxPrev = st.vchAuxPrev ∧
      sameCandidate t t2 := by
  obtain ⟨pblock, n, nPrev, heq, _, hsame⟩ :=
    getworkaux_serve_eq ext env st vchAux calls p t prev h1 h2 h3
  rw [heq]
  exact ⟨{ t with block := pblock }, n, rfl, rfl, h1, h3, getElem?_set_some _ _ _ _ h2, rfl,
    rfl, hsame⟩

/-- A successful `getworkaux` poll returns the work of the current block and
leaves its auxiliary data recorded. -/
theorem getworkaux_poll_ok_work (ext : Ext) (env : Env) (st : GetworkauxState)
    (vchAux : List Nat) (v : Value)
    (h : (getworkaux_poll ext env st vchAux).result = .ok v) :
    ∃ p t prev, (getworkaux_poll ext env st vchAux).state.pblocktemplate = some p ∧
      (getworkaux_poll ext env st vchAux).state.vNewBlockTemplate[p]? = some t ∧
      (getworkaux_poll ext env st vchAux).state.pindexPrev = some prev ∧
      (getworkaux_poll ext env st vchAux).result
        = .ok (.work (FormatHashBuffers_pdata t.block.toCBlockHeader)
            (ext.SetCompact t.block.nBits)) ∧
      (getworkaux_poll ext env st vchAux).state.vchAuxPrev = vchAux := by
  unfold getworkaux_poll at h ⊢
  split at h
  · rename_i hc
    rw [if_pos hc]
    cases hnew : env.CreateNewBlock with
    | none => rw [hnew] at h; simp [throwErr] at h
    | some t =>
      rw [hnew] at h
      simp only [] at h ⊢
      obtain ⟨p, t1, prev, a1, a2, a3⟩ := getworkaux_serve_ok _ _ _ _ _ _ h
      obtain ⟨t2, _, _, b2, b3, b4, b5, _, b7, _⟩ :=
        getworkaux_serve_work ext env _ vchAux [Call.CreateNewBlock _] p t1 prev a1 a2 a3
      exact ⟨p, t2, prev, b3, b5, b4, b2, b7⟩
  · rename_i hc
    rw [if_neg hc]
    obtain ⟨p, t1, prev, a1, a2, a3⟩ := getworkaux_serve_ok _ _ _ _ _ _ h
    obtain ⟨t2, _, _, b2, b3, b4, b5, _, b7, _⟩ :=
      getworkaux_serve_work ext env st vchAux [] p t1 prev a1 a2 a3
    have haux : vchAux = st.vchAuxPrev := by
      by_contra hne
      exact hc (Or.inr (Or.inl hne))
    exact ⟨p, t2, prev, b3, b5, b4, b2, b7.trans haux.symm⟩

/-- A successful `getworkaux` poll leaves the best tip it saw as the recorded
tip. -/
theorem getworkaux_poll_ok_tip (ext : Ext) (env : Env) (st : GetworkauxState)
    (vchAux : List Nat) (v : Value)
    (h : (getworkaux_poll ext env st vchAux).result = .ok v) :
    (getworkaux_poll ext env st vchAux).state.pindexPrev = some env.pindexBest := by
  unfold getworkaux_poll at h ⊢
  split at h
  · rename_i hc
    rw [if_pos hc]
    cases hnew : env.CreateNewBlock with
    | none => rw [hnew] at h; simp [throwErr] at h
    | some t =>
      rw [hnew] at h
      simp only [] at h ⊢
      obtain ⟨p, t1, prev, a1, a2, a3⟩ := getworkaux_serve_ok _ _ _ _ _ _ h
      obtain ⟨t2, _, _, _, _, b4, _⟩ :=
        getworkaux_serve_work ext env _ vchAux [Call.CreateNewBlock _] p t1 prev a1 a2 a3
      rw [b4]
      exact a3.symm
  · rename_i hc
    rw [if_neg hc]
    obtain ⟨p, t1, prev, a1, a2, a3⟩ := getworkaux_serve_ok _ _ _ _ _ _ h
    obtain ⟨t2, _, _, _, _, b4, _⟩ :=
      getworkaux_serve_work ext env st vchAux [] p t1 prev a1 a2 a3
    rw [b4, ← a3]
    by_contra hne
    exact hc (Or.inl hne)

theorem getworkauxState_sameStatics_refl (s : GetworkauxState) : s.sameStatics s :=
  ⟨rfl, rfl, rfl, rfl, rfl, rfl, fun _ t h => ⟨t, h, sameCandidate_refl t⟩⟩

theorem getworkauxState_sameStatics_trans {s s2 s3 : GetworkauxState} (h : s.sameStatics s2)
    (h2 : s2.sameStatics s3) : s.sameStatics s3 := by
  obtain ⟨a1, a2, a3, a4, a5, a6, a7⟩ := h
  obtain ⟨b1, b2, b3, b4, b5, b6, b7⟩ := h2
  refine ⟨b1.trans a1, b2.trans a2, b3.trans a3, b4.trans a4, b5.trans a5, b6.trans a6, ?_⟩
  intro q t hq
  obtain ⟨t2, ht2, hs2⟩ := a7 q t hq
  obtain ⟨t3, ht3, hs3⟩ := b7 q t2 ht2
  exact ⟨t3, ht3, sameCandidate_trans hs2 hs3⟩

/-- A `getworkaux` submission leaves the cache, the poll statics and the
candidates in place. -/
theorem getworkaux_submit_sameStatics (ext : Ext) (env : Env) (st : GetworkauxState)
    (first : AuxArg) (vchData : List Nat) (chain : Option (Int × List Nat)) :
    st.sameStatics (getworkaux_submit ext env st first vchData chain).state := by
  unfold getworkaux_submit
  split
  · exact getworkauxState_sameStatics_refl st
  · cases hd : decodeWork vchData with
    | error e => exact getworkauxState_sameStatics_refl st
    | ok pdata =>
      simp only []
      cases h1 : mapFind st.mapNewBlock pdata.hashMerkleRoot with
      | none => exact getworkauxState_sameStatics_refl st
      | some e =>
        obtain ⟨p, nExtraNonce⟩ := e
        simp only []
        cases h2 : st.vNewBlockTemplate[p]? with
        | none => exact getworkauxState_sameStatics_refl st
        | some t =>
          simp only []
          have hov : ∀ (q : Nat) (u : CBlockTemplate), st.vNewBlockTemplate[q]? = some u →
              ∃ u2, (st.vNewBlockTemplate.set p
                { t with block := getworkaux_overlay t.block pdata })[q]? = some u2 ∧
                sameCandidate u u2 :=
            fun q u hq => sameCandidate_set _ p t
              { t with block := getworkaux_overlay t.block pdata } h2
              ⟨rfl, rfl, rfl, rfl, rfl, rfl, rfl, rfl⟩ q u hq
          split
          · exact ⟨rfl, rfl, rfl, rfl, rfl, rfl, hov⟩
          · cases h3 : ext.RemoveMergedMiningHeader
                (GetOp (GetOp (GetOp (GetOp
                  (getworkaux_overlay t.block pdata).coinbase.scriptSig).1).1).1).2.2 with
            | error e => exact ⟨rfl, rfl, rfl, rfl, rfl, rfl, hov⟩
            | ok vchAux =>
              have hre : ∀ (q : Nat) (u : CBlockTemplate), st.vNewBlockTemplate[q]? = some u →
                  ∃ u2, (st.vNewBlockTemplate.set p
                    { t with block := (getworkaux_restore ext (getworkaux_overlay t.block pdata)
                        nExtraNonce vchAux) })[q]? = some u2 ∧
                    sameCandidate u u2 :=
                fun q u hq => sameCandidate_set _ p t
                  { t with block := (getworkaux_restore ext (getworkaux_overlay t.block pdata)
                        nExtraNonce vchAux) } h2
                  ⟨rfl, rfl, rfl, rfl, rfl, rfl, rfl, rfl⟩ q u hq
              simp only []
              cases chain with
              | some c => exact ⟨rfl, rfl, rfl, rfl, rfl, rfl, hre⟩
              | none =>
                simp only []
                split
                · exact ⟨rfl, rfl, rfl, rfl, rfl, rfl, hre⟩
                · exact ⟨rfl, rfl, rfl, rfl, rfl, rfl, hre⟩

/-- A `getworkaux` call that is not a poll leaves the cache, the poll statics
and the candidates in place. -/
theorem getworkaux_sameStatics (ext : Ext) (env : Env) (st : GetworkauxState)
    (params : GetworkauxParams) (h : params.more ≠ none) :
    st.sameStatics (getworkaux ext env st params).state := by
  unfold getworkaux
  split
  · exact getworkauxState_sameStatics_refl st
  · split
    · exact getworkauxState_sameStatics_refl st
    · cases hm : params.more with
      | none => exact absurd hm h
      | some m =>
        obtain ⟨d, chain⟩ := m
        exact getworkaux_submit_sameStatics ext env st params.first d chain

theorem getworkaux_run_sameStatics (ext : Ext) (calls : List (Env × GetworkauxParams)) :
    ∀ st : GetworkauxState, (∀ c ∈ calls, c.2.more ≠ none) →
      st.sameStatics (getworkaux_run ext st calls) := by
  induction calls with
  | nil => intro st _; exact getworkauxState_sameStatics_refl st
  | cons c rest ih =>
    intro st h
    have h1 := getworkaux_sameStatics ext c.1 st c.2 (h c (by simp))
    have h2 := ih (getworkaux ext c.1 st c.2).state (fun c2 hc2 => h c2 (by simp [hc2]))
    exact getworkauxState_sameStatics_trans h1 h2

theorem getworkaux_ok_ready (ext : Ext) (env : Env) (st : GetworkauxState)
    (params : GetworkauxParams) (v : Value)
    (h : (getworkaux ext env st params).result = .ok v) :
    env.vNodesEmpty = false ∧ env.IsInitialBlockDownload = false := by
  unfold getworkaux at h
  split at h
  · simp [throwErr] at h
  · split at h
    · simp [throwErr] at h
    · rename_i h1 h2
      exact ⟨by simpa using h1, by simpa using h2⟩

/-- The reuse property of the `getworkaux` context: after a successful poll,
which returned the work of the current block `t1`, and any calls that are not
polls, a poll given the auxiliary data of that poll that finds the recorded
tip and pool counter unchanged calls no collaborator and returns the work of
the block `t2` it leaves in the same place, which is the same candidate. -/
theorem getworkaux_reuse (ext : Ext) (env0 : Env) (st0 : GetworkauxState) (first0 : AuxArg)
    (v : Value) (subs : List (Env × GetworkauxParams)) (env : Env) (first : AuxArg)
    (hpoll : (getworkaux ext env0 st0 ⟨first0, none⟩).result = .ok v)
    (hsubs : ∀ c ∈ subs, c.2.more ≠ none)
    (hn : env.vNodesEmpty = false) (hi : env.IsInitialBlockDownload = false)
    (htip : (getworkaux_run ext (getworkaux ext env0 st0 ⟨first0, none⟩).state subs).pindexPrev
      = some env.pindexBest)
    (hctr : env.nTransactionsUpdated
      = (getworkaux_run ext (getworkaux ext env0 st0 ⟨first0, none⟩).state
          subs).nTransactionsUpdatedLast)
    (haux : first.ParseHex = first0.ParseHex) :
    ∃ p t1 t2,
      (getworkaux ext env0 st0 ⟨first0, none⟩).state.pblocktemplate = some p ∧
      (getworkaux ext env0 st0 ⟨first0, none⟩).state.vNewBlockTemplate[p]? = some t1 ∧
      (getworkaux ext env0 st0 ⟨first0, none⟩).result
        = .ok (.work (FormatHashBuffers_pdata t1.block.toCBlockHeader)
            (ext.SetCompact t1.block.nBits)) ∧
      (getworkaux ext env0 st0 ⟨first0, none⟩).state.pindexPrev = some env0.pindexBest ∧
      (getworkaux ext env (getworkaux_run ext (getworkaux ext env0 st0 ⟨first0, none⟩).state
        subs) ⟨first, none⟩).calls = [] ∧
      (getworkaux ext env (getworkaux_run ext (getworkaux ext env0 st0 ⟨first0, none⟩).state
        subs) ⟨first, none⟩).result
        = .ok (.work (FormatHashBuffers_pdata t2.block.toCBlockHeader)
            (ext.SetCompact t2.block.nBits)) ∧
      (getworkaux ext env (getworkaux_run ext (getworkaux ext env0 st0 ⟨first0, none⟩).state
        subs) ⟨first, none⟩).state.pblocktemplate = some p ∧
      (getworkaux ext env (getworkaux_run ext (getworkaux ext env0 st0 ⟨first0, none⟩).state
        subs) ⟨first, none⟩).state.vNewBlockTemplate[p]? = some t2 ∧
      sameCandidate t1 t2 := by
  obtain ⟨hn0, hi0⟩ := getworkaux_ok_ready _ _ _ _ _ hpoll
  rw [getworkaux_eq_poll ext env0 st0 first0 hn0 hi0] at hpoll htip hctr ⊢
  obtain ⟨p, t1, prev, a1, a2, a3, a4, a5⟩ :=
    getworkaux_poll_ok_work ext env0 st0 _ v hpoll
  have a6 := getworkaux_poll_ok_tip ext env0 st0 _ v hpoll
  have hrun := getworkaux_run_sameStatics ext subs
    (getworkaux_poll ext env0 st0 first0.ParseHex).state hsubs
  obtain ⟨_, b2, b3, _, _, b6, b7⟩ := hrun
  obtain ⟨t1b, c1, c2⟩ := b7 p t1 a2
  have haux2 : first.ParseHex
      = (getworkaux_run ext (getworkaux_poll ext env0 st0 first0.ParseHex).state
          subs).vchAuxPrev := by
    rw [b6, a5]
    exact haux
  rw [getworkaux_eq_poll ext env _ first hn hi,
    getworkaux_poll_reuse ext env _ _ htip hctr haux2]
  obtain ⟨t2, _, d1, d2, d3, _, d5, _, _, d8⟩ :=
    getworkaux_serve_work ext env _ first.ParseHex [] p t1b prev (b2.trans a1) c1
      (b3.trans a3)
  exact ⟨p, t1, t2, a1, a2, a4, a6, d1, d2, d3, d5, sameCandidate_trans c2 d8⟩

/-! ## The `getauxblock` context -/

theorem sameTransactions_refl (t : CBlockTemplate) : sameTransactions t t :=
  ⟨rfl, rfl, rfl, rfl, rfl, rfl, rfl, rfl, rfl⟩

theorem sameTransactions_trans {t t2 t3 : CBlockTemplate} (h : sameTransactions t t2)
    (h2 : sameTransactions t2 t3) : sameTransactions t t3 := by
  obtain ⟨a1, a2, a3, a4, a5, a6, a7, a8, a9⟩ := h
  obtain ⟨b1, b2, b3, b4, b5, b6, b7, b8, b9⟩ := h2
  exact ⟨b1.trans a1, b2.trans a2, b3.trans a3, b4.trans a4, b5.trans a5, b6.trans a6,
    b7.trans a7, b8.trans a8, b9.trans a9⟩

theorem getauxblock_eq_poll (ext : Ext) (env : Env) (st : GetauxblockState)
    (hn : env.vNodesEmpty = false) (hi : env.IsInitialBlockDownload = false) :
    getauxblock ext env st none = getauxblock_poll ext env st := by
  simp [getauxblock, hn, hi]

/-- A `getauxblock` poll that does not rebuild goes straight to the result. -/
theorem getauxblock_poll_reuse (ext : Ext) (env : Env) (st : GetauxblockState)
    (h1 : st.pindexPrev = some env.pindexBest)
    (h2 : env.nTransactionsUpdated = st.nTransactionsUpdatedLast) :
    getauxblock_poll ext env st = getauxblock_serve ext st [] := by
  simp [getauxblock_poll, h1, h2]

theorem getauxblock_serve_state (ext : Ext) (st : GetauxblockState) (calls : List Call) :
    (getauxblock_serve ext st calls).state = st ∧
    (getauxblock_serve ext st calls).calls = calls := by
  unfold getauxblock_serve
  cases st.pblock with
  | none => exact ⟨rfl, rfl⟩
  | some p =>
    simp only []
    cases st.vNewBlockTemplate[p]? with
    | none => exact ⟨rfl, rfl⟩
    | some t => exact ⟨rfl, rfl⟩

theorem getauxblock_serve_live (ext : Ext) (st : GetauxblockState) (calls : List Call)
    (p : Nat) (t : CBlockTemplate) (h1 : st.pblock = some p)
    (h2 : st.vNewBlockTemplate[p]? = some t) :
    (getauxblock_serve ext st calls).result
      = .ok (.auxblock (ext.SetCompact t.block.nBits) (ext.GetHash t.block.toCBlockHeader)
          (ext.GetChainID t.block)) := by
  simp only [getauxblock_serve, h1, h2]

theorem getauxblock_serve_ok (ext : Ext) (st : GetauxblockState) (calls : List Call)
    (v : Value) (h : (getauxblock_serve ext st calls).result = .ok v) :
    ∃ p t, st.pblock = some p ∧ st.vNewBlockTemplate[p]? = some t := by
  unfold getauxblock_serve at h
  cases h1 : st.pblock with
  | none => rw [h1] at h; simp [throwErr] at h
  | some p =>
    cases h2 : st.vNewBlockTemplate[p]? with
    | none => rw [h1] at h; simp only [] at h; rw [h2] at h; simp [throwErr] at h
    | some t => exact ⟨p, t, rfl, h2⟩

/-- A successful `getauxblock` poll returns the target, hash and chain of the
block the static pointer refers to. -/
theorem getauxblock_poll_ok_work (ext : Ext) (env : Env) (st : GetauxblockState) (v : Value)
    (h : (getauxblock_poll ext env st).result = .ok v) :
    ∃ p t, (getauxblock_poll ext env st).state.pblock = some p ∧
      (getauxblock_poll ext env st).state.vNewBlockTemplate[p]? = some t ∧
      (getauxblock_poll ext env st).result
        = .ok (.auxblock (ext.SetCompact t.block.nBits) (ext.GetHash t.block.toCBlockHeader)
            (ext.GetChainID t.block)) := by
  unfold getauxblock_poll at h ⊢
  split at h
  · rename_i hc
    rw [if_pos hc]
    cases hnew : env.CreateNewBlock with
    | none => rw [hnew] at h; simp [throwErr] at h
    | some t =>
      rw [hnew] at h
      simp only [] at h ⊢
      obtain ⟨p, t1, a1, a2⟩ := getauxblock_serve_ok _ _ _ _ h
      rw [(getauxblock_serve_state ext _ _).1]
      exact ⟨p, t1, a1, a2, getauxblock_serve_live ext _ _ p t1 a1 a2⟩
  · rename_i hc
    rw [if_neg hc]
    obtain ⟨p, t1, a1, a2⟩ := getauxblock_serve_ok _ _ _ _ h
    rw [(getauxblock_serve_state ext _ _).1]
    exact ⟨p, t1, a1, a2, getauxblock_serve_live ext _ _ p t1 a1 a2⟩

/-- A successful `getauxblock` poll leaves the best tip it saw as the recorded
tip. -/
theorem getauxblock_poll_ok_tip (ext : Ext) (env : Env) (st : GetauxblockState) (v : Value)
    (h : (getauxblock_poll ext env st).result = .ok v) :
    (getauxblock_poll ext env st).state.pindexPrev = some env.pindexBest := by
  unfold getauxblock_poll at h ⊢
  split at h
  · rename_i hc
    rw [if_pos hc]
    cases hnew : env.CreateNewBlock with
    | none => rw [hnew] at h; simp [throwErr] at h
    | some t =>
      simp only []
      rw [(getauxblock_serve_state ext _ _).1]
  · rename_i hc
    rw [if_neg hc, (getauxblock_serve_state ext _ _).1]
    by_contra hne
    exact hc (Or.inl hne)

theorem getauxblockState_sameStatics_refl (s : GetauxblockState) : s.sameStatics s :=
  ⟨rfl, rfl, rfl, rfl, rfl, rfl, fun _ t h => ⟨t, h, sameTransactions_refl t⟩⟩

theorem getauxblockState_sameStatics_trans {s s2 s3 : GetauxblockState}
    (h : s.sameStatics s2) (h2 : s2.sameStatics s3) : s.sameStatics s3 := by
  obtain ⟨a1, a2, a3, a4, a5, a6, a7⟩ := h
  obtain ⟨b1, b2, b3, b4, b5, b6, b7⟩ := h2
  refine ⟨b1.trans a1, b2.trans a2, b3.trans a3, b4.trans a4, b5.trans a5, b6.trans a6, ?_⟩
  intro q t hq
  obtain ⟨t2, ht2, hs2⟩ := a7 q t hq
  obtain ⟨t3, ht3, hs3⟩ := b7 q t2 ht2
  exact ⟨t3, ht3, sameTransactions_trans hs2 hs3⟩

/-- A `getauxblock` submission leaves the cache, the poll statics and the
transactions of the candidates in place. -/
theorem getauxblock_submit_sameStatics (ext : Ext) (env : Env) (st : GetauxblockState)
    (hash : Nat) (pow : CAuxPow) :
    st.sameStatics (getauxblock_submit ext env st hash pow).state := by
  unfold getauxblock_submit
  cases h1 : mapFind st.mapNewBlock hash with
  | none => exact getauxblockState_sameStatics_refl st
  | some p =>
    simp only []
    cases h2 : st.vNewBlockTemplate[p]? with
    | none => exact getauxblockState_sameStatics_refl st
    | some t =>
      refine ⟨rfl, rfl, rfl, rfl, rfl, rfl, ?_⟩
      intro q u hq
      by_cases hpq : p = q
      · subst hpq
        rw [h2] at hq
        cases hq
        exact ⟨{ t with block := getauxblock_attach ext t.block pow },
          getElem?_set_some _ _ _ _ h2, ⟨rfl, rfl, rfl, rfl, rfl, rfl, rfl, rfl, rfl⟩⟩
      · simp only []
        rw [List.getElem?_set_ne hpq]
        exact ⟨u, hq, sameTransactions_refl u⟩

theorem getauxblock_sameStatics (ext : Ext) (env : Env) (st : GetauxblockState)
    (params : Option (Nat × CAuxPow)) (h : params ≠ none) :
    st.sameStatics (getauxblock ext env st params).state := by
  unfold getauxblock
  split
  · exact getauxblockState_sameStatics_refl st
  · split
    · exact getauxblockState_sameStatics_refl st
    · cases params with
      | none => exact absurd rfl h
      | some m =>
        obtain ⟨hash, pow⟩ := m
        exact getauxblock_submit_sameStatics ext env st hash pow

theorem getauxblock_run_sameStatics (ext : Ext) (calls : List (Env × Option (Nat × CAuxPow))) :
    ∀ st : GetauxblockState, (∀ c ∈ calls, c.2 ≠ none) →
      st.sameStatics (getauxblock_run ext st calls) := by
  induction calls with
  | nil => intro st _; exact getauxblockState_sameStatics_refl st
  | cons c rest ih =>
    intro st h
    have h1 := getauxblock_sameStatics ext c.1 st c.2 (h c (by simp))
    have h2 := ih (getauxblock ext c.1 st c.2).state (fun c2 hc2 => h c2 (by simp [hc2]))
    exact getauxblockState_sameStatics_trans h1 h2

theorem getauxblock_ok_ready (ext : Ext) (env : Env) (st : GetauxblockState)
    (params : Option (Nat × CAuxPow)) (v : Value)
    (h : (getauxblock ext env st params).result = .ok v) :
    env.vNodesEmpty = false ∧ env.IsInitialBlockDownload = false := by
  unfold getauxblock at h
  split at h
  · simp [throwErr] at h
  · split at h
    · simp [throwErr] at h
    · rename_i h1 h2
      exact ⟨by simpa using h1, by simpa using h2⟩

/-- The reuse property of the `getauxblock` context: after a successful poll,
which returned the block `t1`, and any calls that are not polls, a poll that
finds the recorded tip and pool counter unchanged calls no collaborator,
leaves the context as it is and returns the block `t2` in the same place,
which is `t1` up to the proof and the version that a submission in between
has attached; with no call in between it is `t1`. -/
theorem getauxblock_reuse (ext : Ext) (env0 : Env) (st0 : GetauxblockState) (v : Value)
    (subs : List (Env × Option (Nat × CAuxPow))) (env : Env)
    (hpoll : (getauxblock ext env0 st0 none).result = .ok v)
    (hsubs : ∀ c ∈ subs, c.2 ≠ none)
    (hn : env.vNodesEmpty = false) (hi : env.IsInitialBlockDownload = false)
    (htip : (getauxblock_run ext (getauxblock ext env0 st0 none).state subs).pindexPrev
      = some env.pindexBest)
    (hctr : env.nTransactionsUpdated
      = (getauxblock_run ext (getauxblock ext env0 st0 none).state
          subs).nTransactionsUpdatedLast) :
    ∃ p t1 t2,
      (getauxblock ext env0 st0 none).state.pblock = some p ∧
      (getauxblock ext env0 st0 none).state.vNewBlockTemplate[p]? = some t1 ∧
      (getauxblock ext env0 st0 none).result
        = .ok (.auxblock (ext.SetCompact t1.block.nBits) (ext.GetHash t1.block.toCBlockHeader)
            (ext.GetChainID t1.block)) ∧
      (getauxblock ext env0 st0 none).state.pindexPrev = some env0.pindexBest ∧
      (getauxblock ext env (getauxblock_run ext (getauxblock ext env0 st0 none).state subs)
        none).calls = [] ∧
      (getauxblock ext env (getauxblock_run ext (getauxblock ext env0 st0 none).state subs)
        none).result
        = .ok (.auxblock (ext.SetCompact t2.block.nBits) (ext.GetHash t2.block.toCBlockHeader)
            (ext.GetChainID t2.block)) ∧
      (getauxblock ext env (getauxblock_run ext (getauxblock ext env0 st0 none).state subs)
        none).state = getauxblock_run ext (getauxblock ext env0 st0 none).state subs ∧
      (getauxblock_run ext (getauxblock ext env0 st0 none).state subs).pblock = some p ∧
      (getauxblock_run ext (getauxblock ext env0 st0 none).state
        subs).vNewBlockTemplate[p]? = some t2 ∧
      sameTransactions t1 t2 ∧ (subs = [] → t2 = t1) := by
  obtain ⟨hn0, hi0⟩ := getauxblock_ok_ready _ _ _ _ _ hpoll
  rw [getauxblock_eq_poll ext env0 st0 hn0 hi0] at hpoll htip hctr ⊢
  obtain ⟨p, t1, a1, a2, a3⟩ := getauxblock_poll_ok_work ext env0 st0 v hpoll
  have a4 := getauxblock_poll_ok_tip ext env0 st0 v hpoll
  have hrun := getauxblock_run_sameStatics ext subs (getauxblock_poll ext env0 st0).state hsubs
  obtain ⟨_, _, b3, _, _, _, b7⟩ := hrun
  obtain ⟨t2, c1, c2⟩ := b7 p t1 a2
  rw [getauxblock_eq_poll ext env _ hn hi, getauxblock_poll_reuse ext env _ htip hctr]
  refine ⟨p, t1, t2, a1, a2, a3, a4, (getauxblock_serve_state ext _ _).2,
    getauxblock_serve_live ext _ [] p t2 (b3.trans a1) c1,
    (getauxblock_serve_state ext _ _).1, b3.trans a1, c1, c2, ?_⟩
  intro hnil
  subst hnil
  have c3 : (getauxblock_poll ext env0 st0).state.vNewBlockTemplate[p]? = some t2 := c1
  rw [a2] at c3
  exact (Option.some.inj c3).symm

/-! ## The `getblocktemplate` context -/

theorem getblocktemplate_serve_ok (ext : Ext) (env : Env) (st : GetblocktemplateState)
    (calls : List Call) (v : Value)
    (h : (getblocktemplate_serve ext env st calls).result = .ok v) :
    ∃ t prev, st.pblocktemplate = some t ∧ st.pindexPrev = some prev := by
  unfold getblocktemplate_serve at h
  cases h1 : st.pblocktemplate with
  | none => rw [h1] at h; simp [throwErr] at h
  | some t =>
    cases h3 : st.pindexPrev with
    | none => rw [h1] at h; simp only [] at h; rw [h3] at h; simp [throwErr] at h
    | some prev => exact ⟨t, prev, rfl, rfl⟩

theorem getblocktemplate_serve_live (ext : Ext) (env : Env) (st : GetblocktemplateState)
    (calls : List Call) (t : CBlockTemplate) (prev : Nat) (h1 : st.pblocktemplate = some t)
    (h3 : st.pindexPrev = some prev) :
    getblocktemplate_serve ext env st calls
      = ⟨{ st with
            pblocktemplate :=
              some { t with block := getblocktemplate_update ext env t.block prev } },
          .ok (.blocktemplate { t with block := getblocktemplate_update ext env t.block prev }
            (ext.GetMedianTimePast prev + 1) (ext.nHeight prev + 1)), calls⟩ := by
  simp only [getblocktemplate_serve, h1, h3]

/-- A successful `getblocktemplate` call returns the template it leaves as the
current one. -/
theorem getblocktemplate_ok_work (ext : Ext) (env : Env) (st : GetblocktemplateState)
    (mode : ModeArg) (v : Value) (h : (getblocktemplate ext env st mode).result = .ok v) :
    ∃ t prev, (getblocktemplate ext env st mode).state.pblocktemplate = some t ∧
      (getblocktemplate ext env st mode).state.pindexPrev = some prev ∧
      (getblocktemplate ext env st mode).result
        = .ok (.blocktemplate t (ext.GetMedianTimePast prev + 1) (ext.nHeight prev + 1)) := by
  unfold getblocktemplate at h ⊢
  split at h
  · simp [throwErr] at h
  · rename_i hm
    rw [if_neg hm]
    split at h
    · simp [throwErr] at h
    · rename_i hn
      rw [if_neg hn]
      split at h
      · simp [throwErr] at h
      · rename_i hi
        rw [if_neg hi]
        split at h
        · rename_i hc
          rw [if_pos hc]
          cases hnew : env.CreateNewBlock with
          | none => rw [hnew] at h; simp [throwErr] at h
          | some t =>
            rw [hnew] at h
            simp only [] at h ⊢
            obtain ⟨t1, prev, a1, a3⟩ := getblocktemplate_serve_ok _ _ _ _ _ h
            rw [getblocktemplate_serve_live ext env _ _ t1 prev a1 a3]
            exact ⟨_, prev, rfl, a3, rfl⟩
        · rename_i hc
          rw [if_neg hc]
          obtain ⟨t1, prev, a1, a3⟩ := getblocktemplate_serve_ok _ _ _ _ _ h
          rw [getblocktemplate_serve_live ext env _ _ t1 prev a1 a3]
          exact ⟨_, prev, rfl, a3, rfl⟩

/-- A successful `getblocktemplate` call leaves the best tip it saw as the
recorded tip. -/
theorem getblocktemplate_ok_tip (ext : Ext) (env : Env) (st : GetblocktemplateState)
    (mode : ModeArg) (v : Value) (h : (getblocktemplate ext env st mode).result = .ok v) :
    (getblocktemplate ext env st mode).state.pindexPrev = some env.pindexBest := by
  unfold getblocktemplate at h ⊢
  split at h
  · simp [throwErr] at h
  · rename_i hm
    rw [if_neg hm]
    split at h
    · simp [throwErr] at h
    · rename_i hn
      rw [if_neg hn]
      split at h
      · simp [throwErr] at h
      · rename_i hi
        rw [if_neg hi]
        split at h
        · rename_i hc
          rw [if_pos hc]
          cases hnew : env.CreateNewBlock with
          | none => rw [hnew] at h; simp [throwErr] at h
          | some t =>
            rw [hnew] at h
            simp only [] at h ⊢
            obtain ⟨t1, prev, a1, a3⟩ := getblocktemplate_serve_ok _ _ _ _ _ h
            rw [getblocktemplate_serve_live ext env _ _ t1 prev a1 a3]
        · rename_i hc
          rw [if_neg hc]
          obtain ⟨t1, prev, a1, a3⟩ := getblocktemplate_serve_ok _ _ _ _ _ h
          rw [getblocktemplate_serve_live ext env _ _ t1 prev a1 a3]
          simp only []
          by_contra hne
          exact hc (Or.inl hne)

/-- The reuse property of the `getblocktemplate` context: after a successful
call, which returned the template `t1`, a call in template mode that finds the
recorded tip and pool counter unchanged calls no collaborator and returns
`t1` with the time and the nonce of its block updated. -/
theorem getblocktemplate_reuse (ext : Ext) (env0 : Env) (st0 : GetblocktemplateState)
    (mode0 : ModeArg) (v : Value) (env : Env) (mode : ModeArg)
    (hpoll : (getblocktemplate ext env0 st0 mode0).result = .ok v)
    (hm : mode.isTemplate = true)
    (hn : env.vNodesEmpty = false) (hi : env.IsInitialBlockDownload = false)
    (htip : (getblocktemplate ext env0 st0 mode0).state.pindexPrev = some env.pindexBest)
    (hctr : env.nTransactionsUpdated
      = (getblocktemplate ext env0 st0 mode0).state.nTransactionsUpdatedLast) :
    ∃ t1 t2 mintime0 height0,
      (getblocktemplate ext env0 st0 mode0).state.pblocktemplate = some t1 ∧
      (getblocktemplate ext env0 st0 mode0).result
        = .ok (.blocktemplate t1 mintime0 height0) ∧
      (getblocktemplate ext env0 st0 mode0).state.pindexPrev = some env0.pindexBest ∧
      (getblocktemplate ext env (getblocktemplate ext env0 st0 mode0).state mode).calls = [] ∧
      (getblocktemplate ext env (getblocktemplate ext env0 st0 mode0).state mode).result
        = .ok (.blocktemplate t2 (ext.GetMedianTimePast env.pindexBest + 1)
            (ext.nHeight env.pindexBest + 1)) ∧
      (getblocktemplate ext env (getblocktemplate ext env0 st0 mode0).state
        mode).state.pblocktemplate = some t2 ∧
      t2 = { t1 with block := getblocktemplate_update ext env t1.block env.pindexBest } ∧
      sameCandidate t1 t2 ∧ t2.block.coinbase = t1.block.coinbase ∧
      t2.block.hashMerkleRoot = t1.block.hashMerkleRoot := by
  obtain ⟨t1, prev, a1, a3, a4⟩ := getblocktemplate_ok_work ext env0 st0 mode0 v hpoll
  have a5 := getblocktemplate_ok_tip ext env0 st0 mode0 v hpoll
  have e : getblocktemplate ext env (getblocktemplate ext env0 st0 mode0).state mode
      = getblocktemplate_serve ext env (getblocktemplate ext env0 st0 mode0).state [] := by
    generalize (getblocktemplate ext env0 st0 mode0).state = st at htip hctr
    simp [getblocktemplate, hm, hn, hi, htip, hctr]
  rw [e, getblocktemplate_serve_live ext env _ _ t1 env.pindexBest a1 htip]
  exact ⟨t1, _, _, _, a1, a4, a5, rfl, rfl, rfl, rfl, ⟨rfl, rfl, rfl, rfl, rfl, rfl, rfl, rfl⟩,
    rfl, rfl⟩

/-! ## Reuse of the candidate by a poll (C5) -/

/-- C5, as the code has it. In each mining context, after a successful poll
and any calls that are not polls, a poll that finds the recorded tip equal to
the best tip and the pool counter equal to the recorded counter (and, for
`getworkaux`, is given the auxiliary data that the previous poll was given)
calls no collaborator, so not `CreateNewBlock`, and returns the work of the
candidate `t2` that stands where the candidate `t1` returned by the previous
poll stood; the tip recorded by the previous poll is the best tip it saw. In `getwork`, `getworkaux` and `getblocktemplate` the transactions
of `t2` other than the coinbase input script, the version, the previous-block
hash, the bits, the attached proof, the fees and the signature-operation
counts are those of `t1`: only time, nonce, coinbase input script and merkle
root may differ (in `getblocktemplate` only time and nonce). In `getauxblock`
the poll writes nothing: `t2` has the transactions, coinbase input script,
merkle root, time, bits and nonce of `t1`, and differs from it at most in the
proof and the version that a submission in between has attached. -/
theorem poll_reuses_candidate (ext : Ext) :
    (∀ (env0 : Env) (st0 : GetworkState) (v : Value) (subs : List (Env × List (List Nat)))
        (env : Env),
      (getwork ext env0 st0 []).result = .ok v →
      (∀ c ∈ subs, c.2 ≠ []) →
      env.vNodesEmpty = false → env.IsInitialBlockDownload = false →
      (getwork_run ext (getwork ext env0 st0 []).state subs).pindexPrev
        = some env.pindexBest →
      env.nTransactionsUpdated
        = (getwork_run ext (getwork ext env0 st0 []).state subs).nTransactionsUpdatedLast →
      ∃ p t1 t2,
        (getwork ext env0 st0 []).state.pblocktemplate = some p ∧
        (getwork ext env0 st0 []).state.vNewBlockTemplate[p]? = some t1 ∧
        (getwork ext env0 st0 []).result
          = .ok (.work (FormatHashBuffers_pdata t1.block.toCBlockHeader)
              (ext.SetCompact t1.block.nBits)) ∧
        (getwork ext env0 st0 []).state.pindexPrev = some env0.pindexBest ∧
        (getwork ext env (getwork_run ext (getwork ext env0 st0 []).state subs) []).calls = [] ∧
        (getwork ext env (getwork_run ext (getwork ext env0 st0 []).state subs) []).result
          = .ok (.work (FormatHashBuffers_pdata t2.block.toCBlockHeader)
              (ext.SetCompact t2.block.nBits)) ∧
        (getwork ext env (getwork_run ext (getwork ext env0 st0 []).state subs)
          []).state.pblocktemplate = some p ∧
        (getwork ext env (getwork_run ext (getwork ext env0 st0 []).state subs)
          []).state.vNewBlockTemplate[p]? = some t2 ∧
        sameCandidate t1 t2) ∧
    (∀ (env0 : Env) (st0 : GetworkauxState) (first0 : AuxArg) (v : Value)
        (subs : List (Env × GetworkauxParams)) (env : Env) (first : AuxArg),
      (getworkaux ext env0 st0 ⟨first0, none⟩).result = .ok v →
      (∀ c ∈ subs, c.2.more ≠ none) →
      env.vNodesEmpty = false → env.IsInitialBlockDownload = false →
      (getworkaux_run ext (getworkaux ext env0 st0 ⟨first0, none⟩).state subs).pindexPrev
        = some env.pindexBest →
      env.nTransactionsUpdated
        = (getworkaux_run ext (getworkaux ext env0 st0 ⟨first0, none⟩).state
            subs).nTransactionsUpdatedLast →
      first.ParseHex = first0.ParseHex →
      ∃ p t1 t2,
        (getworkaux ext env0 st0 ⟨first0, none⟩).state.pblocktemplate = some p ∧
        (getworkaux ext env0 st0 ⟨first0, none⟩).state.vNewBlockTemplate[p]? = some t1 ∧
        (getworkaux ext env0 st0 ⟨first0, none⟩).result
          = .ok (.work (FormatHashBuffers_pdata t1.block.toCBlockHeader)
              (ext.SetCompact t1.block.nBits)) ∧
        (getworkaux ext env0 st0 ⟨first0, none⟩).state.pindexPrev = some env0.pindexBest ∧
        (getworkaux ext env (getworkaux_run ext (getworkaux ext env0 st0 ⟨first0, none⟩).state
          subs) ⟨first, none⟩).calls = [] ∧
        (getworkaux ext env (getworkaux_run ext (getworkaux ext env0 st0 ⟨first0, none⟩).state
          subs) ⟨first, none⟩).result
          = .ok (.work (FormatHashBuffers_pdata t2.block.toCBlockHeader)
              (ext.SetCompact t2.block.nBits)) ∧
        (getworkaux ext env (getworkaux_run ext (getworkaux ext env0 st0 ⟨first0, none⟩).state
          subs) ⟨first, none⟩).state.pblocktemplate = some p ∧
        (getworkaux ext env (getworkaux_run ext (getworkaux ext env0 st0 ⟨first0, none⟩).state
          subs) ⟨first, none⟩).state.vNewBlockTemplate[p]? = some t2 ∧
        sameCandidate t1 t2) ∧
    (∀ (env0 : Env) (st0 : GetauxblockState) (v : Value)
        (subs : List (Env × Option (Nat × CAuxPow))) (env : Env),
      (getauxblock ext env0 st0 none).result = .ok v →
      (∀ c ∈ subs, c.2 ≠ none) →
      env.vNodesEmpty = false → env.IsInitialBlockDownload = false →
      (getauxblock_run ext (getauxblock ext env0 st0 none).state subs).pindexPrev
        = some env.pindexBest →
      env.nTransactionsUpdated
        = (getauxblock_run ext (getauxblock ext env0 st0 none).state
            subs).nTransactionsUpdatedLast →
      ∃ p t1 t2,
        (getauxblock ext env0 st0 none).state.pblock = some p ∧
        (getauxblock ext env0 st0 none).state.vNewBlockTemplate[p]? = some t1 ∧
        (getauxblock ext env0 st0 none).result
          = .ok (.auxblock (ext.SetCompact t1.block.nBits)
              (ext.GetHash t1.block.toCBlockHeader) (ext.GetChainID t1.block)) ∧
        (getauxblock ext env0 st0 none).state.pindexPrev = some env0.pindexBest ∧
        (getauxblock ext env (getauxblock_run ext (getauxblock ext env0 st0 none).state subs)
          none).calls = [] ∧
        (getauxblock ext env (getauxblock_run ext (getauxblock ext env0 st0 none).state subs)
          none).result
          = .ok (.auxblock (ext.SetCompact t2.block.nBits)
              (ext.GetHash t2.block.toCBlockHeader) (ext.GetChainID t2.block)) ∧
        (getauxblock ext env (getauxblock_run ext (getauxblock ext env0 st0 none).state subs)
          none).state = getauxblock_run ext (getauxblock ext env0 st0 none).state subs ∧
        (getauxblock_run ext (getauxblock ext env0 st0 none).state subs).pblock = some p ∧
        (getauxblock_run ext (getauxblock ext env0 st0 none).state
          subs).vNewBlockTemplate[p]? = some t2 ∧
        sameTransactions t1 t2 ∧ (subs = [] → t2 = t1)) ∧
    (∀ (env0 : Env) (st0 : GetblocktemplateState) (mode0 : ModeArg) (v : Value) (env : Env)
        (mode : ModeArg),
      (getblocktemplate ext env0 st0 mode0).result = .ok v →
      mode.isTemplate = true →
      env.vNodesEmpty = false → env.IsInitialBlockDownload = false →
      (getblocktemplate ext env0 st0 mode0).state.pindexPrev = some env.pindexBest →
      env.nTransactionsUpdated
        = (getblocktemplate ext env0 st0 mode0).state.nTransactionsUpdatedLast →
      ∃ t1 t2 mintime0 height0,
        (getblocktemplate ext env0 st0 mode0).state.pblocktemplate = some t1 ∧
        (getblocktemplate ext env0 st0 mode0).result
          = .ok (.blocktemplate t1 mintime0 height0) ∧
        (getblocktemplate ext env0 st0 mode0).state.pindexPrev = some env0.pindexBest ∧
        (getblocktemplate ext env (getblocktemplate ext env0 st0 mode0).state mode).calls = [] ∧
        (getblocktemplate ext env (getblocktemplate ext env0 st0 mode0).state mode).result
          = .ok (.blocktemplate t2 (ext.GetMedianTimePast env.pindexBest + 1)
              (ext.nHeight env.pindexBest + 1)) ∧
        (getblocktemplate ext env (getblocktemplate ext env0 st0 mode0).state
          mode).state.pblocktemplate = some t2 ∧
        t2 = { t1 with block := getblocktemplate_update ext env t1.block env.pindexBest } ∧
        sameCandidate t1 t2 ∧ t2.block.coinbase = t1.block.coinbase ∧
        t2.block.hashMerkleRoot = t1.block.hashMerkleRoot) := by
  refine ⟨?_, ?_, ?_, ?_⟩
  · intro env0 st0 v subs env hpoll hsubs hn hi htip hctr
    exact getwork_reuse ext env0 st0 v subs env hpoll hsubs hn hi htip hctr
  · intro env0 st0 first0 v subs env first hpoll hsubs hn hi htip hctr haux
    exact getworkaux_reuse ext env0 st0 first0 v subs env first hpoll hsubs hn hi htip hctr haux
  · intro env0 st0 v subs env hpoll hsubs hn hi htip hctr
    exact getauxblock_reuse ext env0 st0 v subs env hpoll hsubs hn hi htip hctr
  · intro env0 st0 mode0 v env mode hpoll hm hn hi htip hctr
    exact getblocktemplate_reuse ext env0 st0 mode0 v env mode hpoll hm hn hi htip hctr

theorem poll_reuses_candidate_witness :
    (∃ p t1 t2,
      (getwork sampleExt (sampleEnv 7 3 2000 (some sampleTemplate)) GetworkState.init
        []).state.pblocktemplate = some p ∧
      (getwork sampleExt (sampleEnv 7 3 2000 (some sampleTemplate)) GetworkState.init
        []).state.vNewBlockTemplate[p]? = some t1 ∧
      (getwork sampleExt (sampleEnv 7 3 2000 (some sampleTemplate)) GetworkState.init
        []).result
        = .ok (.work (FormatHashBuffers_pdata t1.block.toCBlockHeader)
            (sampleExt.SetCompact t1.block.nBits)) ∧
      (getwork sampleExt (sampleEnv 7 3 2000 (some sampleTemplate)) GetworkState.init
        []).state.pindexPrev = some (sampleEnv 7 3 2000 (some sampleTemplate)).pindexBest ∧
      (getwork sampleExt (sampleEnv 7 3 2100 none)
        (getwork_run sampleExt
          (getwork sampleExt (sampleEnv 7 3 2000 (some sampleTemplate)) GetworkState.init
            []).state
          [(sampleEnv 7 4 2010 none, [[1, 2, 3]])]) []).calls = [] ∧
      (getwork sampleExt (sampleEnv 7 3 2100 none)
        (getwork_run sampleExt
          (getwork sampleExt (sampleEnv 7 3 2000 (some sampleTemplate)) GetworkState.init
            []).state
          [(sampleEnv 7 4 2010 none, [[1, 2, 3]])]) []).result
        = .ok (.work (FormatHashBuffers_pdata t2.block.toCBlockHeader)
            (sampleExt.SetCompact t2.block.nBits)) ∧
      (getwork sampleExt (sampleEnv 7 3 2100 none)
        (getwork_run sampleExt
          (getwork sampleExt (sampleEnv 7 3 2000 (some sampleTemplate)) GetworkState.init
            []).state
          [(sampleEnv 7 4 2010 none, [[1, 2, 3]])]) []).state.pblocktemplate = some p ∧
      (getwork sampleExt (sampleEnv 7 3 2100 none)
        (getwork_run sampleExt
          (getwork sampleExt (sampleEnv 7 3 2000 (some sampleTemplate)) GetworkState.init
            []).state
          [(sampleEnv 7 4 2010 none, [[1, 2, 3]])]) []).state.vNewBlockTemplate[p]? = some t2 ∧
      sameCandidate t1 t2) ∧
    (∃ (p : Nat) (t1 t2 : CBlockTemplate),
      (getworkaux sampleExt (sampleEnv 7 3 2000 (some sampleTemplate)) GetworkauxState.init
        ⟨.other sampleAux, none⟩).state.vNewBlockTemplate[p]? = some t1 ∧
      (getworkaux sampleExt (sampleEnv 7 3 2100 none)
        (getworkaux sampleExt (sampleEnv 7 3 2000 (some sampleTemplate)) GetworkauxState.init
          ⟨.other sampleAux, none⟩).state ⟨.other sampleAux, none⟩).calls = [] ∧
      (getworkaux sampleExt (sampleEnv 7 3 2100 none)
        (getworkaux sampleExt (sampleEnv 7 3 2000 (some sampleTemplate)) GetworkauxState.init
          ⟨.other sampleAux, none⟩).state ⟨.other sampleAux, none⟩).result
        = .ok (.work (FormatHashBuffers_pdata t2.block.toCBlockHeader)
            (sampleExt.SetCompact t2.block.nBits)) ∧
      sameCandidate t1 t2) :=
  ⟨(poll_reuses_candidate sampleExt).1 (sampleEnv 7 3 2000 (some sampleTemplate))
      GetworkState.init _ [(sampleEnv 7 4 2010 none, [[1, 2, 3]])] (sampleEnv 7 3 2100 none)
      (by rfl) (by simp) rfl rfl (by decide) (by decide),
    match (poll_reuses_candidate sampleExt).2.1 (sampleEnv 7 3 2000 (some sampleTemplate))
      GetworkauxState.init (.other sampleAux) _ [] (sampleEnv 7 3 2100 none) (.other sampleAux)
      (by rfl) (by simp) rfl rfl (by decide) (by decide) rfl with
    | ⟨p, t1, t2, _, h2, _, _, h4, h5, _, _, h8⟩ => ⟨p, t1, t2, h2, h4, h5, h8⟩⟩

/-- C5 fails as stated for `getworkaux`: after a successful poll with
auxiliary data `[1]`, a poll with auxiliary data `[2]` finds the recorded tip
equal to the best tip and the pool counter equal to the recorded counter, and
yet calls `CreateNewBlock`. -/
theorem getworkaux_new_aux_rebuilds :
    (getworkaux sampleExt (sampleEnv 7 3 2000 (some sampleTemplate)) GetworkauxState.init
      ⟨.other [1], none⟩).succeeded = true ∧
    (getworkaux sampleExt (sampleEnv 7 3 2000 (some sampleTemplate)) GetworkauxState.init
      ⟨.other [1], none⟩).state.pindexPrev
      = some (sampleEnv 7 3 2000 (some sampleTemplate)).pindexBest ∧
    (sampleEnv 7 3 2000 (some sampleTemplate)).nTransactionsUpdated
      = (getworkaux sampleExt (sampleEnv 7 3 2000 (some sampleTemplate)) GetworkauxState.init
          ⟨.other [1], none⟩).state.nTransactionsUpdatedLast ∧
    (getworkaux sampleExt (sampleEnv 7 3 2000 (some sampleTemplate))
      (getworkaux sampleExt (sampleEnv 7 3 2000 (some sampleTemplate)) GetworkauxState.init
        ⟨.other [1], none⟩).state ⟨.other [2], none⟩).calls
      = [Call.CreateNewBlock [367856275024102071078907394010]] := by
  decide

/-! ## A poll that observes a new tip (C6) -/

theorem mem_mapSet {β : Type} (m : List (Nat × β)) (key : Nat) (value : β) (e : Nat × β)
    (h : e ∈ mapSet m key value) : e = (key, value) ∨ e ∈ m := by
  unfold mapSet at h
  rcases List.mem_cons.mp h with h1 | h1
  · exact Or.inl h1
  · exact Or.inr (List.mem_filter.mp h1).1

/-- A `getwork` poll that observes a new tip calls `CreateNewBlock` with the
cache empty, and ends with the cache empty or holding the one root issued. -/
theorem getwork_poll_new_tip (ext : Ext) (env : Env) (st : GetworkState)
    (h : st.pindexPrev ≠ some env.pindexBest) :
    (getwork_poll ext env st).calls = [Call.CreateNewBlock []] ∧
    ((getwork_poll ext env st).state.mapNewBlock = [] ∨
      ∃ p t target,
        (getwork_poll ext env st).result
          = .ok (.work (FormatHashBuffers_pdata t.block.toCBlockHeader) target) ∧
        (getwork_poll ext env st).state.vNewBlockTemplate[p]? = some t ∧
        (getwork_poll ext env st).state.mapNewBlock
          = [(t.block.hashMerkleRoot, (p, t.block.coinbase.scriptSig))]) := by
  unfold getwork_poll
  rw [if_pos (Or.inl h)]
  simp only [if_pos h]
  cases hnew : env.CreateNewBlock with
  | none => exact ⟨rfl, Or.inl rfl⟩
  | some t =>
    simp only []
    obtain ⟨pblock, n, heq, _, _⟩ := getwork_serve_eq ext env
      { mapNewBlock := [], vNewBlockTemplate := [] ++ [t],
        nTransactionsUpdatedLast := env.nTransactionsUpdated,
        pindexPrev := some env.pindexBest, nStart := env.GetTime,
        pblocktemplate := some ([] : List CBlockTemplate).length,
        nExtraNonce := st.nExtraNonce }
      [Call.CreateNewBlock (List.map Prod.fst ([] : List (Nat × (Nat × CScript))))]
      0 t env.pindexBest rfl rfl rfl
    rw [heq]
    refine ⟨rfl, Or.inr ⟨0, { t with block := pblock }, _, rfl, rfl, rfl⟩⟩

/-- After a failed block assembly `getwork` rebuilds at the next poll,
whatever the tip and the pool counter are: the recorded tip is `NULL`. -/
theorem getwork_failed_build_retried (ext : Ext) (env : Env) (st : GetworkState) (env2 : Env)
    (hn : env.vNodesEmpty = false) (hi : env.IsInitialBlockDownload = false)
    (hn2 : env2.vNodesEmpty = false) (hi2 : env2.IsInitialBlockDownload = false)
    (hcalls : (getwork ext env st []).calls ≠ [])
    (hfail : env.CreateNewBlock = none) :
    (getwork ext env st []).result = .error .RPC_OUT_OF_MEMORY ∧
    (getwork ext env2 (getwork ext env st []).state []).calls = [Call.CreateNewBlock []] := by
  rw [getwork_eq_poll ext env st hn hi] at hcalls ⊢
  have hreb : st.pindexPrev ≠ some env.pindexBest ∨
      (env.nTransactionsUpdated ≠ st.nTransactionsUpdatedLast ∧ env.GetTime - st.nStart > 60) := by
    by_contra hc
    apply hcalls
    unfold getwork_poll
    rw [if_neg hc]
    unfold getwork_serve
    cases st.pblocktemplate with
    | none => rfl
    | some p =>
      simp only []
      cases st.vNewBlockTemplate[p]? with
      | none => rfl
      | some t =>
        simp only []
        cases st.pindexPrev with
        | none => rfl
        | some prev => rfl
  have hstate : (getwork_poll ext env st).result = .error .RPC_OUT_OF_MEMORY ∧
      (getwork_poll ext env st).state.pindexPrev = none := by
    unfold getwork_poll
    rw [if_pos hreb, hfail]
    exact ⟨rfl, rfl⟩
  refine ⟨hstate.1, ?_⟩
  rw [getwork_eq_poll ext env2 _ hn2 hi2]
  exact (getwork_poll_new_tip ext env2 _ (by rw [hstate.2]; simp)).1

/-- After a failed block assembly `getblocktemplate` rebuilds at the next
call, whatever the tip and the pool counter are. -/
theorem getblocktemplate_failed_build_retried (ext : Ext) (env : Env)
    (st : GetblocktemplateState) (mode : ModeArg) (env2 : Env) (mode2 : ModeArg)
    (hm2 : mode2.isTemplate = true)
    (hn2 : env2.vNodesEmpty = false) (hi2 : env2.IsInitialBlockDownload = false)
    (hfail : (getblocktemplate ext env st mode).result = .error .RPC_OUT_OF_MEMORY) :
    (getblocktemplate ext env2 (getblocktemplate ext env st mode).state mode2).calls
      = [Call.CreateNewBlock []] := by
  have hprev : (getblocktemplate ext env st mode).state.pindexPrev = none := by
    unfold getblocktemplate at hfail ⊢
    split at hfail
    · simp [throwErr] at hfail
    · rename_i hm
      rw [if_neg hm]
      split at hfail
      · simp [throwErr] at hfail
      · rename_i hn
        rw [if_neg hn]
        split at hfail
        · simp [throwErr] at hfail
        · rename_i hi
          rw [if_neg hi]
          split at hfail
          · rename_i hc
            rw [if_pos hc]
            cases hnew : env.CreateNewBlock with
            | none => rfl
            | some t =>
              rw [hnew] at hfail
              simp only [] at hfail
              rw [getblocktemplate_serve_live ext env _ _ t env.pindexBest rfl rfl] at hfail
              cases hfail
          · rename_i hc
            rw [if_neg hc]
            unfold getblocktemplate_serve at hfail ⊢
            cases h1 : st.pblocktemplate with
            | none => rw [h1] at hfail; simp [throwErr] at hfail
            | some t =>
              cases h3 : st.pindexPrev with
              | none =>
                rw [h1] at hfail; simp only [] at hfail; rw [h3] at hfail
                simp [throwErr] at hfail
              | some prev => rw [h1] at hfail; simp only [] at hfail; rw [h3] at hfail; cases hfail
  generalize (getblocktemplate ext env st mode).state = s at hprev
  unfold getblocktemplate
  simp only [hm2, hn2, hi2, hprev]
  cases env2.CreateNewBlock with
  | none => simp [throwErr]
  | some t =>
    simp only [not_true_eq_false, if_false, Bool.false_eq_true, ne_eq, reduceCtorEq,
      not_false_eq_true, true_or, if_true]
    rw [getblocktemplate_serve_live ext env2 _ _ t env2.pindexBest rfl rfl]

/-- C7 fails on the code for `getworkaux` and `getauxblock`. After a poll in
which `CreateNewBlock` fails (out-of-memory error), the next poll with the
same tip, pool counter and auxiliary data does not call `CreateNewBlock`:
`getworkaux` dereferences the `NULL` template, and `getauxblock` dereferences
its `NULL` or deleted block pointer, or, when the failed rebuild was for a
pool change, returns the previous candidate. -/
theorem failed_build_not_retried :
    (getworkaux sampleExt (sampleEnv 7 3 2000 none) GetworkauxState.init
      ⟨.other [1], none⟩).result = .error .RPC_OUT_OF_MEMORY ∧
    (getworkaux sampleExt (sampleEnv 7 3 2001 (some sampleTemplate))
      (getworkaux sampleExt (sampleEnv 7 3 2000 none) GetworkauxState.init
        ⟨.other [1], none⟩).state ⟨.other [1], none⟩).calls = [] ∧
    (getworkaux sampleExt (sampleEnv 7 3 2001 (some sampleTemplate))
      (getworkaux sampleExt (sampleEnv 7 3 2000 none) GetworkauxState.init
        ⟨.other [1], none⟩).state ⟨.other [1], none⟩).result = .error .badPointer ∧
    (getauxblock sampleExt (sampleEnv 7 3 2000 none) GetauxblockState.init none).result
      = .error .RPC_OUT_OF_MEMORY ∧
    (getauxblock sampleExt (sampleEnv 7 3 2001 (some sampleTemplate))
      (getauxblock sampleExt (sampleEnv 7 3 2000 none) GetauxblockState.init none).state
      none).calls = [] ∧
    (getauxblock sampleExt (sampleEnv 7 3 2001 (some sampleTemplate))
      (getauxblock sampleExt (sampleEnv 7 3 2000 none) GetauxblockState.init none).state
      none).result = .error .badPointer ∧
    (getauxblock sampleExt (sampleEnv 7 4 2100 none)
      (getauxblock sampleExt (sampleEnv 7 3 2000 (some sampleTemplate)) GetauxblockState.init
        none).state none).result = .error .RPC_OUT_OF_MEMORY ∧
    (getauxblock sampleExt (sampleEnv 7 4 2101 (some sampleTemplate))
      (getauxblock sampleExt (sampleEnv 7 4 2100 none)
        (getauxblock sampleExt (sampleEnv 7 3 2000 (some sampleTemplate)) GetauxblockState.init
          none).state none).state none).calls = [] ∧
    (getauxblock sampleExt (sampleEnv 7 4 2101 (some sampleTemplate))
      (getauxblock sampleExt (sampleEnv 7 4 2100 none)
        (getauxblock sampleExt (sampleEnv 7 3 2000 (some sampleTemplate)) GetauxblockState.init
          none).state none).state none).result
      = (getauxblock sampleExt (sampleEnv 7 3 2000 (some sampleTemplate)) GetauxblockState.init
          none).result := by
  decide

/-! ## The cache key and the root of the cached block (C8) -/

theorem setScriptSig_vtx_congr (b b2 : CBlock) (script : CScript)
    (h1 : b2.vtxTail = b.vtxTail) (h2 : b2.coinbase.rest = b.coinbase.rest) :
    (b2.setScriptSig script).vtx = (b.setScriptSig script).vtx := by
  simp [CBlock.setScriptSig, CBlock.vtx, h1, h2]

theorem setScriptSig_self (b : CBlock) : b.setScriptSig b.coinbase.scriptSig = b := rfl

/-- Replacing every template by the same candidate keeps the cache
restorable. -/
theorem cacheRestores_of_sameCandidate (ext : Ext) (s s2 : GetworkState)
    (hmap : s2.mapNewBlock = s.mapNewBlock)
    (htpl : ∀ (q : Nat) (t : CBlockTemplate), s.vNewBlockTemplate[q]? = some t →
      ∃ t2, s2.vNewBlockTemplate[q]? = some t2 ∧ sameCandidate t t2)
    (h : s.cacheRestores ext) : s2.cacheRestores ext := by
  intro root p script hmem
  rw [hmap] at hmem
  obtain ⟨t, ht, hroot⟩ := h root p script hmem
  obtain ⟨t2, ht2, hsame⟩ := htpl p t ht
  refine ⟨t2, ht2, ?_⟩
  rw [setScriptSig_vtx_congr t.block t2.block script hsame.1 hsame.2.1]
  exact hroot

/-- Serving keeps the cache restorable: the block written back is the same
candidate, and the entry added has the root of the block with its own script. -/
theorem getwork_serve_cacheRestores (ext : Ext) (env : Env) (st : GetworkState)
    (calls : List Call) (h : st.cacheRestores ext) :
    (getwork_serve ext env st calls).state.cacheRestores ext := by
  cases h1 : st.pblocktemplate with
  | none => simp only [getwork_serve, h1]; exact h
  | some p =>
    cases h2 : st.vNewBlockTemplate[p]? with
    | none => simp only [getwork_serve, h1, h2]; exact h
    | some t =>
      cases h3 : st.pindexPrev with
      | none => simp only [getwork_serve, h1, h2, h3]; exact h
      | some prev =>
        obtain ⟨pblock, n, heq, hroot, hsame⟩ :=
          getwork_serve_eq ext env st calls p t prev h1 h2 h3
        rw [heq]
        intro root q script hmem
        rcases mem_mapSet _ _ _ _ hmem with hnew | hold
        · cases hnew
          refine ⟨{ t with block := pblock }, getElem?_set_some _ _ _ _ h2, ?_⟩
          rw [setScriptSig_self]
          exact hroot.symm
        · obtain ⟨u, hu, huroot⟩ := h root q script hold
          obtain ⟨u2, hu2, husame⟩ :=
            sameCandidate_set st.vNewBlockTemplate p t { t with block := pblock } h2 hsame q u hu
          refine ⟨u2, hu2, ?_⟩
          rw [setScriptSig_vtx_congr u.block u2.block script husame.1 husame.2.1]
          exact huroot

/-- A poll keeps the cache restorable. -/
theorem getwork_poll_cacheRestores (ext : Ext) (env : Env) (st : GetworkState)
    (h : st.cacheRestores ext) : (getwork_poll ext env st).state.cacheRestores ext := by
  unfold getwork_poll
  split
  · by_cases htip : st.pindexPrev ≠ some env.pindexBest
    · simp only [if_pos htip]
      cases hnew : env.CreateNewBlock with
      | none =>
        intro root q script hmem
        simp [throwErr] at hmem
      | some t =>
        simp only []
        apply getwork_serve_cacheRestores
        intro root q script hmem
        simp at hmem
    · simp only [if_neg htip]
      cases hnew : env.CreateNewBlock with
      | none => exact h
      | some t =>
        simp only []
        apply getwork_serve_cacheRestores
        intro root q script hmem
        obtain ⟨u, hu, huroot⟩ := h root q script hmem
        refine ⟨u, ?_, huroot⟩
        have hq : q < st.vNewBlockTemplate.length := by
          by_contra hc
          rw [List.getElem?_eq_none (by omega)] at hu
          cases hu
        show (st.vNewBlockTemplate ++ [t])[q]? = some u
        rw [List.getElem?_append_left hq]
        exact hu
  · exact getwork_serve_cacheRestores ext env st [] h

/-- Every call of `getwork` keeps the cache restorable. -/
theorem getwork_cacheRestores (ext : Ext) (env : Env) (st : GetworkState)
    (params : List (List Nat)) (h : st.cacheRestores ext) :
    (getwork ext env st params).state.cacheRestores ext := by
  cases params with
  | nil =>
    unfold getwork
    split
    · exact h
    · split
      · exact h
      · split
        · exact h
        · exact getwork_poll_cacheRestores ext env st h
  | cons d rest =>
    have hs := getwork_sameStatics ext env st (d :: rest) (by simp)
    exact cacheRestores_of_sameCandidate ext st _ hs.1 hs.2.2.2.2.2.2 h

theorem getwork_run_cacheRestores (ext : Ext) (calls : List (Env × List (List Nat))) :
    ∀ st : GetworkState, st.cacheRestores ext → (getwork_run ext st calls).cacheRestores ext := by
  induction calls with
  | nil => intro st h; exact h
  | cons c rest ih =>
    intro st h
    exact ih _ (getwork_cacheRestores ext c.1 st c.2 h)

theorem getwork_init_cacheRestores (ext : Ext) : GetworkState.init.cacheRestores ext := by
  intro root p script hmem
  simp [GetworkState.init] at hmem

/-- C8, as the code has it. In every state of the `getwork` context reached
from the initial one by any sequence of calls, every cache entry refers to a
live block, and its key is the merkle root of that block's transaction list
once the coinbase input script saved in the entry is put back; and right after
a successful poll, the entry under the root just issued refers to the current
block, whose current transaction list has that root. -/
theorem cache_key_is_restored_root (ext : Ext) (calls : List (Env × List (List Nat))) :
    (∀ (root p : Nat) (script : CScript),
      (root, (p, script)) ∈ (getwork_run ext GetworkState.init calls).mapNewBlock →
      ∃ t, (getwork_run ext GetworkState.init calls).vNewBlockTemplate[p]? = some t ∧
        ext.BuildMerkleTree (t.block.setScriptSig script).vtx = root) ∧
    (∀ (env : Env) (v : Value),
      (getwork ext env (getwork_run ext GetworkState.init calls) []).result = .ok v →
      ∃ p t,
        (getwork ext env (getwork_run ext GetworkState.init calls) []).state.pblocktemplate
          = some p ∧
        (getwork ext env (getwork_run ext GetworkState.init calls)
          []).state.vNewBlockTemplate[p]? = some t ∧
        (t.block.hashMerkleRoot, (p, t.block.coinbase.scriptSig))
          ∈ (getwork ext env (getwork_run ext GetworkState.init calls) []).state.mapNewBlock ∧
        ext.BuildMerkleTree t.block.vtx = t.block.hashMerkleRoot) := by
  constructor
  · exact getwork_run_cacheRestores ext calls _ (getwork_init_cacheRestores ext)
  · intro env v hok
    obtain ⟨hn, hi⟩ := getwork_ok_ready _ _ _ _ _ hok
    rw [getwork_eq_poll ext env _ hn hi] at hok ⊢
    generalize getwork_run ext GetworkState.init calls = st at hok ⊢
    have key : ∀ (s : GetworkState) (cs : List Call) (w : Value),
        (getwork_serve ext env s cs).result = .ok w →
        ∃ p t, (getwork_serve ext env s cs).state.pblocktemplate = some p ∧
          (getwork_serve ext env s cs).state.vNewBlockTemplate[p]? = some t ∧
          (t.block.hashMerkleRoot, (p, t.block.coinbase.scriptSig))
            ∈ (getwork_serve ext env s cs).state.mapNewBlock ∧
          ext.BuildMerkleTree t.block.vtx = t.block.hashMerkleRoot := by
      intro s cs w hw
      obtain ⟨p, t, prev, a1, a2, a3⟩ := getwork_serve_ok ext env s cs w hw
      obtain ⟨pblock, n, heq, hroot, _⟩ := getwork_serve_eq ext env s cs p t prev a1 a2 a3
      rw [heq]
      refine ⟨p, { t with block := pblock }, a1, getElem?_set_some _ _ _ _ a2, ?_, hroot.symm⟩
      exact List.mem_cons_self _ _
    unfold getwork_poll at hok ⊢
    split at hok
    · rename_i hc
      rw [if_pos hc]
      cases hnew : env.CreateNewBlock with
      | none => rw [hnew] at hok; simp [throwErr] at hok
      | some t =>
        rw [hnew] at hok
        simp only [] at hok ⊢
        exact key _ _ v hok
    · rename_i hc
      rw [if_neg hc]
      exact key _ _ v hok

/-- C8 fails as stated: after two polls of `getwork` on the same template the
cache holds the entry issued by the first poll, whose key is the root with
extra nonce 1, while the transaction list of the block it refers to now has
the root with extra nonce 2. -/
theorem cache_key_differs_from_current_root :
    (33436672514010, (0, [⟨1, [7]⟩, ⟨1, [1]⟩]))
      ∈ (getwork_run sampleExt GetworkState.init
          [(sampleEnv 7 3 2000 (some sampleTemplate), []),
           (sampleEnv 7 3 2001 (some sampleTemplate), [])]).mapNewBlock ∧
    ((getwork_run sampleExt GetworkState.init
        [(sampleEnv 7 3 2000 (some sampleTemplate), []),
         (sampleEnv 7 3 2001 (some sampleTemplate), [])]).vNewBlockTemplate[0]?).map
      (fun t => sampleExt.BuildMerkleTree t.block.vtx) = some 33436672515010 ∧
    ((getwork_run sampleExt GetworkState.init
        [(sampleEnv 7 3 2000 (some sampleTemplate), []),
         (sampleEnv 7 3 2001 (some sampleTemplate), [])]).vNewBlockTemplate[0]?).map
      (fun t => decide (sampleExt.BuildMerkleTree t.block.vtx = 33436672514010)) = some false := by
  decide

theorem cache_key_is_restored_root_witness :
    ∃ t, (getwork_run sampleExt GetworkState.init
        [(sampleEnv 7 3 2000 (some sampleTemplate), []),
         (sampleEnv 7 3 2001 (some sampleTemplate), [])]).vNewBlockTemplate[0]? = some t ∧
      sampleExt.BuildMerkleTree (t.block.setScriptSig [⟨1, [7]⟩, ⟨1, [1]⟩]).vtx
        = 33436672514010 :=
  (cache_key_is_restored_root sampleExt
    [(sampleEnv 7 3 2000 (some sampleTemplate), []),
     (sampleEnv 7 3 2001 (some sampleTemplate), [])]).1
    33436672514010 0 [⟨1, [7]⟩, ⟨1, [1]⟩] (by decide)

/-! ## The chain index of an auxiliary proof (C9) -/

set_option maxRecDepth 100000

/-- C9, as the code has it. A request `getworkaux("" | "submit", data,
chainIndex, branch...)` against a cached candidate whose coinbase input script
has the tag `OP_2` as third operation and a commitment that
`RemoveMergedMiningHeader` accepts returns an auxiliary proof for every
integer chain index, whatever forest size the commitment declares: the index
is not compared with it, the proof carries the index and the branch as given,
and no collaborator is called. -/
theorem auxpow_for_any_chain_index (ext : Ext) (env : Env) (st : GetworkauxState)
    (first : AuxArg) (vchData : List Nat) (pdata : CBlockHeader) (p n : Nat)
    (t : CBlockTemplate) (vchAux : List Nat) (nChainIndex : Int) (branch : List Nat)
    (hn : env.vNodesEmpty = false) (hi : env.IsInitialBlockDownload = false)
    (hf : first = .empty ∨ first = .submit)
    (hd : decodeWork vchData = .ok pdata)
    (hfind : mapFind st.mapNewBlock pdata.hashMerkleRoot = some (p, n))
    (hlive : st.vNewBlockTemplate[p]? = some t)
    (hop : (GetOp (GetOp (GetOp t.block.coinbase.scriptSig).1).1).2.1 = OP_2)
    (haux : ext.RemoveMergedMiningHeader
      (GetOp (GetOp (GetOp (GetOp t.block.coinbase.scriptSig).1).1).1).2.2 = .ok vchAux) :
    (getworkaux ext env st ⟨first, some (vchData, some (nChainIndex, branch))⟩).result
      = .ok (.auxpow
          { tx := (getworkaux_restore ext (getworkaux_overlay t.block pdata) n vchAux).coinbase
            vMerkleBranch := ext.GetMerkleBranch
              (getworkaux_restore ext (getworkaux_overlay t.block pdata) n vchAux).vtx 0
            vChainMerkleBranch := branch
            nChainIndex := nChainIndex
            parentBlock :=
              (getworkaux_restore ext (getworkaux_overlay t.block pdata) n
                vchAux).toCBlockHeader }) ∧
    (getworkaux ext env st ⟨first, some (vchData, some (nChainIndex, branch))⟩).calls = [] := by
  rw [getworkaux_eq_submit ext env st first vchData _ hn hi]
  have hop2 : (GetOp (GetOp (GetOp
      (getworkaux_overlay t.block pdata).coinbase.scriptSig).1).1).2.1 = OP_2 := hop
  have haux2 : ext.RemoveMergedMiningHeader (GetOp (GetOp (GetOp (GetOp
      (getworkaux_overlay t.block pdata).coinbase.scriptSig).1).1).1).2.2 = .ok vchAux := haux
  rcases hf with rfl | rfl <;>
    simp [getworkaux_submit, hd, hfind, hlive, hop2, haux2]

theorem auxpow_for_any_chain_index_witness :
    (getworkaux sampleExt (sampleEnv 7 3 2001 none)
      (getworkaux sampleExt (sampleEnv 7 3 2000 (some sampleTemplate)) GetworkauxState.init
        ⟨.other sampleAux, none⟩).state
      ⟨.empty, some ((getworkaux sampleExt (sampleEnv 7 3 2000 (some sampleTemplate))
        GetworkauxState.init ⟨.other sampleAux, none⟩).data, some (5, [11, 12]))⟩).calls = [] :=
  (auxpow_for_any_chain_index sampleExt (sampleEnv 7 3 2001 none)
    (getworkaux sampleExt (sampleEnv 7 3 2000 (some sampleTemplate)) GetworkauxState.init
      ⟨.other sampleAux, none⟩).state
    .empty
    (getworkaux sampleExt (sampleEnv 7 3 2000 (some sampleTemplate)) GetworkauxState.init
      ⟨.other sampleAux, none⟩).data
    ⟨2, 5, 106710356748114925194271299909967287629484103515394245291336889915055910153202,
      2000, 7, 0⟩
    0 1 _ sampleAux 5 [11, 12] rfl rfl (Or.inl rfl) (by decide) (by decide) (by rfl)
    (by decide) (by decide)).2

/-- C9 fails as stated: the candidate's coinbase commits to auxiliary data
that declares forest size 1 (the call without chain index returns that data),
and the requests with chain index 5 and with chain index -1 are not refused:
each returns an auxiliary proof carrying the index. -/
theorem chain_index_not_checked :
    declaredForestSize sampleAux = 1 ∧
    (getworkaux sampleExt (sampleEnv 7 3 2001 none)
      (getworkaux sampleExt (sampleEnv 7 3 2000 (some sampleTemplate)) GetworkauxState.init
        ⟨.other sampleAux, none⟩).state
      ⟨.empty, some ((getworkaux sampleExt (sampleEnv 7 3 2000 (some sampleTemplate))
        GetworkauxState.init ⟨.other sampleAux, none⟩).data, none)⟩).aux = some sampleAux ∧
    (getworkaux sampleExt (sampleEnv 7 3 2001 none)
      (getworkaux sampleExt (sampleEnv 7 3 2000 (some sampleTemplate)) GetworkauxState.init
        ⟨.other sampleAux, none⟩).state
      ⟨.empty, some ((getworkaux sampleExt (sampleEnv 7 3 2000 (some sampleTemplate))
        GetworkauxState.init ⟨.other sampleAux, none⟩).data, some (5, []))⟩).auxpowChainIndex
      = some 5 ∧
    (getworkaux sampleExt (sampleEnv 7 3 2001 none)
      (getworkaux sampleExt (sampleEnv 7 3 2000 (some sampleTemplate)) GetworkauxState.init
        ⟨.other sampleAux, none⟩).state
      ⟨.empty, some ((getworkaux sampleExt (sampleEnv 7 3 2000 (some sampleTemplate))
        GetworkauxState.init ⟨.other sampleAux, none⟩).data, some (-1, []))⟩).auxpowChainIndex
      = some (-1) := by
  decide

/-! ## The debounce interval (C11) -/

theorem getwork_serve_calls (ext : Ext) (env : Env) (st : GetworkState) (calls : List Call) :
    (getwork_serve ext env st calls).calls = calls := by
  unfold getwork_serve
  cases st.pblocktemplate with
  | none => rfl
  | some p =>
    simp only []
    cases st.vNewBlockTemplate[p]? with
    | none => rfl
    | some t =>
      simp only []
      cases st.pindexPrev with
      | none => rfl
      | some prev => rfl

theorem getworkaux_serve_calls (ext : Ext) (env : Env) (st : GetworkauxState)
    (vchAux : List Nat) (calls : List Call) :
    (getworkaux_serve ext env st vchAux calls).calls = calls := by
  unfold getworkaux_serve
  cases st.pblocktemplate with
  | none => rfl
  | some p =>
    simp only []
    cases st.vNewBlockTemplate[p]? with
    | none => rfl
    | some t =>
      simp only []
      cases st.pindexPrev with
      | none => rfl
      | some prev => rfl

theorem getblocktemplate_serve_calls (ext : Ext) (env : Env) (st : GetblocktemplateState)
    (calls : List Call) : (getblocktemplate_serve ext env st calls).calls = calls := by
  unfold getblocktemplate_serve
  cases st.pblocktemplate with
  | none => rfl
  | some t =>
    simp only []
    cases st.pindexPrev with
    | none => rfl
    | some prev => rfl

/-- With the tip unchanged and the pool counter changed, a `getwork` poll
rebuilds exactly when more than 60 seconds have passed since the last build. -/
theorem getwork_debounce (ext : Ext) (env : Env) (st : GetworkState)
    (htip : st.pindexPrev = some env.pindexBest)
    (hctr : env.nTransactionsUpdated ≠ st.nTransactionsUpdatedLast) :
    (env.GetTime - st.nStart > 60 →
      (getwork_poll ext env st).calls = [Call.CreateNewBlock (st.mapNewBlock.map Prod.fst)] ∧
      ∀ t, env.CreateNewBlock = some t →
        ∃ t2, (getwork_poll ext env st).state.pblocktemplate
            = some st.vNewBlockTemplate.length ∧
          (getwork_poll ext env st).state.vNewBlockTemplate[st.vNewBlockTemplate.length]?
            = some t2 ∧
          sameCandidate t t2) ∧
    (env.GetTime - st.nStart ≤ 60 → (getwork_poll ext env st).calls = []) := by
  constructor
  · intro hgt
    have hc : st.pindexPrev ≠ some env.pindexBest ∨
        (env.nTransactionsUpdated ≠ st.nTransactionsUpdatedLast ∧ env.GetTime - st.nStart > 60) :=
      Or.inr ⟨hctr, hgt⟩
    have hnt : ¬ st.pindexPrev ≠ some env.pindexBest := fun h => h htip
    unfold getwork_poll
    rw [if_pos hc]
    simp only [if_neg hnt]
    constructor
    · cases env.CreateNewBlock with
      | none => rfl
      | some t => exact getwork_serve_calls _ _ _ _
    · intro t ht
      rw [ht]
      simp only []
      obtain ⟨t2, _, _, _, _, b1, _, _, _, b3, b4⟩ :=
        getwork_serve_live ext env
          { st with
            pindexPrev := some env.pindexBest
            nTransactionsUpdatedLast := env.nTransactionsUpdated
            nStart := env.GetTime
            vNewBlockTemplate := st.vNewBlockTemplate ++ [t]
            pblocktemplate := some st.vNewBlockTemplate.length }
          [Call.CreateNewBlock (st.mapNewBlock.map Prod.fst)]
          st.vNewBlockTemplate.length t env.pindexBest rfl
          (List.getElem?_concat_length _ _) rfl
      exact ⟨t2, b1, b3, b4⟩
  · intro hle
    have hc : ¬ (st.pindexPrev ≠ some env.pindexBest ∨
        (env.nTransactionsUpdated ≠ st.nTransactionsUpdatedLast ∧
          env.GetTime - st.nStart > 60)) := by
      rintro (h | ⟨_, h⟩)
      · exact h htip
      · omega
    unfold getwork_poll
    rw [if_neg hc]
    exact getwork_serve_calls _ _ _ _

/-- With the tip unchanged and the pool counter changed, a `getworkaux` poll
rebuilds when more than 60 seconds have passed since the last build, and with
the auxiliary data of the previous poll only then. -/
theorem getworkaux_debounce (ext : Ext) (env : Env) (st : GetworkauxState) (vchAux : List Nat)
    (htip : st.pindexPrev = some env.pindexBest)
    (hctr : env.nTransactionsUpdated ≠ st.nTransactionsUpdatedLast) :
    (env.GetTime - st.nStart > 60 →
      (getworkaux_poll ext env st vchAux).calls
        = [Call.CreateNewBlock (st.mapNewBlock.map Prod.fst)] ∧
      ∀ t, env.CreateNewBlock = some t →
        ∃ t2, (getworkaux_poll ext env st vchAux).state.pblocktemplate
            = some st.vNewBlockTemplate.length ∧
          (getworkaux_poll ext env st vchAux).state.vNewBlockTemplate[
            st.vNewBlockTemplate.length]? = some t2 ∧
          sameCandidate t t2) ∧
    (env.GetTime - st.nStart ≤ 60 → vchAux = st.vchAuxPrev →
      (getworkaux_poll ext env st vchAux).calls = []) := by
  constructor
  · intro hgt
    have hc : st.pindexPrev ≠ some env.pindexBest ∨ vchAux ≠ st.vchAuxPrev ∨
        (env.nTransactionsUpdated ≠ st.nTransactionsUpdatedLast ∧ env.GetTime - st.nStart > 60) :=
      Or.inr (Or.inr ⟨hctr, hgt⟩)
    have hnt : ¬ st.pindexPrev ≠ some env.pindexBest := fun h => h htip
    unfold getworkaux_poll
    rw [if_pos hc]
    simp only [if_neg hnt]
    constructor
    · cases env.CreateNewBlock with
      | none => rfl
      | some t => exact getworkaux_serve_calls _ _ _ _ _
    · intro t ht
      rw [ht]
      simp only []
      obtain ⟨t2, _, _, _, _, b1, _, b3, b4⟩ :=
        getworkaux_serve_live ext env
          { st with
            nTransactionsUpdatedLast := env.nTransactionsUpdated
            pindexPrev := some env.pindexBest
            vchAuxPrev := vchAux
            nStart := env.GetTime
            vNewBlockTemplate := st.vNewBlockTemplate ++ [t]
            pblocktemplate := some st.vNewBlockTemplate.length }
          vchAux [Call.CreateNewBlock (st.mapNewBlock.map Prod.fst)]
          st.vNewBlockTemplate.length t env.pindexBest rfl
          (List.getElem?_concat_length _ _) rfl
      exact ⟨t2, b1, b3, b4⟩
  · intro hle haux
    have hc : ¬ (st.pindexPrev ≠ some env.pindexBest ∨ vchAux ≠ st.vchAuxPrev ∨
        (env.nTransactionsUpdated ≠ st.nTransactionsUpdatedLast ∧
          env.GetTime - st.nStart > 60)) := by
      rintro (h | h | ⟨_, h⟩)
      · exact h htip
      · exact h haux
      · omega
    unfold getworkaux_poll
    rw [if_neg hc]
    exact getworkaux_serve_calls _ _ _ _ _

/-- With the tip unchanged and the pool counter changed, a `getauxblock` poll
rebuilds exactly when more than 60 seconds have passed since the last build. -/
theorem getauxblock_debounce (ext : Ext) (env : Env) (st : GetauxblockState)
    (htip : st.pindexPrev = some env.pindexBest)
    (hctr : env.nTransactionsUpdated ≠ st.nTransactionsUpdatedLast) :
    (env.GetTime - st.nStart > 60 →
      (getauxblock_poll ext env st).calls
        = [Call.CreateNewBlock (st.mapNewBlock.map Prod.fst)] ∧
      ∀ t, env.CreateNewBlock = some t →
        (getauxblock_poll ext env st).state.pblock = some st.vNewBlockTemplate.length ∧
        (getauxblock_poll ext env st).state.vNewBlockTemplate[st.vNewBlockTemplate.length]?
          = some { t with block := getauxblock_prepare ext env t.block }) ∧
    (env.GetTime - st.nStart ≤ 60 → (getauxblock_poll ext env st).calls = []) := by
  constructor
  · intro hgt
    have hc : st.pindexPrev ≠ some env.pindexBest ∨
        (env.nTransactionsUpdated ≠ st.nTransactionsUpdatedLast ∧ env.GetTime - st.nStart > 60) :=
      Or.inr ⟨hctr, hgt⟩
    have hnt : ¬ st.pindexPrev ≠ some env.pindexBest := fun h => h htip
    unfold getauxblock_poll
    rw [if_pos hc]
    simp only [if_neg hnt]
    constructor
    · cases env.CreateNewBlock with
      | none => rfl
      | some t => exact (getauxblock_serve_state _ _ _).2
    · intro t ht
      rw [ht]
      simp only []
      rw [(getauxblock_serve_state _ _ _).1]
      exact ⟨rfl, List.getElem?_concat_length _ _⟩
  · intro hle
    have hc : ¬ (st.pindexPrev ≠ some env.pindexBest ∨
        (env.nTransactionsUpdated ≠ st.nTransactionsUpdatedLast ∧
          env.GetTime - st.nStart > 60)) := by
      rintro (h | ⟨_, h⟩)
      · exact h htip
      · omega
    unfold getauxblock_poll
    rw [if_neg hc]
    exact (getauxblock_serve_state _ _ _).2

/-- With the tip unchanged and the pool counter changed, `getblocktemplate` in
template mode rebuilds exactly when more than 5 seconds have passed since the
last build. -/
theorem getblocktemplate_debounce (ext : Ext) (env : Env) (st : GetblocktemplateState)
    (mode : ModeArg) (hm : mode.isTemplate = true)
    (hn : env.vNodesEmpty = false) (hi : env.IsInitialBlockDownload = false)
    (htip : st.pindexPrev = some env.pindexBest)
    (hctr : env.nTransactionsUpdated ≠ st.nTransactionsUpdatedLast) :
    (env.GetTime - st.nStart > 5 →
      (getblocktemplate ext env st mode).calls = [Call.CreateNewBlock []] ∧
      ∀ t, env.CreateNewBlock = some t →
        (getblocktemplate ext env st mode).state.pblocktemplate
          = some { t with block := getblocktemplate_update ext env t.block env.pindexBest }) ∧
    (env.GetTime - st.nStart ≤ 5 → (getblocktemplate ext env st mode).calls = []) := by
  constructor
  · intro hgt
    have hc : st.pindexPrev ≠ some env.pindexBest ∨
        (env.nTransactionsUpdated ≠ st.nTransactionsUpdatedLast ∧ env.GetTime - st.nStart > 5) :=
      Or.inr ⟨hctr, hgt⟩
    unfold getblocktemplate
    simp only [hm, hn, hi, not_true_eq_false, if_false, Bool.false_eq_true]
    rw [if_pos hc]
    constructor
    · cases env.CreateNewBlock with
      | none => rfl
      | some t => exact getblocktemplate_serve_calls _ _ _ _
    · intro t ht
      rw [ht]
      simp only []
      rw [getblocktemplate_serve_live ext env _ _ t env.pindexBest rfl rfl]
  · intro hle
    have hc : ¬ (st.pindexPrev ≠ some env.pindexBest ∨
        (env.nTransactionsUpdated ≠ st.nTransactionsUpdatedLast ∧
          env.GetTime - st.nStart > 5)) := by
      rintro (h | ⟨_, h⟩)
      · exact h htip
      · omega
    unfold getblocktemplate
    simp only [hm, hn, hi, not_true_eq_false, if_false, Bool.false_eq_true]
    rw [if_neg hc]
    exact getblocktemplate_serve_calls _ _ _ _

/-- C11, as the code has it. For a poll in which the tip is unchanged and the
pool counter differs from the recorded counter: the candidate is rebuilt
(`CreateNewBlock` is called once, and the template it returns becomes the
current candidate) whenever more than the debounce interval has elapsed since
the last build, that is whenever the current time minus the last build time is
greater than 60 seconds for `getwork`, `getworkaux` and `getauxblock` and
greater than 5 seconds for `getblocktemplate`; when it is at most 60, or 5,
seconds, the boundary values included, no collaborator is called (for
`getworkaux`, when the auxiliary data is that of the previous poll). -/
theorem rebuild_after_debounce (ext : Ext) :
    (∀ (env : Env) (st : GetworkState),
      env.vNodesEmpty = false → env.IsInitialBlockDownload = false →
      st.pindexPrev = some env.pindexBest →
      env.nTransactionsUpdated ≠ st.nTransactionsUpdatedLast →
      (env.GetTime - st.nStart > 60 →
        (getwork ext env st []).calls = [Call.CreateNewBlock (st.mapNewBlock.map Prod.fst)] ∧
        ∀ t, env.CreateNewBlock = some t →
          ∃ t2, (getwork ext env st []).state.pblocktemplate
              = some st.vNewBlockTemplate.length ∧
            (getwork ext env st []).state.vNewBlockTemplate[st.vNewBlockTemplate.length]?
              = some t2 ∧
            sameCandidate t t2) ∧
      (env.GetTime - st.nStart ≤ 60 → (getwork ext env st []).calls = [])) ∧
    (∀ (env : Env) (st : GetworkauxState) (first : AuxArg),
      env.vNodesEmpty = false → env.IsInitialBlockDownload = false →
      st.pindexPrev = some env.pindexBest →
      env.nTransactionsUpdated ≠ st.nTransactionsUpdatedLast →
      (env.GetTime - st.nStart > 60 →
        (getworkaux ext env st ⟨first, none⟩).calls
          = [Call.CreateNewBlock (st.mapNewBlock.map Prod.fst)] ∧
        ∀ t, env.CreateNewBlock = some t →
          ∃ t2, (getworkaux ext env st ⟨first, none⟩).state.pblocktemplate
              = some st.vNewBlockTemplate.length ∧
            (getworkaux ext env st ⟨first, none⟩).state.vNewBlockTemplate[
              st.vNewBlockTemplate.length]? = some t2 ∧
            sameCandidate t t2) ∧
      (env.GetTime - st.nStart ≤ 60 → first.ParseHex = st.vchAuxPrev →
        (getworkaux ext env st ⟨first, none⟩).calls = [])) ∧
    (∀ (env : Env) (st : GetauxblockState),
      env.vNodesEmpty = false → env.IsInitialBlockDownload = false →
      st.pindexPrev = some env.pindexBest →
      env.nTransactionsUpdated ≠ st.nTransactionsUpdatedLast →
      (env.GetTime - st.nStart > 60 →
        (getauxblock ext env st none).calls
          = [Call.CreateNewBlock (st.mapNewBlock.map Prod.fst)] ∧
        ∀ t, env.CreateNewBlock = some t →
          (getauxblock ext env st none).state.pblock = some st.vNewBlockTemplate.length ∧
          (getauxblock ext env st none).state.vNewBlockTemplate[st.vNewBlockTemplate.length]?
            = some { t with block := getauxblock_prepare ext env t.block }) ∧
      (env.GetTime - st.nStart ≤ 60 → (getauxblock ext env st none).calls = [])) ∧
    (∀ (env : Env) (st : GetblocktemplateState) (mode : ModeArg),
      mode.isTemplate = true →
      env.vNodesEmpty = false → env.IsInitialBlockDownload = false →
      st.pindexPrev = some env.pindexBest →
      env.nTransactionsUpdated ≠ st.nTransactionsUpdatedLast →
      (env.GetTime - st.nStart > 5 →
        (getblocktemplate ext env st mode).calls = [Call.CreateNewBlock []] ∧
        ∀ t, env.CreateNewBlock = some t →
          (getblocktemplate ext env st mode).state.pblocktemplate
            = some { t with
                block := getblocktemplate_update ext env t.block env.pindexBest }) ∧
      (env.GetTime - st.nStart ≤ 5 → (getblocktemplate ext env st mode).calls = [])) := by
  refine ⟨?_, ?_, ?_, ?_⟩
  · intro env st hn hi htip hctr
    rw [getwork_eq_poll ext env st hn hi]
    exact getwork_debounce ext env st htip hctr
  · intro env st first hn hi htip hctr
    rw [getworkaux_eq_poll ext env st first hn hi]
    exact getworkaux_debounce ext env st first.ParseHex htip hctr
  · intro env st hn hi htip hctr
    rw [getauxblock_eq_poll ext env st hn hi]
    exact getauxblock_debounce ext env st htip hctr
  · intro env st mode hm hn hi htip hctr
    exact getblocktemplate_debounce ext env st mode hm hn hi htip hctr

theorem rebuild_after_debounce_witness :
    (getwork sampleExt (sampleEnv 7 4 2061 (some sampleTemplate))
      (getwork sampleExt (sampleEnv 7 3 2000 (some sampleTemplate)) GetworkState.init
        []).state []).calls
      = [Call.CreateNewBlock
          ((getwork sampleExt (sampleEnv 7 3 2000 (some sampleTemplate)) GetworkState.init
            []).state.mapNewBlock.map Prod.fst)] :=
  (((rebuild_after_debounce sampleExt).1 (sampleEnv 7 4 2061 (some sampleTemplate))
    (getwork sampleExt (sampleEnv 7 3 2000 (some sampleTemplate)) GetworkState.init []).state
    rfl rfl (by decide) (by decide)).1 (by decide)).1

/-- C11 fails as stated at the boundary values. After a `getwork` build at
time 2000, a poll at time 2060 with the same tip and a changed pool counter
(60 seconds elapsed) calls no collaborator; after a `getblocktemplate` build
at time 2000, a call at time 2005 with the same tip and a changed pool counter
(5 seconds elapsed) calls no collaborator. One second later each rebuilds. -/
theorem no_rebuild_at_debounce_boundary :
    (getwork sampleExt (sampleEnv 7 3 2000 (some sampleTemplate)) GetworkState.init
      []).state.pindexPrev = some (sampleEnv 7 4 2060 (some sampleTemplate)).pindexBest ∧
    (sampleEnv 7 4 2060 (some sampleTemplate)).nTransactionsUpdated
      ≠ (getwork sampleExt (sampleEnv 7 3 2000 (some sampleTemplate)) GetworkState.init
          []).state.nTransactionsUpdatedLast ∧
    (sampleEnv 7 4 2060 (some sampleTemplate)).GetTime
      - (getwork sampleExt (sampleEnv 7 3 2000 (some sampleTemplate)) GetworkState.init
          []).state.nStart = 60 ∧
    (getwork sampleExt (sampleEnv 7 4 2060 (some sampleTemplate))
      (getwork sampleExt (sampleEnv 7 3 2000 (some sampleTemplate)) GetworkState.init
        []).state []).calls = [] ∧
    (getwork sampleExt (sampleEnv 7 4 2061 (some sampleTemplate))
      (getwork sampleExt (sampleEnv 7 3 2000 (some sampleTemplate)) GetworkState.init
        []).state []).calls ≠ [] ∧
    (getblocktemplate sampleExt (sampleEnv 7 3 2000 (some sampleTemplate))
      GetblocktemplateState.init .absent).state.pindexPrev
      = some (sampleEnv 7 4 2005 (some sampleTemplate)).pindexBest ∧
    (sampleEnv 7 4 2005 (some sampleTemplate)).nTransactionsUpdated
      ≠ (getblocktemplate sampleExt (sampleEnv 7 3 2000 (some sampleTemplate))
          GetblocktemplateState.init .absent).state.nTransactionsUpdatedLast ∧
    (sampleEnv 7 4 2005 (some sampleTemplate)).GetTime
      - (getblocktemplate sampleExt (sampleEnv 7 3 2000 (some sampleTemplate))
          GetblocktemplateState.init .absent).state.nStart = 5 ∧
    (getblocktemplate sampleExt (sampleEnv 7 4 2005 (some sampleTemplate))
      (getblocktemplate sampleExt (sampleEnv 7 3 2000 (some sampleTemplate))
        GetblocktemplateState.init .absent).state .absent).calls = [] ∧
    (getblocktemplate sampleExt (sampleEnv 7 4 2006 (some sampleTemplate))
      (getblocktemplate sampleExt (sampleEnv 7 3 2000 (some sampleTemplate))
        GetblocktemplateState.init .absent).state .absent).calls ≠ [] := by
  decide

/-! ## The tag op-code of the commitment script (C12) -/

theorem thirdOpcode_short (script : CScript) (h : script.length < 3) :
    thirdOpcode script ≠ OP_2 := by
  have hne : OP_INVALIDOPCODE ≠ OP_2 := by decide
  match script, h with
  | [], _ => exact hne
  | [_], _ => exact hne
  | [_, _], _ => exact hne

theorem thirdOpcode_cons (a b c : ScriptOp) (rest : CScript) :
    thirdOpcode (a :: b :: c :: rest) = c.opcode ∧
    fourthData (a :: b :: c :: rest) = (GetOp rest).2.2 :=
  ⟨rfl, rfl⟩

/-- A found `getworkaux` submission whose script does not have the tag as
third operation throws the script error, with the submitted time and nonce
already written into the block and no collaborator called. -/
theorem getworkaux_submit_no_tag (ext : Ext) (env : Env) (st : GetworkauxState)
    (first : AuxArg) (vchData : List Nat) (chain : Option (Int × List Nat))
    (pdata : CBlockHeader) (p n : Nat) (t : CBlockTemplate)
    (hf : first = .empty ∨ first = .submit)
    (hd : decodeWork vchData = .ok pdata)
    (hfind : mapFind st.mapNewBlock pdata.hashMerkleRoot = some (p, n))
    (hlive : st.vNewBlockTemplate[p]? = some t)
    (hop : thirdOpcode t.block.coinbase.scriptSig ≠ OP_2) :
    getworkaux_submit ext env st first vchData chain
      = ⟨{ st with
            vNewBlockTemplate := st.vNewBlockTemplate.set p
              { t with block := getworkaux_overlay t.block pdata } },
          .error .RPC_MISC_ERROR, []⟩ := by
  have hop2 : ¬ (GetOp (GetOp (GetOp
      (getworkaux_overlay t.block pdata).coinbase.scriptSig).1).1).2.1 = OP_2 := hop
  rcases hf with rfl | rfl <;>
    simp [getworkaux_submit, hd, hfind, hlive, hop2, throwErr]

/-- A found `getworkaux` submission whose script has the tag as third
operation goes on with the data of the fourth operation: it ends with the
error of `RemoveMergedMiningHeader` on that data, or rewrites the coinbase
with the commitment that function returns. -/
theorem getworkaux_submit_tag (ext : Ext) (env : Env) (st : GetworkauxState)
    (first : AuxArg) (vchData : List Nat) (chain : Option (Int × List Nat))
    (pdata : CBlockHeader) (p n : Nat) (t : CBlockTemplate)
    (hf : first = .empty ∨ first = .submit)
    (hd : decodeWork vchData = .ok pdata)
    (hfind : mapFind st.mapNewBlock pdata.hashMerkleRoot = some (p, n))
    (hlive : st.vNewBlockTemplate[p]? = some t)
    (hop : thirdOpcode t.block.coinbase.scriptSig = OP_2) :
    (∀ e, ext.RemoveMergedMiningHeader (fourthData t.block.coinbase.scriptSig) = .error e →
      (getworkaux_submit ext env st first vchData chain).result = .error e) ∧
    (∀ vchAux, ext.RemoveMergedMiningHeader (fourthData t.block.coinbase.scriptSig)
        = .ok vchAux →
      (∃ v, (getworkaux_submit ext env st first vchData chain).result = .ok v) ∧
      (getworkaux_submit ext env st first vchData chain).state.vNewBlockTemplate[p]?
        = some { t with
            block := getworkaux_restore ext (getworkaux_overlay t.block pdata) n vchAux } ∧
      (chain = none → first = .empty →
        (getworkaux_submit ext env st first vchData chain).result
          = .ok (.auxHash vchAux (ext.GetHash
              (getworkaux_restore ext (getworkaux_overlay t.block pdata) n
                vchAux).toCBlockHeader)))) := by
  have hop2 : (GetOp (GetOp (GetOp
      (getworkaux_overlay t.block pdata).coinbase.scriptSig).1).1).2.1 = OP_2 := hop
  constructor
  · intro e he
    have he2 : ext.RemoveMergedMiningHeader (GetOp (GetOp (GetOp (GetOp
        (getworkaux_overlay t.block pdata).coinbase.scriptSig).1).1).1).2.2 = .error e := he
    rcases hf with rfl | rfl <;>
      simp [getworkaux_submit, hd, hfind, hlive, hop2, he2, throwErr]
  · intro vchAux hv
    have hv2 : ext.RemoveMergedMiningHeader (GetOp (GetOp (GetOp (GetOp
        (getworkaux_overlay t.block pdata).coinbase.scriptSig).1).1).1).2.2 = .ok vchAux := hv
    have hset := getElem?_set_some st.vNewBlockTemplate p
      { t with block := getworkaux_restore ext (getworkaux_overlay t.block pdata) n vchAux }
      t hlive
    rcases hf with rfl | rfl <;> cases chain <;>
      simp [getworkaux_submit, hd, hfind, hlive, hop2, hv2, hset]

/-- C12. For a `getworkaux` submission (first argument `""` or `submit`)
whose decoded root is found in the cache, on a node that passes the readiness
checks and with a `RemoveMergedMiningHeader` that does not itself throw the
script error: the call fails with the script error ("invalid aux pow script")
if and only if the third operation of the cached candidate's coinbase input
script is not `OP_2`, which is the case for every script with fewer than three
operations; when the third operation is `OP_2`, the data of the fourth
operation is handed to `RemoveMergedMiningHeader` and what it returns is the
commitment written back into the coinbase and returned as `aux`. -/
theorem aux_script_error_iff (ext : Ext) (env : Env) (st : GetworkauxState)
    (first : AuxArg) (vchData : List Nat) (chain : Option (Int × List Nat))
    (pdata : CBlockHeader) (p n : Nat) (t : CBlockTemplate)
    (hn : env.vNodesEmpty = false) (hi : env.IsInitialBlockDownload = false)
    (hf : first = .empty ∨ first = .submit)
    (hd : decodeWork vchData = .ok pdata)
    (hfind : mapFind st.mapNewBlock pdata.hashMerkleRoot = some (p, n))
    (hlive : st.vNewBlockTemplate[p]? = some t)
    (hext : ∀ v, ext.RemoveMergedMiningHeader v ≠ .error .RPC_MISC_ERROR) :
    ((getworkaux ext env st ⟨first, some (vchData, chain)⟩).result = .error .RPC_MISC_ERROR ↔
      thirdOpcode t.block.coinbase.scriptSig ≠ OP_2) ∧
    (t.block.coinbase.scriptSig.length < 3 →
      (getworkaux ext env st ⟨first, some (vchData, chain)⟩).result
        = .error .RPC_MISC_ERROR) ∧
    (thirdOpcode t.block.coinbase.scriptSig = OP_2 →
      ∀ vchAux, ext.RemoveMergedMiningHeader (fourthData t.block.coinbase.scriptSig)
          = .ok vchAux →
        (∃ v, (getworkaux ext env st ⟨first, some (vchData, chain)⟩).result = .ok v) ∧
        (∃ t2, (getworkaux ext env st ⟨first, some (vchData, chain)⟩).state.vNewBlockTemplate[
            p]? = some t2 ∧
          t2.block.coinbase.scriptSig = ext.MakeCoinbaseWithAux t.block.nBits n vchAux ∧
          (chain = none → first = .empty →
            (getworkaux ext env st ⟨first, some (vchData, chain)⟩).result
              = .ok (.auxHash vchAux (ext.GetHash t2.block.toCBlockHeader))))) := by
  rw [getworkaux_eq_submit ext env st first vchData chain hn hi]
  have hno : thirdOpcode t.block.coinbase.scriptSig ≠ OP_2 →
      (getworkaux_submit ext env st first vchData chain).result = .error .RPC_MISC_ERROR := by
    intro hop
    rw [getworkaux_submit_no_tag ext env st first vchData chain pdata p n t hf hd hfind hlive hop]
  refine ⟨⟨?_, hno⟩, fun hlen => hno (thirdOpcode_short _ hlen), ?_⟩
  · intro hres
    by_contra hop
    have hop2 : thirdOpcode t.block.coinbase.scriptSig = OP_2 := hop
    obtain ⟨herr, hok⟩ :=
      getworkaux_submit_tag ext env st first vchData chain pdata p n t hf hd hfind hlive hop2
    cases hr : ext.RemoveMergedMiningHeader (fourthData t.block.coinbase.scriptSig) with
    | error e =>
      rw [herr e hr] at hres
      have : e = .RPC_MISC_ERROR := by injection hres
      subst this
      exact hext _ hr
    | ok vchAux =>
      obtain ⟨⟨v, hv⟩, _⟩ := hok vchAux hr
      rw [hv] at hres
      cases hres
  · intro hop vchAux hr
    obtain ⟨_, hok⟩ :=
      getworkaux_submit_tag ext env st first vchData chain pdata p n t hf hd hfind hlive hop
    obtain ⟨h1, h2, h3⟩ := hok vchAux hr
    exact ⟨h1, _, h2, rfl, h3⟩

theorem aux_script_error_iff_witness :
    ((getworkaux sampleExt (sampleEnv 7 3 2001 none)
        (getworkaux sampleExt (sampleEnv 7 3 2000 (some sampleTemplate)) GetworkauxState.init
          ⟨.other sampleAux, none⟩).state
        ⟨.empty, some ((getworkaux sampleExt (sampleEnv 7 3 2000 (some sampleTemplate))
          GetworkauxState.init ⟨.other sampleAux, none⟩).data, none)⟩).result
        = .error .RPC_MISC_ERROR ↔
      thirdOpcode (sampleExt.MakeCoinbaseWithAux 7 1 sampleAux) ≠ OP_2) ∧
    (getworkaux sampleExt (sampleEnv 7 3 2001 none) sampleBareState
      ⟨.submit, some (FormatHashBuffers_pdata ⟨2, 5, 77, 0, 7, 0⟩, none)⟩).result
      = .error .RPC_MISC_ERROR :=
  ⟨(aux_script_error_iff sampleExt (sampleEnv 7 3 2001 none)
      (getworkaux sampleExt (sampleEnv 7 3 2000 (some sampleTemplate)) GetworkauxState.init
        ⟨.other sampleAux, none⟩).state
      .empty
      (getworkaux sampleExt (sampleEnv 7 3 2000 (some sampleTemplate)) GetworkauxState.init
        ⟨.other sampleAux, none⟩).data
      none
      ⟨2, 5, 106710356748114925194271299909967287629484103515394245291336889915055910153202,
        2000, 7, 0⟩
      0 1
      ⟨⟨⟨2, 5,
          106710356748114925194271299909967287629484103515394245291336889915055910153202,
          2000, 7, 0⟩, ⟨sampleExt.MakeCoinbaseWithAux 7 1 sampleAux, 50⟩, [⟨[], 9⟩], none⟩,
        [0, 1], [1, 1]⟩
      rfl rfl (Or.inl rfl) (by decide) (by decide) (by decide)
      (by intro v; unfold sampleExt; simp only []; split <;> simp)).1,
   (aux_script_error_iff sampleExt (sampleEnv 7 3 2001 none) sampleBareState .submit
      (FormatHashBuffers_pdata ⟨2, 5, 77, 0, 7, 0⟩) none ⟨2, 5, 77, 0, 7, 0⟩ 0 1 sampleTemplate
      rfl rfl (Or.inr rfl) (decodeWork_pdata ⟨2, 5, 77, 0, 7, 0⟩ (by decide)) (by decide)
      (by decide) (by intro v; unfold sampleExt; simp only []; split <;> simp)).2.1
      (by decide)⟩

/-! ## The readiness checks (C13) -/

/-- C13, as the code has it. On a node that has no connected peer or is in
initial download, `getwork`, `getworkaux` and `getauxblock`, called with an
argument list of accepted arity, and `getblocktemplate`, called in template
mode, fail with the not-ready error, leave their context unchanged and call no
collaborator; `getblocktemplate` in another mode fails with the invalid-mode
error first. `buildmerkletree` and `submitblock` make no readiness check:
`buildmerkletree` returns its tree, and `submitblock` hands the decoded block
to `ProcessBlock` and returns its verdict. -/
theorem not_ready_checks {D : Type} (ext : Ext) (env : Env)
    (hnr : env.vNodesEmpty = true ∨ env.IsInitialBlockDownload = true) :
    (∀ (st : GetworkState) (params : List (List Nat)), params.length ≤ 1 →
      getwork ext env st params = ⟨st, .error (notReadyError env), []⟩) ∧
    (∀ (st : GetworkauxState) (params : GetworkauxParams),
      getworkaux ext env st params = ⟨st, .error (notReadyError env), []⟩) ∧
    (∀ (st : GetauxblockState) (params : Option (Nat × CAuxPow)),
      getauxblock ext env st params = ⟨st, .error (notReadyError env), []⟩) ∧
    (∀ (st : GetblocktemplateState) (mode : ModeArg), mode.isTemplate = true →
      getblocktemplate ext env st mode = ⟨st, .error (notReadyError env), []⟩) ∧
    (∀ (st : GetblocktemplateState) (mode : ModeArg), mode.isTemplate = false →
      getblocktemplate ext env st mode = ⟨st, .error .RPC_INVALID_PARAMETER_mode, []⟩) ∧
    (∀ (Hash : D → D → D) (leaves : List D), leaves ≠ [] →
      ∃ vTree, buildmerkletree Hash leaves = .ok vTree) ∧
    (∀ (ProcessBlock : CBlock → Bool) (nParams : Nat) (pblock : CBlock),
      1 ≤ nParams → nParams ≤ 2 →
      submitblock env ProcessBlock nParams (some pblock)
        = ⟨.ok (if ProcessBlock pblock then .null else .rejected), [pblock]⟩) := by
  have herr : (env.vNodesEmpty = true ∧ notReadyError env = .RPC_CLIENT_NOT_CONNECTED) ∨
      (env.vNodesEmpty = false ∧ env.IsInitialBlockDownload = true ∧
        notReadyError env = .RPC_CLIENT_IN_INITIAL_DOWNLOAD) := by
    cases hv : env.vNodesEmpty with
    | true => exact Or.inl ⟨rfl, by simp [notReadyError, hv]⟩
    | false =>
      rcases hnr with h | h
      · rw [hv] at h; cases h
      · exact Or.inr ⟨rfl, h, by simp [notReadyError, hv]⟩
  refine ⟨?_, ?_, ?_, ?_, ?_, ?_, ?_⟩
  · intro st params hlen
    have hl : ¬ params.length > 1 := by omega
    rcases herr with ⟨h1, h2⟩ | ⟨h1, h2, h3⟩
    · simp [getwork, hl, h1, h2, throwErr]
    · simp [getwork, hl, h1, h2, h3, throwErr]
  · intro st params
    rcases herr with ⟨h1, h2⟩ | ⟨h1, h2, h3⟩
    · simp [getworkaux, h1, h2, throwErr]
    · simp [getworkaux, h1, h2, h3, throwErr]
  · intro st params
    rcases herr with ⟨h1, h2⟩ | ⟨h1, h2, h3⟩
    · simp [getauxblock, h1, h2, throwErr]
    · simp [getauxblock, h1, h2, h3, throwErr]
  · intro st mode hm
    rcases herr with ⟨h1, h2⟩ | ⟨h1, h2, h3⟩
    · simp [getblocktemplate, hm, h1, h2, throwErr]
    · simp [getblocktemplate, hm, h1, h2, h3, throwErr]
  · intro st mode hm
    simp [getblocktemplate, hm, throwErr]
  · intro Hash leaves hne
    have hpos : ¬ leaves.length < 1 := by
      cases leaves with
      | nil => exact absurd rfl hne
      | cons a l => simp
    have hout := buildmerkletree_outer_eq Hash leaves.length leaves [] (le_refl _)
    simp only [List.length_nil, List.nil_append] at hout
    exact ⟨levelOrder Hash leaves.length leaves,
      by simp only [buildmerkletree, if_neg hpos, hout]⟩
  · intro ProcessBlock nParams pblock h1 h2
    have hl : ¬ (nParams < 1 ∨ nParams > 2) := by omega
    unfold submitblock
    rw [if_neg hl]
    cases hp : ProcessBlock pblock <;> simp [hp]

theorem not_ready_checks_witness :
    getwork sampleExt sampleOfflineEnv GetworkState.init [[1, 2, 3]]
      = ⟨GetworkState.init, .error .RPC_CLIENT_NOT_CONNECTED, []⟩ :=
  (not_ready_checks (D := Nat) sampleExt sampleOfflineEnv (Or.inl rfl)).1 GetworkState.init
    [[1, 2, 3]] (by decide)

/-- C13 fails as stated for `submitblock`, `buildmerkletree` and a
`getblocktemplate` call with a mode other than `template`: on a node without
peers and in initial download, `submitblock` hands its block to `ProcessBlock`
and returns `null`, `buildmerkletree` returns the tree, and `getblocktemplate`
fails with the invalid-mode error. -/
theorem not_ready_unchecked :
    sampleOfflineEnv.vNodesEmpty = true ∧
    sampleOfflineEnv.IsInitialBlockDownload = true ∧
    submitblock sampleOfflineEnv (fun _ => true) 1 (some sampleTemplate.block)
      = ⟨.ok .null, [sampleTemplate.block]⟩ ∧
    buildmerkletree (fun a b : Nat => 10 * a + b) [1, 2, 3] = .ok [1, 2, 3, 12, 33, 153] ∧
    (getblocktemplate sampleExt sampleOfflineEnv GetblocktemplateState.init
      (.str false)).result = .error .RPC_INVALID_PARAMETER_mode := by
  decide

/-! ## The block rebuilt by a submission (C14) -/

theorem mem_of_mapFind {β : Type} (m : List (Nat × β)) (key : Nat) (value : β)
    (h : mapFind m key = some value) : (key, value) ∈ m := by
  unfold mapFind at h
  induction m with
  | nil => simp at h
  | cons e rest ih =>
    obtain ⟨k, b⟩ := e
    rw [List.lookup_cons] at h
    cases hk : (key == k) with
    | true =>
      rw [hk] at h
      have hkk : key = k := by simpa using hk
      cases h
      subst hkk
      exact List.mem_cons_self _ _
    | false =>
      rw [hk] at h
      exact List.mem_cons_of_mem _ (ih h)

theorem getwork_restore_root (ext : Ext) (block : CBlock) (pdata : CBlockHeader)
    (script : CScript) :
    (getwork_restore ext block pdata script).hashMerkleRoot
      = ext.BuildMerkleTree (block.setScriptSig script).vtx ∧
    (getwork_restore ext block pdata script).coinbase.scriptSig = script ∧
    (getwork_restore ext block pdata script).nTime = pdata.nTime ∧
    (getwork_restore ext block pdata script).nNonce = pdata.nNonce :=
  ⟨rfl, rfl, rfl, rfl⟩

/-- C14. In every state of the `getwork` context reached from the initial one
by any sequence of calls, each cache entry `root -> (block, savedScript)`
refers to a live block, and putting `savedScript` back as the block's coinbase
input script and recomputing the merkle root gives `root`. Hence a submission
that finds its entry hands `CheckWork` a block whose `hashMerkleRoot` is the
root decoded from the submitted data, with the saved script as coinbase input
script and the submitted time and nonce, whatever later polls have written
into the shared block; the call returns the verdict of `CheckWork`. -/
theorem submission_rebuilds_issued_root (ext : Ext) (calls : List (Env × List (List Nat)))
    (env : Env) (vchData : List Nat) (pdata : CBlockHeader) (p : Nat) (script : CScript)
    (hn : env.vNodesEmpty = false) (hi : env.IsInitialBlockDownload = false)
    (hd : decodeWork vchData = .ok pdata)
    (hfind : mapFind (getwork_run ext GetworkState.init calls).mapNewBlock
      pdata.hashMerkleRoot = some (p, script)) :
    (∀ (root q : Nat) (saved : CScript) (hdr : CBlockHeader),
      (root, (q, saved)) ∈ (getwork_run ext GetworkState.init calls).mapNewBlock →
      ∃ t, (getwork_run ext GetworkState.init calls).vNewBlockTemplate[q]? = some t ∧
        (getwork_restore ext t.block hdr saved).hashMerkleRoot = root) ∧
    ∃ pblock,
      (getwork ext env (getwork_run ext GetworkState.init calls) [vchData]).calls
        = [Call.CheckWork pblock] ∧
      (getwork ext env (getwork_run ext GetworkState.init calls) [vchData]).result
        = .ok (.bool (env.CheckWork pblock)) ∧
      pblock.hashMerkleRoot = pdata.hashMerkleRoot ∧
      pblock.hashMerkleRoot = ext.BuildMerkleTree pblock.vtx ∧
      pblock.coinbase.scriptSig = script ∧
      pblock.nTime = pdata.nTime ∧ pblock.nNonce = pdata.nNonce := by
  have hinv := getwork_run_cacheRestores ext calls _ (getwork_init_cacheRestores ext)
  constructor
  · intro root q saved hdr hmem
    obtain ⟨t, ht, hroot⟩ := hinv root q saved hmem
    exact ⟨t, ht, ((getwork_restore_root ext t.block hdr saved).1).trans hroot⟩
  · obtain ⟨t, ht, hroot⟩ := hinv _ p script (mem_of_mapFind _ _ _ hfind)
    rw [getwork_eq_submit ext env _ vchData hn hi]
    refine ⟨getwork_restore ext t.block pdata script, ?_, ?_, ?_, rfl, rfl, rfl, rfl⟩
    · simp only [getwork_submit, hd, hfind, ht]
    · simp only [getwork_submit, hd, hfind, ht]
    · exact ((getwork_restore_root ext t.block pdata script).1).trans hroot

theorem submission_rebuilds_issued_root_witness :
    ∃ pblock,
      (getwork sampleExt (sampleEnv 7 3 2002 none)
        (getwork_run sampleExt GetworkState.init
          [(sampleEnv 7 3 2000 (some sampleTemplate), []),
           (sampleEnv 7 3 2001 (some sampleTemplate), [])])
        [FormatHashBuffers_pdata ⟨2, 5, 33436672514010, 2000, 7, 0⟩]).calls
        = [Call.CheckWork pblock] ∧
      (getwork sampleExt (sampleEnv 7 3 2002 none)
        (getwork_run sampleExt GetworkState.init
          [(sampleEnv 7 3 2000 (some sampleTemplate), []),
           (sampleEnv 7 3 2001 (some sampleTemplate), [])])
        [FormatHashBuffers_pdata ⟨2, 5, 33436672514010, 2000, 7, 0⟩]).result
        = .ok (.bool ((sampleEnv 7 3 2002 none).CheckWork pblock)) ∧
      pblock.hashMerkleRoot
        = (⟨2, 5, 33436672514010, 2000, 7, 0⟩ : CBlockHeader).hashMerkleRoot ∧
      pblock.hashMerkleRoot = sampleExt.BuildMerkleTree pblock.vtx ∧
      pblock.coinbase.scriptSig = [⟨1, [7]⟩, ⟨1, [1]⟩] ∧
      pblock.nTime = (⟨2, 5, 33436672514010, 2000, 7, 0⟩ : CBlockHeader).nTime ∧
      pblock.nNonce = (⟨2, 5, 33436672514010, 2000, 7, 0⟩ : CBlockHeader).nNonce :=
  (submission_rebuilds_issued_root sampleExt
    [(sampleEnv 7 3 2000 (some sampleTemplate), []),
     (sampleEnv 7 3 2001 (some sampleTemplate), [])]
    (sampleEnv 7 3 2002 none)
    (FormatHashBuffers_pdata ⟨2, 5, 33436672514010, 2000, 7, 0⟩)
    ⟨2, 5, 33436672514010, 2000, 7, 0⟩ 0 [⟨1, [7]⟩, ⟨1, [1]⟩] rfl rfl
    (decodeWork_pdata ⟨2, 5, 33436672514010, 2000, 7, 0⟩ (by decide)) (by decide)).2

end SkeinCoin
